import Mathlib

/-!
# Half-Life Asset Manager: main window and studio model provider

A shallow embedding of `src/hlam/ui/MainWindow.cpp` and of
`src/hlam/plugins/halflife/studiomodel/StudioModelAssetProvider.cpp`.

Conventions of the embedding.

* A C++ object that the window points to (`Asset*`) is named by a natural number, its
  identity; the objects owned by the window live in the `_assets` vector.
* Member functions take the window state and return the new one.  The result is an
  `Option`: `none` stands for undefined behaviour of the C++ code (indexing a vector out
  of bounds, calling through a null pointer, a failed `assert`) and for a loop that ran
  out of the fuel it was given.
* Objects whose code is outside the window (the user answering a dialog, `Asset::Save`,
  the asset provider registry, the file system, ...) are read from an environment `Env`.
  Calls made to them are appended to the `calls` log of the window, in program order.
* Calls that only repaint the user interface (menu enabling, window title, debug
  logging) are left out.
-/

namespace HLAM

/-! ## Data model -/

/-- Value of `QMessageBox::StandardButton::Save`. -/
def StandardButton.Save : Nat := 0x00000800

/-- Value of `QMessageBox::StandardButton::Cancel`. -/
def StandardButton.Cancel : Nat := 0x00400000

/-- Value of `QMessageBox::StandardButton::Discard`. -/
def StandardButton.Discard : Nat := 0x00800000

/-- Result of `MainWindow::TryLoadAsset`. -/
inductive LoadResult where
  | Success
  | Cancelled
  | Failed
  deriving DecidableEq, Repr

/-- An asset owned by the window: the identity of the object, `GetFileName()` and
`GetUndoStack()->isClean()`.  The undo stack and the edit widget of an asset are named
by the identity of the asset. -/
structure Asset where
  id : Nat
  fileName : String
  clean : Bool
  deriving DecidableEq, Repr

/-- A page of the `_assetTabs` tab widget: the edit widget shown and the tab text. -/
structure Tab where
  widget : Nat
  text : String
  deriving DecidableEq, Repr

/-- A `QVariant` as stored in the settings: invalid, a string or a byte array. -/
inductive QVariant where
  | invalid
  | string (s : String)
  | byteArray (b : List Nat)
  deriving DecidableEq, Repr

/-- A `QScreen`: its identity and `name()`. -/
structure Screen where
  id : Nat
  name : String
  deriving DecidableEq, Repr

/-- Calls made by the window to objects outside it. -/
inductive Call where
  /-- Call of `QMessageBox::critical(this, title, ...)` with the texts put into the message. -/
  | critical (title : String) (detail : List String)
  /-- Call of `QMessageBox::question` about the asset with this file name, offering `buttons`. -/
  | question (fileName : String) (buttons : Nat)
  /-- Call of `asset->Save()`. -/
  | assetSave (asset : Nat)
  /-- Call of `asset->TryRefresh()`. -/
  | assetTryRefresh (asset : Nat)
  /-- Call of `asset->SetActive(active)`. -/
  | assetSetActive (asset : Nat) (active : Bool)
  /-- Call of `asset->PopulateAssetMenu(menu)`. -/
  | assetPopulateMenu (asset : Nat)
  /-- Call of `asset->ExitFullscreen(fullscreenWidget)`. -/
  | assetExitFullscreen (asset : Nat)
  /-- Call of `_fullscreenWidget->ExitFullscreen()`. -/
  | fullscreenExit
  /-- Call of `emit _editorContext->ActiveAssetChanged(asset)`. -/
  | activeAssetChanged (asset : Option Nat)
  /-- Call of `_undoGroup->setActiveStack(stack)`. -/
  | setActiveStack (stack : Option Nat)
  /-- Call of `GetAssetProviderRegistry()->Load(fileName)`. -/
  | registryLoad (fileName : String)
  /-- Call of `GetRecentFiles()->Add(fileName)`. -/
  | recentFilesAdd (fileName : String)
  /-- Call of `settings->value(key)` with the key prefixed by the current group. -/
  | settingsValue (key : String)
  /-- Call of `windowHandle()->setScreen(screen)`. -/
  | setScreen (screen : Nat)
  /-- Call of `restoreGeometry(bytes)`. -/
  | restoreGeometry (bytes : List Nat)
  /-- Call of `_editorContext->GetTimer()->stop()`. -/
  | timerStop
  deriving DecidableEq, Repr

/-- What `AssetProviderRegistry::Load` does: it returns a (possibly null) asset, or
reports that the file was handed to another program, or throws `AssetException`. -/
inductive LoadOutcome where
  | asset (result : Option Asset)
  | inExternalProgram (loaded : Bool)
  | assetException (what : String)
  deriving DecidableEq, Repr

/-- A `QSettings` store: the stack of groups opened by `beginGroup` and the stored
values by full key. -/
structure QSettings where
  groups : List String
  values : List (String × QVariant)
  deriving DecidableEq, Repr

/-- Everything outside the window that its code reads. -/
structure Env where
  /-- Result of `QString::trimmed`. -/
  trimmed : String → String
  /-- Result of `QFileInfo(name).absoluteFilePath()`. -/
  absoluteFilePath : String → String
  /-- Result of `QFileInfo(name).exists()`. -/
  fileExists : String → Bool
  /-- Result of `GetAssetProviderRegistry()->Load(fileName)`. -/
  registryLoad : String → LoadOutcome
  /-- Result of `GetApplicationSettings()->OneAssetAtATime`. -/
  oneAssetAtATime : Bool
  /-- Button the user clicks in the question about the asset, given the buttons offered. -/
  question : Nat → Nat → Nat
  /-- Result of `asset->Save()`: `none` when it completes, `some what` when it throws
  `AssetException`. -/
  assetSave : Nat → Option String
  /-- Result of `asset->TryRefresh()`. -/
  assetTryRefresh : Nat → Bool
  /-- Whether `FullscreenWidget::ExitFullscreen` emits `ExitedFullscreen`, which the
  window connects to `OnExitFullscreen`. -/
  exitFullscreenEmits : Bool
  /-- Default value of the `allowCancel` parameter of `TryCloseAsset`, declared in
  `MainWindow.hpp`. -/
  allowCancelDefault : Bool
  /-- Result of `QApplication::screens()`. -/
  screens : List Screen
  /-- Result of `saveGeometry()`. -/
  saveGeometry : List Nat
  /-- Result of `QVariant::toString` of a byte array. -/
  bytesToString : List Nat → String
  /-- Result of `QVariant::toByteArray` of a string. -/
  stringToBytes : String → List Nat

/-- State of the main window. -/
structure MainWindow where
  /-- Value of `_assets`. -/
  assets : List Asset
  /-- Pages of `_assetTabs`. -/
  tabs : List Tab
  /-- Value of `_assetTabs->currentIndex()`, `none` for -1. -/
  currentIndex : Option Nat
  /-- Value of `_currentAsset`, a guarded pointer: `none` for null. -/
  currentAsset : Option Nat
  /-- Stacks of `_undoGroup`. -/
  undoStacks : List Nat
  /-- Whether `_fullscreenWidget` is set. -/
  fullscreenWidget : Bool
  /-- Value of `windowHandle()->screen()`. -/
  screen : Screen
  /-- Value of `_editorContext->GetSettings()`. -/
  settings : QSettings
  /-- Calls made so far. -/
  calls : List Call
  deriving DecidableEq, Repr

namespace QVariant

/-- Embeds `QVariant::isValid`. -/
def isValid : QVariant → Bool
  | invalid => false
  | _ => true

/-- Embeds `QVariant::toString`. -/
def toString (env : Env) : QVariant → String
  | invalid => ""
  | string s => s
  | byteArray b => env.bytesToString b

/-- Embeds `QVariant::toByteArray`. -/
def toByteArray (env : Env) : QVariant → List Nat
  | invalid => []
  | string s => env.stringToBytes s
  | byteArray b => b

end QVariant

namespace QSettings

/-- Key of a setting in the current group: the open groups and the key joined by `/`. -/
def fullKey (s : QSettings) (key : String) : String :=
  String.intercalate "/" (s.groups ++ [key])

/-- Embeds `QSettings::beginGroup`. -/
def beginGroup (s : QSettings) (group : String) : QSettings :=
  { s with groups := s.groups ++ [group] }

/-- Embeds `QSettings::endGroup`. -/
def endGroup (s : QSettings) : QSettings :=
  { s with groups := s.groups.dropLast }

/-- Embeds `QSettings::value`: the stored value, an invalid variant when the key is absent. -/
def value (s : QSettings) (key : String) : QVariant :=
  match s.values.lookup (s.fullKey key) with
  | some v => v
  | none => .invalid

/-- Embeds `QSettings::setValue`: the value replaces the one stored under the key. -/
def setValue (s : QSettings) (key : String) (v : QVariant) : QSettings :=
  { s with values := (s.fullKey key, v) :: s.values.filter (fun kv => kv.1 != s.fullKey key) }

end QSettings

namespace MainWindow

/-- Record a call. -/
def call (w : MainWindow) (c : Call) : MainWindow :=
  { w with calls := w.calls ++ [c] }

/-- Calls recorded in `w` after the state `w0`. -/
def callsSince (w w0 : MainWindow) : List Call :=
  w.calls.drop w0.calls.length

/-- The object an `Asset*` points to, when it is one of the owned assets. -/
def deref (w : MainWindow) (asset : Nat) : Option Asset :=
  w.assets.find? (fun a => a.id == asset)

/-- Effect of `asset->GetUndoStack()->setClean()`. -/
def setClean (w : MainWindow) (asset : Nat) : MainWindow :=
  { w with assets := w.assets.map (fun a => if a.id == asset then { a with clean := true } else a) }

/-- Embeds `MainWindow::GetAsset`: `_assets[index].get()`. -/
def GetAsset (w : MainWindow) (index : Nat) : Option Asset :=
  w.assets[index]?

/-- Embeds `MainWindow::SaveAsset`. -/
def SaveAsset (env : Env) (w : MainWindow) (asset : Nat) : Option (Bool × MainWindow) :=
  match w.deref asset with
  | none => none
  | some a =>
    let w1 := w.call (.assetSave a.id)
    match env.assetSave a.id with
    | some what => some (false, w1.call (.critical "Error saving asset" [what]))
    | none => some (true, w1.setClean asset)

/-- Embeds `MainWindow::VerifyNoUnsavedChanges`. -/
def VerifyNoUnsavedChanges (env : Env) (w : MainWindow) (asset : Nat) (allowCancel : Bool) :
    Option (Bool × MainWindow) :=
  match w.deref asset with
  | none => none
  | some a =>
    if a.clean then some (true, w)
    else
      let buttons := StandardButton.Save ||| StandardButton.Discard
      let buttons := if allowCancel then buttons ||| StandardButton.Cancel else buttons
      let w1 := w.call (.question a.fileName buttons)
      let action := env.question a.id buttons
      if action = StandardButton.Save then SaveAsset env w1 asset
      else if action = StandardButton.Discard then some (true, w1)
      else some (false, w1)

/-! ### Qt containers used by the window

`QUndoGroup`, `QTabWidget` and `QSettings` are library classes.  Their behaviour is taken
from the Qt documentation; the `currentChanged` signal of the tab widget is connected to
`OnAssetTabChanged` in the constructor of the window, so emitting it runs that slot. -/

/-- Embeds `QUndoGroup::addStack`: a stack already in the group is not added again. -/
def addStack (w : MainWindow) (stack : Nat) : MainWindow :=
  if stack ∈ w.undoStacks then w else { w with undoStacks := w.undoStacks ++ [stack] }

/-- Embeds `QUndoGroup::removeStack`. -/
def removeStack (w : MainWindow) (stack : Nat) : MainWindow :=
  { w with undoStacks := w.undoStacks.filter (fun s => s != stack) }

/-- Embeds `MainWindow::OnAssetTabChanged`, the slot of `QTabWidget::currentChanged`. -/
def OnAssetTabChanged (w : MainWindow) (index : Option Nat) : Option MainWindow :=
  let w1 :=
    match w.currentAsset with
    | some current => w.call (.assetSetActive current false)
    | none => w
  match index with
  | some i =>
    match w1.GetAsset i with
    | none => none
    | some a =>
      let w2 := { w1 with currentAsset := some a.id }
      let w3 := w2.call (.setActiveStack (some a.id))
      let w4 := w3.call (.assetPopulateMenu a.id)
      let w5 := w4.call (.assetSetActive a.id true)
      some (w5.call (.activeAssetChanged (some a.id)))
  | none =>
    let w2 := { w1 with currentAsset := none }
    let w3 := w2.call (.setActiveStack none)
    some (w3.call (.activeAssetChanged none))

/-- Embeds `QTabWidget::setCurrentIndex`: a valid index other than the current one becomes
current and `currentChanged(index)` is emitted. -/
def setCurrentIndex (w : MainWindow) (index : Nat) : Option MainWindow :=
  if index < w.tabs.length ∧ w.currentIndex ≠ some index then
    OnAssetTabChanged { w with currentIndex := some index } (some index)
  else some w

/-- Embeds `QTabWidget::addTab`: the page is appended and its index returned; the first page
added becomes the current one, with `currentChanged(0)` emitted. -/
def addTab (w : MainWindow) (widget : Nat) (text : String) : Option (Nat × MainWindow) :=
  let index := w.tabs.length
  let w1 := { w with tabs := w.tabs ++ [{ widget := widget, text := text }] }
  if index = 0 then
    (OnAssetTabChanged { w1 with currentIndex := some 0 } (some 0)).map (fun w2 => (index, w2))
  else some (index, w1)

/-- Embeds `QTabWidget::removeTab`: the page is removed; when it was the current page the page
now at that position (or the last one) becomes current, when it was before the current
page the current index moves down by one; in both cases `currentChanged` is emitted, with
-1 when no page is left. -/
def removeTab (w : MainWindow) (index : Nat) : Option MainWindow :=
  if index < w.tabs.length then
    let w1 := { w with tabs := w.tabs.eraseIdx index }
    match w.currentIndex with
    | none => some w1
    | some current =>
      if index = current then
        if w1.tabs.length = 0 then
          OnAssetTabChanged { w1 with currentIndex := none } none
        else
          let next := min index (w1.tabs.length - 1)
          OnAssetTabChanged { w1 with currentIndex := some next } (some next)
      else if index < current then
        OnAssetTabChanged { w1 with currentIndex := some (current - 1) } (some (current - 1))
      else some w1
  else some w

/-- End of the lifetime of an asset: a guarded pointer to it becomes null. -/
def destroyed (w : MainWindow) (asset : Nat) : MainWindow :=
  if w.currentAsset = some asset then { w with currentAsset := none } else w

/-! ### Fullscreen -/

/-- Embeds `MainWindow::OnExitFullscreen`. -/
def OnExitFullscreen (w : MainWindow) : Option MainWindow :=
  if !w.fullscreenWidget then some w
  else
    match w.currentAsset with
    | none => none
    | some asset =>
      let w1 := w.call (.assetExitFullscreen asset)
      some { w1 with fullscreenWidget := false }

/-- The call `_fullscreenWidget->ExitFullscreen()`.  `FullscreenWidget` is declared in
`ui/FullscreenWidget.hpp`; whether it emits `ExitedFullscreen` is read from the
environment. -/
def ExitFullscreen (env : Env) (w : MainWindow) : Option MainWindow :=
  let w1 := w.call .fullscreenExit
  if env.exitFullscreenEmits then w1.OnExitFullscreen else some w1

/-! ### Closing, refreshing and loading assets -/

/-- Embeds `MainWindow::TryCloseAsset`. -/
def TryCloseAsset (env : Env) (w : MainWindow) (index : Nat) (verifyUnsavedChanges : Bool)
    (allowCancel : Bool) : Option (Bool × MainWindow) :=
  if index ≥ w.tabs.length then some (true, w)
  else
    match (if w.fullscreenWidget then w.ExitFullscreen env else some w) with
    | none => none
    | some w1 =>
      match w1.GetAsset index with
      | none => none
      | some a =>
        match (if verifyUnsavedChanges then VerifyNoUnsavedChanges env w1 a.id allowCancel
               else some (true, w1)) with
        | none => none
        | some (false, w2) => some (false, w2)
        | some (true, w2) =>
          match w2.GetAsset index with
          | none => none
          | some asset =>
            let w3 := w2.removeStack asset.id
            let w4 := w3.call (.assetSetActive asset.id false)
            let w5 := { w4 with assets := w4.assets.eraseIdx index }
            match w5.removeTab index with
            | none => none
            | some w6 => some (true, w6.destroyed asset.id)

/-- Embeds `MainWindow::OnRefreshAsset`. -/
def OnRefreshAsset (env : Env) (w : MainWindow) : Option (Bool × MainWindow) :=
  match w.currentAsset with
  | some asset =>
    match VerifyNoUnsavedChanges env w asset true with
    | none => none
    | some (false, w1) => some (false, w1)
    | some (true, w1) => some (env.assetTryRefresh asset, w1.call (.assetTryRefresh asset))
  | none => some (false, w)

/-- The loop of `TryLoadAsset` that looks for an open asset with the given file name,
from tab `i` on with `n` tabs left: `some (some i)` is the first tab found, `some none`
means that no tab has it. -/
def findLoaded (w : MainWindow) (fileName : String) : Nat → Nat → Option (Option Nat)
  | _, 0 => some none
  | i, n + 1 =>
    match w.GetAsset i with
    | none => none
    | some asset =>
      if asset.fileName = fileName then some (some i) else findLoaded w fileName (i + 1) n

/-- Embeds `MainWindow::TryLoadAsset`. -/
def TryLoadAsset (env : Env) (w : MainWindow) (fileName : String) :
    Option (LoadResult × MainWindow) :=
  let trimmedName := env.trimmed fileName
  if trimmedName.isEmpty then
    some (.Failed, w.call (.critical "Error loading asset" ["Asset filename is empty"]))
  else
    let fileName := env.absoluteFilePath trimmedName
    if !env.fileExists trimmedName then
      some (.Failed, w.call (.critical "Error loading asset" [fileName, "does not exist"]))
    else
      match findLoaded w fileName 0 w.tabs.length with
      | none => none
      | some (some i) =>
        match w.setCurrentIndex i with
        | none => none
        | some w1 =>
          match OnRefreshAsset env w1 with
          | none => none
          | some (true, w2) => some (.Success, w2.call (.recentFilesAdd fileName))
          | some (false, w2) => some (.Cancelled, w2)
      | some none =>
        match (if env.oneAssetAtATime then TryCloseAsset env w 0 true env.allowCancelDefault
               else some (true, w)) with
        | none => none
        | some (false, w1) => some (.Cancelled, w1)
        | some (true, w1) =>
          let w2 := w1.call (.registryLoad fileName)
          match env.registryLoad fileName with
          | .assetException what =>
            some (.Failed, w2.call (.critical "Error loading asset" [fileName, what]))
          | .inExternalProgram loaded =>
            some (.Success, if loaded then w2.call (.recentFilesAdd fileName) else w2)
          | .asset none =>
            some (.Failed, w2.call (.critical "Error loading asset" [fileName, "Null asset returned"]))
          | .asset (some result) =>
            let currentFileName := result.fileName
            let w3 := w2.addStack result.id
            let w4 := { w3 with assets := w3.assets ++ [result] }
            match w4.addTab result.id currentFileName with
            | none => none
            | some (index, w5) =>
              if index ≠ w5.assets.length - 1 then none
              else
                match w5.setCurrentIndex index with
                | none => none
                | some w6 => some (.Success, w6.call (.recentFilesAdd fileName))

/-! ### Window placement and closing the window -/

/-- Embeds `MainWindow::LoadSettings`. -/
def LoadSettings (env : Env) (w : MainWindow) : MainWindow :=
  let settings := w.settings.beginGroup "MainWindow"
  let screenName := settings.value "ScreenName"
  let w1 := w.call (.settingsValue (settings.fullKey "ScreenName"))
  let geometry := settings.value "ScreenGeometry"
  let w2 := w1.call (.settingsValue (settings.fullKey "ScreenGeometry"))
  let w3 := { w2 with settings := settings.endGroup }
  let w4 :=
    if screenName.isValid then
      let name := screenName.toString env
      match env.screens.find? (fun screen => screen.name == name) with
      | some screen => { w3 with screen := screen }.call (.setScreen screen.id)
      | none => w3
    else w3
  if geometry.isValid then w4.call (.restoreGeometry (geometry.toByteArray env)) else w4

/-- First loop of `closeEvent`: every asset from tab `i` on is asked about unsaved
changes; `false` as soon as one request is refused. -/
def verifyAll (env : Env) : Nat → Nat → MainWindow → Option (Bool × MainWindow)
  | 0, i, w => if i < w.tabs.length then none else some (true, w)
  | fuel + 1, i, w =>
    if i < w.tabs.length then
      match w.GetAsset i with
      | none => none
      | some asset =>
        match VerifyNoUnsavedChanges env w asset.id true with
        | none => none
        | some (false, w1) => some (false, w1)
        | some (true, w1) => verifyAll env fuel (i + 1) w1
    else some (true, w)

/-- Second loop of `closeEvent`: the first asset is closed until no tab is left. -/
def closeAll (env : Env) : Nat → MainWindow → Option MainWindow
  | 0, w => if w.tabs.length > 0 then none else some w
  | fuel + 1, w =>
    if w.tabs.length > 0 then
      match TryCloseAsset env w 0 false env.allowCancelDefault with
      | none => none
      | some (_, w1) => closeAll env fuel w1
    else some w

/-- Embeds `MainWindow::closeEvent`; the result tells whether the event was accepted. -/
def closeEvent (env : Env) (fuel : Nat) (w : MainWindow) : Option (Bool × MainWindow) :=
  match w.OnExitFullscreen with
  | none => none
  | some w1 =>
    match verifyAll env fuel 0 w1 with
    | none => none
    | some (false, w2) => some (false, w2)
    | some (true, w2) =>
      match closeAll env fuel w2 with
      | none => none
      | some w3 =>
        let name := w3.screen.name
        let settings := w3.settings.beginGroup "MainWindow"
        let settings := settings.setValue "ScreenName" (.string name)
        let settings := settings.setValue "ScreenGeometry" (.byteArray env.saveGeometry)
        let w4 := { w3 with settings := settings.endGroup }
        let w5 := w4.call .timerStop
        some (true, { w5 with currentAsset := none, tabs := [], currentIndex := none })

end MainWindow

/-! ## Studio model asset provider -/

namespace studiomodel

/-- Result of `EditorContext::TryLaunchExternalProgram`, declared in
`ui/EditorContext.hpp`. -/
inductive LaunchExternalProgramResult where
  | Success
  | Cancelled
  | Failed
  deriving DecidableEq, Repr

/-- What `StudioModelAssetProvider::Load` does: it returns a new `StudioModelAsset` with
a file name and an editable model, or `AssetLoadInExternalProgram`, or it throws
`AssetException`. -/
inductive ProviderLoad (Model : Type) where
  | asset (fileName : String) (model : Model)
  | inExternalProgram (loaded : Bool)
  | assetException (what : String)

/-- Everything outside `StudioModelAssetProvider::Load` that it reads; `Raw` is
`studiomdl::StudioModel` and `Model` is `studiomdl::EditableStudioModel`. -/
structure ProviderEnv (Raw Model : Type) where
  /-- Result of `studiomdl::LoadStudioModel`: the model, or the message of the `AssetException`
  thrown. -/
  loadStudioModel : String → Except String Raw
  /-- Result of `studiomdl::IsXashModel`. -/
  isXashModel : Raw → Bool
  /-- Result of `studiomdl::ConvertToEditable`. -/
  convertToEditable : Raw → Model
  /-- Result of `_editorContext->TryLaunchExternalProgram` for the Xash model viewer and the file. -/
  tryLaunchExternalProgram : String → LaunchExternalProgramResult
  /-- Result of `QFileInfo::suffix`. -/
  suffix : String → String
  /-- Result of `QFileInfo::path`. -/
  path : String → String
  /-- Result of `QFileInfo::completeBaseName`. -/
  completeBaseName : String → String
  /-- Constant `StudioModelExtension`, declared in `StudioModelAssetProvider.hpp`. -/
  StudioModelExtension : String
  /-- Constant `StudioModelPS2Extension`, declared in `StudioModelAssetProvider.hpp`. -/
  StudioModelPS2Extension : String

/-- Embeds `StudioModelAssetProvider::Load`. -/
def Load {Raw Model : Type} (env : ProviderEnv Raw Model) (fileName : String) :
    ProviderLoad Model :=
  match env.loadStudioModel fileName with
  | .error what => .assetException what
  | .ok studioModel =>
    if env.isXashModel studioModel then
      let result := env.tryLaunchExternalProgram fileName
      if result ≠ LaunchExternalProgramResult.Failed then
        .inExternalProgram (result == LaunchExternalProgramResult.Success)
      else
        .assetException ("File \"" ++ fileName
          ++ "\" is a Xash model and cannot be opened by this program."
          ++ "\nSet the Xash Model Viewer executable setting to open the model through that program instead.")
    else
      let editableStudioModel := env.convertToEditable studioModel
      let updatedFileName :=
        if env.suffix fileName = env.StudioModelPS2Extension then
          env.path fileName ++ "/" ++ env.completeBaseName fileName ++ "."
            ++ env.StudioModelExtension
        else fileName
      .asset updatedFileName editableStudioModel

/-- A provider environment: the file `/models/x` is a Xash model, launching the external
viewer is cancelled by the user, and file names are split as `QFileInfo` does for
`/models/gman.dol`. -/
def sampleProviderEnv : ProviderEnv String String where
  loadStudioModel := fun s => if s == "/missing.mdl" then .error "cannot open" else .ok s
  isXashModel := fun s => s == "/models/x"
  convertToEditable := fun s => s
  tryLaunchExternalProgram := fun _ => .Cancelled
  suffix := fun s => if s == "/models/gman.dol" then "dol" else "mdl"
  path := fun _ => "/models"
  completeBaseName := fun _ => "gman"
  StudioModelExtension := "mdl"
  StudioModelPS2Extension := "dol"

end studiomodel

/-! ## Auxiliary predicates -/

/-- Calls to the provider registry and to the recent files. -/
def Call.isLoadOrRecent : Call → Bool
  | .registryLoad _ => true
  | .recentFilesAdd _ => true
  | _ => false

/-- Reads of the settings. -/
def Call.isSettingsValue : Call → Bool
  | .settingsValue _ => true
  | _ => false

namespace MainWindow

/-- Consistency of the window state: there are as many tabs as assets, distinct assets
are distinct objects, the current tab exists and `_currentAsset` is the asset of the
current tab, and a fullscreen widget is only there while an asset is current. -/
def WellFormed (w : MainWindow) : Prop :=
  w.tabs.length = w.assets.length ∧
  (w.assets.map Asset.id).Nodup ∧
  (∀ i, w.currentIndex = some i →
    i < w.tabs.length ∧ w.currentAsset = (w.assets[i]?).map Asset.id) ∧
  (w.fullscreenWidget = true → w.currentAsset ≠ none)

/-- The screen name stored for the window: key `ScreenName` of group `MainWindow`. -/
def storedScreenName (w : MainWindow) : QVariant :=
  (w.settings.beginGroup "MainWindow").value "ScreenName"

/-- The geometry stored for the window: key `ScreenGeometry` of group `MainWindow`. -/
def storedGeometry (w : MainWindow) : QVariant :=
  (w.settings.beginGroup "MainWindow").value "ScreenGeometry"

/-- Calls none of which goes to the provider registry or to the recent files. -/
def quiet (l : List Call) : Prop :=
  ∀ c ∈ l, c.isLoadOrRecent = false

/-- The answer of `VerifyNoUnsavedChanges` for an asset as a function of the asset and
the environment alone; `VerifyNoUnsavedChanges_verdict` shows that the member function
returns it.  Used to carry the answer from one window state to another. -/
def verdict (env : Env) (a : Asset) (allowCancel : Bool) : Bool :=
  let buttons := StandardButton.Save ||| StandardButton.Discard
  let buttons := if allowCancel then buttons ||| StandardButton.Cancel else buttons
  a.clean
    || (env.question a.id buttons == StandardButton.Save && (env.assetSave a.id).isNone)
    || env.question a.id buttons == StandardButton.Discard

end MainWindow

/-! ## Sample environment and windows -/

/-- An environment in which the user answers Cancel for asset 1 and Save for the others,
saving asset 2 fails, and the file `/gone.mdl` does not exist. -/
def sampleEnv : Env where
  trimmed := fun s => s
  absoluteFilePath := fun s => s
  fileExists := fun s => s != "/gone.mdl"
  registryLoad := fun s =>
    if s == "/bad.mdl" then .assetException "bad" else .asset (some ⟨7, s, true⟩)
  oneAssetAtATime := false
  question := fun a _ => if a == 1 then StandardButton.Cancel else StandardButton.Save
  assetSave := fun a => if a == 2 then some "disk full" else none
  assetTryRefresh := fun _ => true
  exitFullscreenEmits := true
  allowCancelDefault := true
  screens := [⟨0, "A"⟩, ⟨1, "B"⟩]
  saveGeometry := [1, 2, 3]
  bytesToString := fun _ => ""
  stringToBytes := fun _ => []

/-- A window with three assets, the second one current; asset 1 and 2 have unsaved
changes. -/
def sampleWindow : MainWindow where
  assets := [⟨0, "/a.mdl", false⟩, ⟨1, "/b.mdl", false⟩, ⟨2, "/gone.mdl", false⟩]
  tabs := [⟨0, "/a.mdl"⟩, ⟨1, "/b.mdl"⟩, ⟨2, "/gone.mdl"⟩]
  currentIndex := some 1
  currentAsset := some 1
  undoStacks := [0, 1, 2]
  fullscreenWidget := false
  screen := ⟨1, "B"⟩
  settings := ⟨[], []⟩
  calls := []

/-- A window with two assets without unsaved changes, the first one current. -/
def sampleCleanWindow : MainWindow where
  assets := [⟨0, "/a.mdl", true⟩, ⟨1, "/b.mdl", true⟩]
  tabs := [⟨0, "/a.mdl"⟩, ⟨1, "/b.mdl"⟩]
  currentIndex := some 0
  currentAsset := some 0
  undoStacks := [0, 1]
  fullscreenWidget := false
  screen := ⟨1, "B"⟩
  settings := ⟨[], [("MainWindow/ScreenName", .string "A")]⟩
  calls := []

/-- The window `sampleCleanWindow` after `closeEvent`. -/
def sampleClosedWindow : MainWindow :=
  ((MainWindow.closeEvent sampleEnv 2 sampleCleanWindow).getD (false, sampleCleanWindow)).2

/-- The sample environment with `OneAssetAtATime` set. -/
def sampleEnvOne : Env :=
  { sampleEnv with oneAssetAtATime := true }

/-- The sample environment with `OneAssetAtATime` set and a user who answers Cancel to
every question. -/
def sampleEnvRefuse : Env :=
  { sampleEnv with oneAssetAtATime := true, question := fun _ _ => StandardButton.Cancel }

/-- The sample environment with three screens, two of them named `B`. -/
def sampleEnvScreens : Env :=
  { sampleEnv with screens := [⟨5, "C"⟩, ⟨6, "B"⟩, ⟨7, "B"⟩] }

/-! ## Studio model container (`StudioModel.hpp`) -/

namespace studiomdl

/-- The fields of a sequence descriptor `mstudioseqdesc_t` that `GetAnim` reads; both
are C `int`s. -/
structure mstudioseqdesc_t where
  seqgroup : Int
  animindex : Int
  deriving DecidableEq, Repr

/-- The class `StudioModel`.  An owning pointer is the address it holds, `none` for
null. -/
structure StudioModel where
  fileName : String
  studioHeader : Option Int
  textureHeader : Option Int
  sequenceHeaders : List (Option Int)
  isDol : Bool
  deriving DecidableEq, Repr

namespace StudioModel

/-- The constructor of `StudioModel`; `assert(_studioHeader)` fails on a null studio
header. -/
def construct (fileName : String) (studioHeader textureHeader : Option Int)
    (sequenceHeaders : List (Option Int)) (isDol : Bool) : Option StudioModel :=
  if studioHeader.isSome then
    some { fileName := fileName, studioHeader := studioHeader, textureHeader := textureHeader,
           sequenceHeaders := sequenceHeaders, isDol := isDol }
  else none

/-- Embeds `StudioModel::GetStudioHeader`. -/
def GetStudioHeader (m : StudioModel) : Option Int :=
  m.studioHeader

/-- Embeds `StudioModel::HasSeparateTextureHeader`. -/
def HasSeparateTextureHeader (m : StudioModel) : Bool :=
  m.textureHeader.isSome

/-- Embeds `StudioModel::GetTextureHeader`. -/
def GetTextureHeader (m : StudioModel) : Option Int :=
  match m.textureHeader with
  | some textureHeader => some textureHeader
  | none => m.studioHeader

/-- Conversion of an `int` to the 64 bit `size_t` that indexes a `std::vector`. -/
def toSizeT (i : Int) : Nat :=
  (i % 2 ^ 64).toNat

/-- Embeds `StudioModel::GetAnim`; the result is the address computed.  The function
`unused2` gives the field `unused2` of the sequence group that
`studiohdr_t::GetSequenceGroup` (declared in `StudioModelFileFormat.hpp`) returns for an
index.  The result is `none` when the studio header or the sequence header used is
null, and when the index into `_sequenceHeaders` is out of bounds. -/
def GetAnim (m : StudioModel) (unused2 : Int → Int) (pseqdesc : mstudioseqdesc_t) :
    Option Int :=
  match m.studioHeader with
  | none => none
  | some studioHeader =>
    if pseqdesc.seqgroup = 0 then
      some (studioHeader + unused2 pseqdesc.seqgroup + pseqdesc.animindex)
    else
      match m.sequenceHeaders[toSizeT (pseqdesc.seqgroup - 1)]? with
      | none => none
      | some none => none
      | some (some sequenceHeader) => some (sequenceHeader + pseqdesc.animindex)

end StudioModel

/-- A model with a separate texture header at address 4096 and two sequence group
headers. -/
def sampleModel : StudioModel where
  fileName := "gman.mdl"
  studioHeader := some 1024
  textureHeader := some 4096
  sequenceHeaders := [some 8192, some 12288]
  isDol := false

end studiomdl

/-! ## Search paths of the file system (`MainWindow::SetupFileSystem`) -/

namespace FileSystem

end FileSystem

namespace MainWindow

end MainWindow

namespace hlmv

/-- Calls made by `ToolApplication::Run` and `CheckSingleInstance`. -/
inductive AppCall where
  | configureApplication (programName : String)
  | configureOpenGL
  | createEditorContext
  | parseCommandLine
  | newSingleInstance
  | singleInstanceCreate (programName fileName : String)
  | connectFileNameReceived
  | newMainWindow
  | tryLoadAsset (fileName : String)
  | showMaximized
  | exec
  deriving DecidableEq, Repr

/-- What `Run` reads from outside. -/
structure AppEnv where
  /-- Result of `GetGeneralSettings()->ShouldUseSingleInstance()`. -/
  shouldUseSingleInstance : Bool
  /-- Result of `SingleInstance::Create(programName, fileName)`. -/
  singleInstanceCreate : String → String → Bool
  /-- Result of `ParseCommandLine`. -/
  commandLineFileName : String
  /-- Result of `app.exec()`. -/
  exec : Int

/-- State of the `ToolApplication`: whether `_singleInstance` and `_mainWindow` are set,
and the calls made. -/
structure ToolApplication where
  singleInstance : Bool
  mainWindow : Bool
  calls : List AppCall
  deriving DecidableEq, Repr

/-- Value of `EXIT_SUCCESS`. -/
def EXIT_SUCCESS : Int := 0

namespace ToolApplication

/-- Record a call. -/
def call (app : ToolApplication) (c : AppCall) : ToolApplication :=
  { app with calls := app.calls ++ [c] }

/-- Embeds `ToolApplication::CheckSingleInstance`. -/
def CheckSingleInstance (env : AppEnv) (app : ToolApplication) (programName fileName : String) :
    Bool × ToolApplication :=
  if env.shouldUseSingleInstance then
    let app := { app.call .newSingleInstance with singleInstance := true }
    let app := app.call (.singleInstanceCreate programName fileName)
    if !env.singleInstanceCreate programName fileName then (true, app)
    else (false, app.call .connectFileNameReceived)
  else (false, app)

/-- Embeds `ToolApplication::Run`, the body of its `try` block. -/
def Run (env : AppEnv) (app : ToolApplication) : Int × ToolApplication :=
  let programName := "Half-Life Model Viewer"
  let app := app.call (.configureApplication programName)
  let app := app.call .configureOpenGL
  let app := app.call .createEditorContext
  let app := app.call .parseCommandLine
  let fileName := env.commandLineFileName
  let (exit, app) := CheckSingleInstance env app programName fileName
  if exit then (EXIT_SUCCESS, app)
  else
    let app := { app.call .newMainWindow with mainWindow := true }
    let app := if !fileName.isEmpty then app.call (.tryLoadAsset fileName) else app
    let app := app.call .showMaximized
    (env.exec, app.call .exec)

end ToolApplication

/-- An environment in which another instance is already running. -/
def sampleAppEnv : AppEnv where
  shouldUseSingleInstance := true
  singleInstanceCreate := fun _ _ => false
  commandLineFileName := "gman.mdl"
  exec := 3

/-- The application before `Run`. -/
def initialApp : ToolApplication where
  singleInstance := false
  mainWindow := false
  calls := []

end hlmv

/-- The sample window while its current asset is shown in fullscreen. -/
def sampleFullscreenWindow : MainWindow :=
  { sampleWindow with fullscreenWidget := true }

/-! ## Default ground texture (`StudioModelAssetProvider::Initialize`) -/

namespace studiomodel

/-- A pixel `graphics::RGB24`. -/
structure RGB24 where
  r : Nat
  g : Nat
  b : Nat
  deriving DecidableEq, Repr

/-- Value of `side` in `Initialize`. -/
def side : Nat := 64

/-- Value of `pixelCount` in `Initialize`. -/
def pixelCount : Nat := side * side

/-- Value of `groundColor` in `Initialize`. -/
def groundColor : RGB24 := ⟨90, 90, 90⟩

/-- Value of `lineColor` in `Initialize`. -/
def lineColor : RGB24 := ⟨0, 0, 0⟩

/-- A loop `for (int i = start; i < start + count; ++i) pixels[index(i)] = color;` over
the pixel array; `none` when a write is outside the array. -/
def paint (index : Nat → Nat) (color : RGB24) : Nat → Nat → List RGB24 → Option (List RGB24)
  | _, 0, pixels => some pixels
  | i, count + 1, pixels =>
    if index i < pixels.length then
      paint index color (i + 1) count (pixels.set (index i) color)
    else none

/-- The loop over `edge` in `Initialize`, from `edge` on with `count` rounds left: each
round paints row `middle` and then column `middle` of the texture. -/
def paintEdges : Nat → Nat → List RGB24 → Option (List RGB24)
  | _, 0, pixels => some pixels
  | edge, count + 1, pixels =>
    let middle := side / 2 - edge
    match paint (fun i => side * middle + i) lineColor 0 side pixels with
    | none => none
    | some pixels =>
      match paint (fun i => middle + i * side) lineColor 0 side pixels with
      | none => none
      | some pixels => paintEdges (edge + 1) count pixels

/-- The pixels handed to `glTexImage2D` by `StudioModelAssetProvider::Initialize`, row
after row. -/
def defaultGroundTexture : Option (List RGB24) :=
  paintEdges 0 2 (List.replicate pixelCount groundColor)

/-- The pixels are ground colour except where `line` holds, and there they are line
colour. -/
def Painted (line : Nat → Prop) (pixels : List RGB24) : Prop :=
  pixels.length = pixelCount ∧
  ∀ j, j < pixelCount →
    (line j → pixels[j]? = some lineColor) ∧ (¬ line j → pixels[j]? = some groundColor)

end studiomodel

/-! ## Tool menus and file filters of the window constructor (`MainWindow::MainWindow`) -/

/-- An asset provider as the window constructor uses it: `GetProviderName`, the menu that
`CreateToolMenu` returns (`none` for a null pointer), the bits of `GetFeatures` and the
list of `GetFileTypes`. -/
structure AssetProvider where
  providerName : String
  toolMenu : Option Nat
  features : Nat
  fileTypes : List String
  deriving DecidableEq, Repr

namespace QString

/-- Case-insensitive `QString::compare` on the characters of two strings: the difference
of the first pair of characters whose case-folded values differ, and otherwise `-1`, `0`
or `1` as the first string is shorter, of the same length, or longer. The case folding of
Qt is the parameter `fold`. -/
def compareChars (fold : Char → Nat) : List Char → List Char → Int
  | [], [] => 0
  | [], _ :: _ => -1
  | _ :: _, [] => 1
  | a :: as, b :: bs =>
    if fold a = fold b then compareChars fold as bs else (fold a : Int) - (fold b : Int)

/-- The call `lhs.compare(rhs, Qt::CaseInsensitive)`. -/
def compare (fold : Char → Nat) (lhs rhs : String) : Int :=
  compareChars fold lhs.data rhs.data

end QString

namespace MainWindow

/-- The comparison the constructor passes to `std::sort`. -/
def menuLess (fold : Char → Nat) (lhs rhs : String × Nat) : Prop :=
  QString.compare fold lhs.1 rhs.1 < 0

instance (fold : Char → Nat) : DecidableRel (menuLess fold) :=
  fun lhs rhs => inferInstanceAs (Decidable (QString.compare fold lhs.1 rhs.1 < 0))

/-- The tool menus in the order in which the constructor inserts them before the separator
of the Tools menu: one pair per provider whose `CreateToolMenu` is not null, sorted by
`std::sort` with `menuLess`. The sort is an insertion sort, which is what `std::sort` runs
on a short range. -/
def toolMenus (fold : Char → Nat) (providers : List AssetProvider) : List (String × Nat) :=
  let menus := providers.filterMap (fun provider =>
    match provider.toolMenu with
    | some menu => some (provider.providerName, menu)
    | none => none)
  List.insertionSort (menuLess fold) menus

end MainWindow

/-- Three providers, the second without a tool menu. -/
def sampleProviders : List AssetProvider :=
  [⟨"studiomodel", some 1, 3, ["mdl", "dol"]⟩, ⟨"Sprite", none, 1, ["spr"]⟩,
   ⟨"Map", some 2, 1, ["bsp"]⟩]

namespace QString

/-- The value of an ASCII digit, as `QChar::digitValue` gives it; `none` stands for `-1`. -/
def digitValue (c : Char) : Option Nat :=
  if '0' ≤ c ∧ c ≤ '9' then some (c.toNat - '0'.toNat) else none

/-- The place marker that starts right after a percent sign, if there is one: an optional
`L`, then one or two digits. The result is the number of the marker and the number of
characters it takes after the percent sign. -/
def escapeAt (rest : List Char) : Option (Nat × Nat) :=
  let afterL : List Char × Nat :=
    match rest with
    | 'L' :: tail => (tail, 1)
    | _ => (rest, 0)
  match afterL.1 with
  | [] => none
  | c :: tail =>
    match digitValue c with
    | none => none
    | some escape =>
      match tail with
      | [] => some (escape, afterL.2 + 1)
      | next :: _ =>
        match digitValue next with
        | some next_escape => some (10 * escape + next_escape, afterL.2 + 2)
        | none => some (escape, afterL.2 + 1)

/-- The lowest place-marker number in a string (`min_escape` of `findArgEscapes`); `none`
when the string has no place marker (`occurrences == 0`). -/
def findArgEscapes : List Char → Option Nat
  | [] => none
  | c :: rest =>
    if c = '%' then
      match escapeAt rest with
      | some (escape, _) =>
        match findArgEscapes rest with
        | some min_escape => some (min escape min_escape)
        | none => some escape
      | none => findArgEscapes rest
    else findArgEscapes rest

/-- The string with every place marker of number `min_escape` replaced by `a`
(`replaceArgEscapes` with field width 0). `skip` counts the characters of a marker that has
just been replaced and are still to be passed over. -/
def replaceArgEscapes (min_escape : Nat) (a : List Char) : Nat → List Char → List Char
  | _, [] => []
  | skip + 1, _ :: rest => replaceArgEscapes min_escape a skip rest
  | 0, c :: rest =>
    if c = '%' then
      match escapeAt rest with
      | some (escape, length) =>
        if escape = min_escape then a ++ replaceArgEscapes min_escape a length rest
        else c :: replaceArgEscapes min_escape a 0 rest
      | none => c :: replaceArgEscapes min_escape a 0 rest
    else c :: replaceArgEscapes min_escape a 0 rest

/-- The call `s.arg(a)`: the lowest-numbered place marker of `s` is replaced by `a`
wherever it occurs; a string without place marker is returned as it is. -/
def arg (s a : String) : String :=
  match findArgEscapes s.data with
  | none => s
  | some min_escape => ⟨replaceArgEscapes min_escape a.data 0 s.data⟩

/-- The call `s.isEmpty()`. -/
def isEmpty (s : String) : Bool :=
  s.data.isEmpty

/-- The call `list.join(separator)` of `QStringList`. -/
def join (list : List String) (separator : String) : String :=
  ⟨List.intercalate separator.data (list.map String.data)⟩

end QString

namespace MainWindow

/-- The lambda `setupFileFilters` of the constructor. `feature` is the bit of the
`ProviderFeature` asked for. -/
def setupFileFilters (providers : List AssetProvider) (feature : Nat) : String :=
  let filters : List String := providers.foldl (fun filters provider =>
    if provider.features &&& feature ≠ 0 then
      let fileTypes := provider.fileTypes.map (fun fileType => QString.arg "*.%1" fileType)
      filters ++ [QString.arg (QString.arg "%1 Files (%2)" provider.providerName)
        (QString.join fileTypes " ")]
    else filters) []
  let fileFilters : String := if ¬ filters.isEmpty then QString.join filters ";;" else ""
  let fileFilters : String := if ¬ QString.isEmpty fileFilters then fileFilters ++ ";;" else fileFilters
  fileFilters ++ "All Files (*.*)"

/-- The entry that the file filter is meant to have for a provider. -/
def filterEntry (provider : AssetProvider) : String :=
  provider.providerName ++ " Files (" ++
    QString.join (provider.fileTypes.map (fun fileType => "*." ++ fileType)) " " ++ ")"

end MainWindow

/-- A provider whose name holds the place marker `%2`. -/
def sampleMarkerProviders : List AssetProvider :=
  [⟨"%2", none, 1, ["mdl"]⟩]

/-- Providers of which the first has a percent sign and the place marker `%7` in its name
and the second, named `%2`, lacks the feature with bit 1. -/
def samplePercentProviders : List AssetProvider :=
  [⟨"100% Maps %7", none, 1, ["bsp", "map"]⟩, ⟨"%2", none, 2, ["spr"]⟩,
   ⟨"studiomodel", some 1, 3, ["mdl"]⟩]

/-! ## The assets and their tabs -/

namespace MainWindow

/-- Tab `i` shows asset `i`: the edit widgets of the tabs are, in order, the edit widgets of
the owned assets.  In particular there are as many tabs as assets. -/
def TabsShowAssets (w : MainWindow) : Prop :=
  w.tabs.map Tab.widget = w.assets.map Asset.id

/-- The window as its constructor leaves it: no asset, no tab, no current asset and no
fullscreen widget. -/
def initial (screen : Screen) (settings : QSettings) : MainWindow where
  assets := []
  tabs := []
  currentIndex := none
  currentAsset := none
  undoStacks := []
  fullscreenWidget := false
  screen := screen
  settings := settings
  calls := []

/-- The second loop of `closeEvent` with its calls of `TryCloseAsset` counted: the result
is the number of calls and the window that `closeAll` leaves. -/
def closeAllCount (env : Env) : Nat → MainWindow → Option (Nat × MainWindow)
  | 0, w => if w.tabs.length > 0 then none else some (0, w)
  | fuel + 1, w =>
    if w.tabs.length > 0 then
      match TryCloseAsset env w 0 false env.allowCancelDefault with
      | none => none
      | some (_, w1) => (closeAllCount env fuel w1).map (fun counted => (counted.1 + 1, counted.2))
    else some (0, w)

end MainWindow

instance (w : MainWindow) : Decidable w.TabsShowAssets :=
  inferInstanceAs (Decidable (w.tabs.map Tab.widget = w.assets.map Asset.id))

/-! # Theorems -/

open MainWindow

/-! ## Saving and the unsaved-changes question -/

@[simp]
theorem call_assets (w : MainWindow) (c : Call) : (w.call c).assets = w.assets := rfl

@[simp]
theorem call_tabs (w : MainWindow) (c : Call) : (w.call c).tabs = w.tabs := rfl

@[simp]
theorem call_currentIndex (w : MainWindow) (c : Call) :
    (w.call c).currentIndex = w.currentIndex := rfl

@[simp]
theorem call_currentAsset (w : MainWindow) (c : Call) :
    (w.call c).currentAsset = w.currentAsset := rfl

@[simp]
theorem call_undoStacks (w : MainWindow) (c : Call) :
    (w.call c).undoStacks = w.undoStacks := rfl

@[simp]
theorem call_fullscreenWidget (w : MainWindow) (c : Call) :
    (w.call c).fullscreenWidget = w.fullscreenWidget := rfl

@[simp]
theorem call_screen (w : MainWindow) (c : Call) : (w.call c).screen = w.screen := rfl

@[simp]
theorem call_settings (w : MainWindow) (c : Call) :
    (w.call c).settings = w.settings := rfl

@[simp]
theorem call_calls (w : MainWindow) (c : Call) : (w.call c).calls = w.calls ++ [c] := rfl

@[simp]
theorem call_deref (w : MainWindow) (c : Call) (asset : Nat) :
    (w.call c).deref asset = w.deref asset := rfl

@[simp]
theorem call_GetAsset (w : MainWindow) (c : Call) (i : Nat) :
    (w.call c).GetAsset i = w.GetAsset i := rfl

theorem deref_id {w : MainWindow} {asset : Nat} {a : Asset} (h : w.deref asset = some a) :
    a.id = asset := by
  have := List.find?_some h
  simpa using this

theorem deref_setClean (w : MainWindow) (asset : Nat) :
    (w.setClean asset).deref asset = (w.deref asset).map (fun a => { a with clean := true }) := by
  unfold deref setClean
  induction w.assets with
  | nil => rfl
  | cons b l ih =>
    by_cases hb : b.id = asset
    · simp [List.find?_cons, hb]
    · simpa [List.find?_cons, hb] using ih

/-- C3: `SaveAsset` returns true exactly when `Asset::Save` completes without throwing
`AssetException`, and then the undo stack of the asset is clean; when `Save` throws it
returns false and the assets, hence the clean state of every undo stack, are as before. -/
theorem SaveAsset_result (env : Env) (w : MainWindow) (asset : Nat) (a : Asset)
    (h : w.deref asset = some a) :
    ∃ r w', SaveAsset env w asset = some (r, w') ∧
      (r = true ↔ env.assetSave asset = none) ∧
      (r = true → w'.deref asset = some { a with clean := true }) ∧
      (r = false → w'.assets = w.assets ∧ w'.deref asset = some a) := by
  have hid := deref_id h
  subst hid
  simp only [SaveAsset, h]
  cases hs : env.assetSave a.id with
  | none =>
    refine ⟨true, _, rfl, by simp, fun _ => ?_, by simp⟩
    rw [deref_setClean, call_deref, h]
    rfl
  | some what =>
    exact ⟨false, _, rfl, by simp, by simp, fun _ => ⟨rfl, h⟩⟩

theorem SaveAsset_result_witness :
    sampleWindow.deref 2 = some ⟨2, "/gone.mdl", false⟩ ∧
    ∃ r w', SaveAsset sampleEnv sampleWindow 2 = some (r, w') ∧
      (r = true ↔ sampleEnv.assetSave 2 = none) ∧
      (r = true → w'.deref 2 = some { (⟨2, "/gone.mdl", false⟩ : Asset) with clean := true }) ∧
      (r = false → w'.assets = sampleWindow.assets ∧ w'.deref 2 = some ⟨2, "/gone.mdl", false⟩) :=
  ⟨by decide, SaveAsset_result sampleEnv sampleWindow 2 ⟨2, "/gone.mdl", false⟩ (by decide)⟩

/-- C5: `VerifyNoUnsavedChanges` returns true without a prompt when the undo stack is
clean; otherwise it asks one question offering Save and Discard, and Cancel exactly when
`allowCancel` holds, and returns what `SaveAsset` returns for Save, true for Discard and
false for every other answer. -/
theorem VerifyNoUnsavedChanges_result (env : Env) (w : MainWindow) (asset : Nat) (a : Asset)
    (allowCancel : Bool) (h : w.deref asset = some a) :
    (a.clean = true → VerifyNoUnsavedChanges env w asset allowCancel = some (true, w)) ∧
    (a.clean = false →
      ∃ buttons : Nat,
        buttons &&& StandardButton.Save ≠ 0 ∧ buttons &&& StandardButton.Discard ≠ 0 ∧
        (buttons &&& StandardButton.Cancel ≠ 0 ↔ allowCancel = true) ∧
        (env.question a.id buttons = StandardButton.Save →
          VerifyNoUnsavedChanges env w asset allowCancel
            = SaveAsset env (w.call (.question a.fileName buttons)) asset) ∧
        (env.question a.id buttons = StandardButton.Discard →
          VerifyNoUnsavedChanges env w asset allowCancel
            = some (true, w.call (.question a.fileName buttons))) ∧
        (env.question a.id buttons ≠ StandardButton.Save →
          env.question a.id buttons ≠ StandardButton.Discard →
          VerifyNoUnsavedChanges env w asset allowCancel
            = some (false, w.call (.question a.fileName buttons)))) := by
  constructor
  · intro hc
    simp [VerifyNoUnsavedChanges, h, hc]
  · intro hc
    refine ⟨if allowCancel then
        StandardButton.Save ||| StandardButton.Discard ||| StandardButton.Cancel
      else StandardButton.Save ||| StandardButton.Discard, ?_, ?_, ?_, ?_, ?_, ?_⟩
    · cases allowCancel <;> decide
    · cases allowCancel <;> decide
    · cases allowCancel <;> decide
    · intro hq
      simp [VerifyNoUnsavedChanges, h, hc, hq]
    · intro hq
      have : StandardButton.Discard ≠ StandardButton.Save := by decide
      simp [VerifyNoUnsavedChanges, h, hc, hq, this]
    · intro hs hd
      simp [VerifyNoUnsavedChanges, h, hc, hs, hd]

theorem VerifyNoUnsavedChanges_result_witness :
    sampleWindow.deref 1 = some ⟨1, "/b.mdl", false⟩ ∧
    ∃ buttons : Nat,
      buttons &&& StandardButton.Save ≠ 0 ∧ buttons &&& StandardButton.Discard ≠ 0 ∧
      (buttons &&& StandardButton.Cancel ≠ 0 ↔ true = true) ∧
      (sampleEnv.question 1 buttons = StandardButton.Save →
        VerifyNoUnsavedChanges sampleEnv sampleWindow 1 true
          = SaveAsset sampleEnv (sampleWindow.call (.question "/b.mdl" buttons)) 1) ∧
      (sampleEnv.question 1 buttons = StandardButton.Discard →
        VerifyNoUnsavedChanges sampleEnv sampleWindow 1 true
          = some (true, sampleWindow.call (.question "/b.mdl" buttons))) ∧
      (sampleEnv.question 1 buttons ≠ StandardButton.Save →
        sampleEnv.question 1 buttons ≠ StandardButton.Discard →
        VerifyNoUnsavedChanges sampleEnv sampleWindow 1 true
          = some (false, sampleWindow.call (.question "/b.mdl" buttons))) :=
  ⟨by decide,
    (VerifyNoUnsavedChanges_result sampleEnv sampleWindow 1 ⟨1, "/b.mdl", false⟩ true
      (by decide)).2 rfl⟩

/-! ## Effects of the member functions on the window state -/

theorem quiet_nil : quiet [] := by
  intro c hc
  cases hc

theorem quiet_append {l₁ l₂ : List Call} (h₁ : quiet l₁) (h₂ : quiet l₂) : quiet (l₁ ++ l₂) := by
  intro c hc
  rcases List.mem_append.1 hc with h | h
  · exact h₁ c h
  · exact h₂ c h

theorem quiet_cons {c : Call} {l : List Call} (hc : c.isLoadOrRecent = false) (h : quiet l) :
    quiet (c :: l) := by
  intro d hd
  rcases List.mem_cons.1 hd with h' | h'
  · exact h' ▸ hc
  · exact h d h'

theorem callsSince_eq {w w' : MainWindow} {l : List Call} (h : w'.calls = w.calls ++ l) :
    w'.callsSince w = l := by
  simp [callsSince, h]

theorem SaveAsset_effect {env : Env} {w w' : MainWindow} {asset : Nat} {r : Bool}
    (h : SaveAsset env w asset = some (r, w')) :
    ∃ l, quiet l ∧
      ((r = false ∧ w' = { w with calls := w.calls ++ l }) ∨
       (r = true ∧ w' = { w.setClean asset with calls := w.calls ++ l })) := by
  unfold SaveAsset at h
  cases hd : w.deref asset with
  | none => simp [hd] at h
  | some a =>
    simp only [hd] at h
    cases hs : env.assetSave a.id with
    | none =>
      simp only [hs, Option.some.injEq, Prod.mk.injEq] at h
      obtain ⟨rfl, rfl⟩ := h
      exact ⟨[.assetSave a.id], quiet_cons rfl quiet_nil, Or.inr ⟨rfl, rfl⟩⟩
    | some what =>
      simp only [hs, Option.some.injEq, Prod.mk.injEq] at h
      obtain ⟨rfl, rfl⟩ := h
      refine ⟨[.assetSave a.id, .critical "Error saving asset" [what]],
        quiet_cons rfl (quiet_cons rfl quiet_nil), Or.inl ⟨rfl, ?_⟩⟩
      simp [call]

theorem SaveAsset_effect_after {env : Env} {w w' : MainWindow} {asset : Nat} {r : Bool}
    {c : Call} (h : SaveAsset env (w.call c) asset = some (r, w'))
    (hc : c.isLoadOrRecent = false) :
    ∃ l, quiet l ∧
      (w' = { w with calls := w.calls ++ l } ∨
       (r = true ∧ w' = { w.setClean asset with calls := w.calls ++ l })) := by
  obtain ⟨l, hl, hcase⟩ := SaveAsset_effect h
  refine ⟨c :: l, quiet_cons hc hl, ?_⟩
  rcases hcase with ⟨_, rfl⟩ | ⟨hr, rfl⟩
  · exact Or.inl (by simp [call])
  · exact Or.inr ⟨hr, by simp [call, setClean]⟩

theorem VerifyNoUnsavedChanges_effect {env : Env} {w w' : MainWindow} {asset : Nat}
    {allowCancel r : Bool} (h : VerifyNoUnsavedChanges env w asset allowCancel = some (r, w')) :
    ∃ l, quiet l ∧
      (w' = { w with calls := w.calls ++ l } ∨
       (r = true ∧ w' = { w.setClean asset with calls := w.calls ++ l })) := by
  unfold VerifyNoUnsavedChanges at h
  cases hd : w.deref asset with
  | none => simp [hd] at h
  | some a =>
    by_cases hc : a.clean = true
    · simp only [hd, hc, if_true, Option.some.injEq, Prod.mk.injEq] at h
      obtain ⟨rfl, rfl⟩ := h
      exact ⟨[], quiet_nil, Or.inl (by simp)⟩
    · cases allowCancel <;>
      · simp only [hd, hc, if_false, if_true, Bool.false_eq_true] at h
        split at h
        · exact SaveAsset_effect_after h rfl
        · split at h <;>
          · simp only [Option.some.injEq, Prod.mk.injEq] at h
            obtain ⟨rfl, rfl⟩ := h
            refine ⟨[_], ?_, Or.inl rfl⟩
            exact quiet_cons rfl quiet_nil

theorem VerifyNoUnsavedChanges_verdict (env : Env) (w : MainWindow) (asset : Nat) (a : Asset)
    (allowCancel : Bool) (h : w.deref asset = some a) :
    ∃ w', VerifyNoUnsavedChanges env w asset allowCancel
      = some (verdict env a allowCancel, w') := by
  have hid := deref_id h
  subst hid
  have hne : StandardButton.Discard ≠ StandardButton.Save := by decide
  unfold VerifyNoUnsavedChanges verdict
  by_cases hc : a.clean = true
  · simp [h, hc]
  · cases allowCancel <;>
    · simp only [h, hc, if_false, if_true, Bool.false_eq_true, Bool.false_or]
      split
      · rename_i hq
        simp only [SaveAsset, call_deref, h, hq]
        cases hs : env.assetSave a.id <;> simp [hne.symm]
      · split
        · rename_i hq hq'
          simp [hq', hne]
        · rename_i hq hq'
          simp [hq, hq']

theorem OnAssetTabChanged_none (w : MainWindow) :
    ∃ l, quiet l ∧
      OnAssetTabChanged w none
        = some { w with currentAsset := none, calls := w.calls ++ l } := by
  unfold OnAssetTabChanged
  cases hc : w.currentAsset with
  | none =>
    exact ⟨[.setActiveStack none, .activeAssetChanged none],
      quiet_cons rfl (quiet_cons rfl quiet_nil), by simp [call]⟩
  | some current =>
    exact ⟨[.assetSetActive current false, .setActiveStack none, .activeAssetChanged none],
      quiet_cons rfl (quiet_cons rfl (quiet_cons rfl quiet_nil)), by simp [call]⟩

theorem OnAssetTabChanged_some (w : MainWindow) (i : Nat) (a : Asset)
    (h : w.GetAsset i = some a) :
    ∃ l, quiet l ∧
      OnAssetTabChanged w (some i)
        = some { w with currentAsset := some a.id, calls := w.calls ++ l } := by
  unfold OnAssetTabChanged
  cases hc : w.currentAsset with
  | none =>
    refine ⟨[.setActiveStack (some a.id), .assetPopulateMenu a.id, .assetSetActive a.id true,
        .activeAssetChanged (some a.id)],
      quiet_cons rfl (quiet_cons rfl (quiet_cons rfl (quiet_cons rfl quiet_nil))), ?_⟩
    simp only [h]
    simp [call]
  | some current =>
    refine ⟨[.assetSetActive current false, .setActiveStack (some a.id),
        .assetPopulateMenu a.id, .assetSetActive a.id true, .activeAssetChanged (some a.id)],
      quiet_cons rfl (quiet_cons rfl (quiet_cons rfl (quiet_cons rfl
        (quiet_cons rfl quiet_nil)))), ?_⟩
    simp only [call_GetAsset, h]
    simp [call]

theorem OnAssetTabChanged_effect {w w' : MainWindow} {index : Option Nat}
    (h : OnAssetTabChanged w index = some w') :
    ∃ l current, quiet l ∧ w' = { w with currentAsset := current, calls := w.calls ++ l } := by
  cases index with
  | none =>
    obtain ⟨l, hl, he⟩ := OnAssetTabChanged_none w
    rw [he] at h
    exact ⟨l, none, hl, (Option.some.inj h).symm⟩
  | some i =>
    cases ha : w.GetAsset i with
    | none =>
      unfold OnAssetTabChanged at h
      cases hc : w.currentAsset <;> simp [hc, ha] at h
    | some a =>
      obtain ⟨l, hl, he⟩ := OnAssetTabChanged_some w i a ha
      rw [he] at h
      exact ⟨l, some a.id, hl, (Option.some.inj h).symm⟩

theorem removeTab_effect {w w' : MainWindow} {index : Nat} (h : w.removeTab index = some w') :
    ∃ l ci ca, quiet l ∧
      w' = { w with
        tabs := w.tabs.eraseIdx index,
        currentIndex := ci, currentAsset := ca, calls := w.calls ++ l } := by
  unfold removeTab at h
  by_cases hi : index < w.tabs.length
  · simp only [hi, if_true] at h
    cases hc : w.currentIndex with
    | none =>
      simp only [hc, Option.some.injEq] at h
      subst h
      exact ⟨[], none, w.currentAsset, quiet_nil, by simp [hc]⟩
    | some current =>
      simp only [hc] at h
      split at h
      · split at h <;>
        · obtain ⟨l, ca, hl, rfl⟩ := OnAssetTabChanged_effect h
          exact ⟨l, _, ca, hl, rfl⟩
      · split at h
        · obtain ⟨l, ca, hl, rfl⟩ := OnAssetTabChanged_effect h
          exact ⟨l, _, ca, hl, rfl⟩
        · simp only [Option.some.injEq] at h
          subst h
          exact ⟨[], some current, w.currentAsset, quiet_nil, by simp [hc]⟩
  · simp only [hi, if_false, Option.some.injEq] at h
    subst h
    exact ⟨[], w.currentIndex, w.currentAsset, quiet_nil,
      by simp [List.eraseIdx_of_length_le (Nat.le_of_not_lt hi)]⟩

theorem removeTab_defined (w : MainWindow) (index : Nat) (hi : index < w.tabs.length)
    (hlen : w.assets.length + 1 = w.tabs.length)
    (hcur : ∀ current, w.currentIndex = some current → current < w.tabs.length) :
    ∃ w', w.removeTab index = some w' := by
  unfold removeTab
  simp only [hi, if_true]
  cases hc : w.currentIndex with
  | none => exact ⟨_, rfl⟩
  | some current =>
    have hlt := hcur current hc
    have hdef : ∀ (w1 : MainWindow) (n : Nat), w1.assets = w.assets → n < w.assets.length →
        ∃ w', OnAssetTabChanged w1 (some n) = some w' := by
      intro w1 n h1 hn
      have hget : w1.GetAsset n = some (w.assets[n]) := by
        simp [GetAsset, h1, List.getElem?_eq_getElem hn]
      obtain ⟨l, _, he⟩ := OnAssetTabChanged_some w1 n _ hget
      exact ⟨_, he⟩
    simp only []
    split
    · split
      · obtain ⟨l, _, he⟩ := OnAssetTabChanged_none
          { w with tabs := w.tabs.eraseIdx index, currentIndex := none }
        exact ⟨_, he⟩
      · refine hdef _ _ ?_ ?_
        · rfl
        · have hlen' : (w.tabs.eraseIdx index).length = w.tabs.length - 1 := by
            simp [List.length_eraseIdx, hi]
          refine lt_of_le_of_lt (min_le_right _ _) ?_
          simp only [hlen'] at *
          omega
    · split
      · refine hdef _ _ ?_ ?_
        · rfl
        · omega
      · exact ⟨_, rfl⟩

theorem OnExitFullscreen_effect {w w' : MainWindow} (h : w.OnExitFullscreen = some w') :
    ∃ l fs, quiet l ∧ w' = { w with fullscreenWidget := fs, calls := w.calls ++ l } := by
  unfold OnExitFullscreen at h
  split at h
  · simp only [Option.some.injEq] at h
    subst h
    exact ⟨[], w.fullscreenWidget, quiet_nil, by simp⟩
  · cases hc : w.currentAsset with
    | none => simp [hc] at h
    | some asset =>
      simp only [hc, Option.some.injEq] at h
      subst h
      exact ⟨[.assetExitFullscreen asset], false, quiet_cons rfl quiet_nil, by simp [call, hc]⟩

theorem OnExitFullscreen_defined (w : MainWindow)
    (h : w.fullscreenWidget = true → w.currentAsset ≠ none) :
    ∃ w', w.OnExitFullscreen = some w' := by
  unfold OnExitFullscreen
  split
  · exact ⟨_, rfl⟩
  · rename_i hf
    cases hc : w.currentAsset with
    | none => exact absurd hc (h (by simpa using hf))
    | some asset => exact ⟨_, rfl⟩

theorem exitIfFullscreen_effect {env : Env} {w w' : MainWindow}
    (h : (if w.fullscreenWidget then w.ExitFullscreen env else some w) = some w') :
    ∃ l fs, quiet l ∧ w' = { w with fullscreenWidget := fs, calls := w.calls ++ l } := by
  split at h
  · unfold ExitFullscreen at h
    split at h
    · obtain ⟨l, fs, hl, rfl⟩ := OnExitFullscreen_effect h
      exact ⟨.fullscreenExit :: l, fs, quiet_cons rfl hl, by simp [call]⟩
    · simp only [Option.some.injEq] at h
      subst h
      exact ⟨[.fullscreenExit], w.fullscreenWidget, quiet_cons rfl quiet_nil, rfl⟩
  · simp only [Option.some.injEq] at h
    subst h
    exact ⟨[], w.fullscreenWidget, quiet_nil, by simp⟩

theorem exitIfFullscreen_defined (env : Env) (w : MainWindow)
    (h : w.fullscreenWidget = true → w.currentAsset ≠ none) :
    ∃ w', (if w.fullscreenWidget then w.ExitFullscreen env else some w) = some w' := by
  split
  · unfold ExitFullscreen
    split
    · exact OnExitFullscreen_defined _ h
    · exact ⟨_, rfl⟩
  · exact ⟨_, rfl⟩

theorem destroyed_effect (w : MainWindow) (asset : Nat) :
    ∃ ca, w.destroyed asset = { w with currentAsset := ca } := by
  unfold destroyed
  split
  · exact ⟨none, rfl⟩
  · exact ⟨w.currentAsset, rfl⟩

/-- Everything `TryCloseAsset` can do to the window. -/
theorem TryCloseAsset_effect {env : Env} {w w' : MainWindow} {index : Nat}
    {verifyUnsavedChanges allowCancel r : Bool}
    (h : TryCloseAsset env w index verifyUnsavedChanges allowCancel = some (r, w')) :
    ∃ l, quiet l ∧ w'.calls = w.calls ++ l ∧ w'.screen = w.screen ∧ w'.settings = w.settings ∧
      (r = false →
        w'.assets = w.assets ∧ w'.tabs = w.tabs ∧ w'.undoStacks = w.undoStacks ∧
        w'.currentIndex = w.currentIndex ∧ w'.currentAsset = w.currentAsset) ∧
      (r = true →
        (w.tabs.length ≤ index ∧ w' = w) ∨
        ∃ a, index < w.tabs.length ∧ w.assets[index]? = some a ∧
          w'.tabs = w.tabs.eraseIdx index ∧
          (w'.assets = w.assets.eraseIdx index
            ∨ w'.assets = (w.setClean a.id).assets.eraseIdx index) ∧
          w'.undoStacks = w.undoStacks.filter (fun s => s != a.id) ∧
          Call.assetSetActive a.id false ∈ l) := by
  unfold TryCloseAsset at h
  by_cases hi : index ≥ w.tabs.length
  · simp only [hi, if_true, Option.some.injEq, Prod.mk.injEq] at h
    obtain ⟨rfl, rfl⟩ := h
    exact ⟨[], quiet_nil, by simp, rfl, rfl, by simp, fun _ => Or.inl ⟨hi, rfl⟩⟩
  · simp only [hi, if_false] at h
    cases he : (if w.fullscreenWidget then w.ExitFullscreen env else some w) with
    | none => simp [he] at h
    | some w1 =>
      simp only [he] at h
      obtain ⟨l1, fs, hl1, hw1⟩ := exitIfFullscreen_effect he
      have h1a : w1.assets = w.assets := by rw [hw1]
      cases ha : w1.GetAsset index with
      | none => simp [ha] at h
      | some a =>
        simp only [ha] at h
        have ha' : w.assets[index]? = some a := by
          rw [← h1a]
          exact ha
        cases hv : (if verifyUnsavedChanges then VerifyNoUnsavedChanges env w1 a.id allowCancel
            else some (true, w1)) with
        | none => simp [hv] at h
        | some p =>
          obtain ⟨v, w2⟩ := p
          have hv2 : ∃ l2, quiet l2 ∧
              (w2 = { w1 with calls := w1.calls ++ l2 } ∨
               (v = true ∧ w2 = { w1.setClean a.id with calls := w1.calls ++ l2 })) := by
            by_cases hver : verifyUnsavedChanges = true
            · simp only [hver, if_true] at hv
              exact VerifyNoUnsavedChanges_effect hv
            · simp only [hver, if_false, Option.some.injEq, Prod.mk.injEq] at hv
              obtain ⟨rfl, rfl⟩ := hv
              exact ⟨[], quiet_nil, Or.inl (by simp)⟩
          obtain ⟨l2, hl2, hw2⟩ := hv2
          cases v with
          | false =>
            simp only [hv, Option.some.injEq, Prod.mk.injEq] at h
            obtain ⟨rfl, rfl⟩ := h
            rcases hw2 with hw2 | ⟨hf, _⟩
            · subst hw2
              subst hw1
              exact ⟨l1 ++ l2, quiet_append hl1 hl2, by simp, rfl, rfl,
                fun _ => ⟨rfl, rfl, rfl, rfl, rfl⟩, by simp⟩
            · cases hf
          | true =>
            simp only [hv] at h
            cases hg : w2.GetAsset index with
            | none => simp [hg] at h
            | some asset =>
              simp only [hg] at h
              have hid : asset.id = a.id := by
                rcases hw2 with hw2 | ⟨_, hw2⟩
                · subst hw2
                  have : w1.assets[index]? = some asset := hg
                  rw [show w1.assets[index]? = some a from ha] at this
                  exact congrArg Asset.id (Option.some.inj this).symm
                · subst hw2
                  have hg' : (w1.assets.map
                      (fun b => if b.id == a.id then { b with clean := true } else b))[index]?
                      = some asset := hg
                  rw [List.getElem?_map, show w1.assets[index]? = some a from ha] at hg'
                  simp at hg'
                  rw [← hg']
              cases h6 : MainWindow.removeTab
                  { w2.removeStack asset.id |>.call (.assetSetActive asset.id false) with
                    assets := (w2.removeStack asset.id
                      |>.call (.assetSetActive asset.id false)).assets.eraseIdx index }
                  index with
              | none =>
                simp only [removeStack, call] at h6
                simp [removeStack, call, h6] at h
              | some w6 =>
                have h6' := h6
                simp only [removeStack, call] at h6'
                simp only [removeStack, call, h6', Option.some.injEq, Prod.mk.injEq] at h
                obtain ⟨l6, ci, ca, hl6, hw6⟩ := removeTab_effect h6'
                obtain ⟨ca', hd⟩ := destroyed_effect w6 asset.id
                rw [hd] at h
                obtain ⟨rfl, rfl⟩ := h
                subst hw6
                refine ⟨l1 ++ l2 ++ [.assetSetActive a.id false] ++ l6,
                  quiet_append (quiet_append (quiet_append hl1 hl2)
                    (quiet_cons (c := .assetSetActive a.id false) rfl quiet_nil)) hl6,
                  ?_, ?_, ?_, by simp, ?_⟩
                · rcases hw2 with hw2 | ⟨_, hw2⟩ <;>
                  · subst hw2
                    subst hw1
                    simp [call, removeStack, setClean, hid]
                · rcases hw2 with hw2 | ⟨_, hw2⟩ <;>
                  · subst hw2
                    subst hw1
                    rfl
                · rcases hw2 with hw2 | ⟨_, hw2⟩ <;>
                  · subst hw2
                    subst hw1
                    rfl
                · intro _
                  refine Or.inr ⟨a, Nat.lt_of_not_le hi, ha', ?_, ?_, ?_, by simp⟩
                  · rcases hw2 with hw2 | ⟨_, hw2⟩ <;>
                    · subst hw2
                      subst hw1
                      rfl
                  · rcases hw2 with hw2 | ⟨_, hw2⟩
                    · subst hw2
                      subst hw1
                      exact Or.inl rfl
                    · subst hw2
                      subst hw1
                      exact Or.inr rfl
                  · rcases hw2 with hw2 | ⟨_, hw2⟩ <;>
                    · subst hw2
                      subst hw1
                      simp [call, removeStack, setClean, hid]

/-! ## Assets as distinct objects -/

theorem find_id_of_getElem (l : List Asset) (hn : (l.map Asset.id).Nodup) (i : Nat) (a : Asset)
    (h : l[i]? = some a) : l.find? (fun b => b.id == a.id) = some a := by
  induction l generalizing i with
  | nil => simp at h
  | cons b l ih =>
    cases i with
    | zero =>
      simp only [List.getElem?_cons_zero, Option.some.injEq] at h
      subst h
      simp [List.find?_cons]
    | succ i =>
      simp only [List.getElem?_cons_succ] at h
      simp only [List.map_cons, List.nodup_cons] at hn
      have hmem : a.id ∈ l.map Asset.id := List.mem_map.2 ⟨a, List.getElem?_mem h, rfl⟩
      have hne : b.id ≠ a.id := fun he => hn.1 (he ▸ hmem)
      rw [List.find?_cons_of_neg _ (by simpa using hne)]
      exact ih hn.2 i h

theorem deref_of_getElem {w : MainWindow} (hn : (w.assets.map Asset.id).Nodup) {i : Nat}
    {a : Asset} (h : w.assets[i]? = some a) : w.deref a.id = some a :=
  find_id_of_getElem w.assets hn i a h

theorem map_clean_of_not_mem (l : List Asset) (p : Nat) (h : ∀ c ∈ l, c.id ≠ p) :
    l.map (fun b => if b.id == p then { b with clean := true } else b) = l := by
  induction l with
  | nil => rfl
  | cons b l ih =>
    have hb : b.id ≠ p := h b (List.mem_cons_self _ _)
    have hhead : (if (b.id == p) = true then { b with clean := true } else b) = b := by
      simp [hb]
    rw [List.map_cons, ih (fun c hc => h c (List.mem_cons_of_mem _ hc)), hhead]

theorem eraseIdx_map_clean (l : List Asset) (hn : (l.map Asset.id).Nodup) (i : Nat) (a : Asset)
    (h : l[i]? = some a) :
    (l.map (fun b => if b.id == a.id then { b with clean := true } else b)).eraseIdx i
      = l.eraseIdx i := by
  induction l generalizing i with
  | nil => simp at h
  | cons b l ih =>
    simp only [List.map_cons, List.nodup_cons] at hn
    cases i with
    | zero =>
      simp only [List.getElem?_cons_zero, Option.some.injEq] at h
      subst h
      simp only [List.map_cons, List.eraseIdx_cons_zero]
      apply map_clean_of_not_mem
      intro c hc he
      exact hn.1 (he ▸ List.mem_map.2 ⟨c, hc, rfl⟩)
    | succ i =>
      simp only [List.getElem?_cons_succ] at h
      have hmem : a.id ∈ l.map Asset.id := List.mem_map.2 ⟨a, List.getElem?_mem h, rfl⟩
      have hne : b.id ≠ a.id := fun he => hn.1 (he ▸ hmem)
      have hhead : (if (b.id == a.id) = true then { b with clean := true } else b) = b := by
        simp [hne]
      rw [List.map_cons, List.eraseIdx_cons_succ, List.eraseIdx_cons_succ, ih hn.2 i h, hhead]

theorem getElem?_map_clean_ne (l : List Asset) (p j : Nat) (b : Asset) (h : l[j]? = some b)
    (hne : b.id ≠ p) :
    (l.map (fun c => if c.id == p then { c with clean := true } else c))[j]? = some b := by
  simp [List.getElem?_map, h, hne]

theorem map_id_map_clean (l : List Asset) (p : Nat) :
    (l.map (fun c => if c.id == p then { c with clean := true } else c)).map Asset.id
      = l.map Asset.id := by
  simp only [List.map_map]
  apply List.map_congr_left
  intro c _
  simp only [Function.comp]
  split <;> rfl

theorem map_fileName_map_clean (l : List Asset) (p : Nat) :
    (l.map (fun c => if c.id == p then { c with clean := true } else c)).map Asset.fileName
      = l.map Asset.fileName := by
  simp only [List.map_map]
  apply List.map_congr_left
  intro c _
  simp only [Function.comp]
  split <;> rfl

/-! ## Closing an asset -/

/-- On a consistent window `TryCloseAsset` has a defined result for a tab that exists:
it answers true when no check is asked for and otherwise what the check answers. -/
theorem TryCloseAsset_defined (env : Env) (w : MainWindow) (index : Nat)
    (verifyUnsavedChanges allowCancel : Bool) (a : Asset) (hwf : w.WellFormed)
    (hi : index < w.tabs.length) (ha : w.assets[index]? = some a) :
    ∃ w', TryCloseAsset env w index verifyUnsavedChanges allowCancel
      = some (!verifyUnsavedChanges || verdict env a allowCancel, w') := by
  obtain ⟨hlen, hnodup, hcur, hfull⟩ := hwf
  obtain ⟨w1, he⟩ := exitIfFullscreen_defined env w hfull
  obtain ⟨l1, fs, hl1, hw1⟩ := exitIfFullscreen_effect he
  have h1a : w1.assets = w.assets := by rw [hw1]
  have ha1 : w1.GetAsset index = some a := by
    unfold GetAsset
    rw [h1a, ha]
  have hderef : w1.deref a.id = some a := by
    refine deref_of_getElem (i := index) ?_ ?_
    · rw [h1a]
      exact hnodup
    · rw [h1a]
      exact ha
  have hv : ∃ w2, (if verifyUnsavedChanges then VerifyNoUnsavedChanges env w1 a.id allowCancel
      else some (true, w1)) = some (!verifyUnsavedChanges || verdict env a allowCancel, w2) ∧
      w2.tabs = w.tabs ∧ w2.currentIndex = w.currentIndex ∧
      w2.assets.length = w.assets.length := by
    cases verifyUnsavedChanges with
    | false => exact ⟨w1, by simp, by rw [hw1], by rw [hw1], by rw [h1a]⟩
    | true =>
      obtain ⟨w2, h2⟩ := VerifyNoUnsavedChanges_verdict env w1 a.id a allowCancel hderef
      obtain ⟨l2, _, hw2⟩ := VerifyNoUnsavedChanges_effect h2
      refine ⟨w2, by simpa using h2, ?_, ?_, ?_⟩ <;>
      · rcases hw2 with hw2 | ⟨_, hw2⟩ <;>
        · subst hw2
          subst hw1
          simp [setClean]
  obtain ⟨w2, hv, h2t, h2c, h2l⟩ := hv
  have hnot : ¬ index ≥ w.tabs.length := Nat.not_le_of_lt hi
  unfold TryCloseAsset
  simp only [hnot, if_false, he, ha1, hv]
  cases hb : (!verifyUnsavedChanges || verdict env a allowCancel) with
  | false => exact ⟨w2, rfl⟩
  | true =>
    have hi2 : index < w2.assets.length := by omega
    have hg : w2.GetAsset index = some (w2.assets[index]) := by
      simp [GetAsset, List.getElem?_eq_getElem hi2]
    obtain ⟨w6, h6⟩ := removeTab_defined
      { w2.removeStack (w2.assets[index]).id
          |>.call (.assetSetActive (w2.assets[index]).id false) with
        assets := (w2.removeStack (w2.assets[index]).id
          |>.call (.assetSetActive (w2.assets[index]).id false)).assets.eraseIdx index }
      index (by simpa [removeStack, call, h2t] using hi)
      (by
        simp only [removeStack, call, List.length_eraseIdx, hi2, if_true, h2t]
        omega)
      (by
        intro current hc
        simp only [removeStack, call, h2c, h2t] at hc ⊢
        exact (hcur current hc).1)
    simp only [removeStack, call] at h6
    simp only [hg, removeStack, call, h6]
    exact ⟨_, rfl⟩

theorem verdict_of_verify {env : Env} {w : MainWindow} {a : Asset} {allowCancel b : Bool}
    (hd : w.deref a.id = some a)
    (h : (VerifyNoUnsavedChanges env w a.id allowCancel).map Prod.fst = some b) :
    verdict env a allowCancel = b := by
  obtain ⟨w', hv⟩ := VerifyNoUnsavedChanges_verdict env w a.id a allowCancel hd
  rw [hv] at h
  simpa using h

theorem sampleWindow_wellFormed : sampleWindow.WellFormed := by
  refine ⟨rfl, by decide, ?_, by decide⟩
  intro i hi
  cases hi
  exact ⟨by decide, rfl⟩

/-- C6: `TryCloseAsset` on a consistent window.  For an index that is no tab it returns
true and changes nothing.  When the check is asked for and refuses, it returns false with
assets and tabs as before.  Otherwise it returns true, assets and tabs are the former
lists with the element at the index erased, `SetActive(false)` was called on the removed
asset and its undo stack is no longer in the undo group. -/
theorem TryCloseAsset_result (env : Env) (w : MainWindow) (index : Nat)
    (verifyUnsavedChanges allowCancel : Bool) (hwf : w.WellFormed) :
    (w.tabs.length ≤ index →
      TryCloseAsset env w index verifyUnsavedChanges allowCancel = some (true, w)) ∧
    (∀ a, w.assets[index]? = some a → verifyUnsavedChanges = true →
      (VerifyNoUnsavedChanges env w a.id allowCancel).map Prod.fst = some false →
      ∃ w', TryCloseAsset env w index verifyUnsavedChanges allowCancel = some (false, w') ∧
        w'.assets = w.assets ∧ w'.tabs = w.tabs) ∧
    (∀ a, w.assets[index]? = some a →
      (verifyUnsavedChanges = false ∨
        (VerifyNoUnsavedChanges env w a.id allowCancel).map Prod.fst = some true) →
      ∃ w', TryCloseAsset env w index verifyUnsavedChanges allowCancel = some (true, w') ∧
        w'.assets = w.assets.eraseIdx index ∧ w'.tabs = w.tabs.eraseIdx index ∧
        Call.assetSetActive a.id false ∈ w'.callsSince w ∧ a.id ∉ w'.undoStacks) := by
  have hin : ∀ a, w.assets[index]? = some a → index < w.tabs.length := by
    intro a ha
    rw [hwf.1]
    exact (List.getElem?_eq_some.1 ha).1
  refine ⟨?_, ?_, ?_⟩
  · intro hi
    simp [TryCloseAsset, hi]
  · intro a ha hver hv
    have hverdict := verdict_of_verify (deref_of_getElem hwf.2.1 ha) hv
    obtain ⟨w', h⟩ := TryCloseAsset_defined env w index verifyUnsavedChanges allowCancel a hwf
      (hin a ha) ha
    rw [hver, hverdict] at h
    obtain ⟨l, _, _, _, _, hfalse, _⟩ := TryCloseAsset_effect h
    rw [hver]
    exact ⟨w', h, (hfalse rfl).1, (hfalse rfl).2.1⟩
  · intro a ha hor
    obtain ⟨w', h⟩ := TryCloseAsset_defined env w index verifyUnsavedChanges allowCancel a hwf
      (hin a ha) ha
    have hb : (!verifyUnsavedChanges || verdict env a allowCancel) = true := by
      rcases hor with hver | hv
      · simp [hver]
      · simp [verdict_of_verify (deref_of_getElem hwf.2.1 ha) hv]
    rw [hb] at h
    obtain ⟨l, _, hcalls, _, _, _, htrue⟩ := TryCloseAsset_effect h
    rcases htrue rfl with ⟨hle, _⟩ | ⟨a', _, ha', htabs, hassets, hundo, hmem⟩
    · exact absurd (hin a ha) (Nat.not_lt_of_le hle)
    · have haa : a' = a := Option.some.inj (ha'.symm.trans ha)
      subst haa
      refine ⟨w', h, ?_, htabs, ?_, ?_⟩
      · rcases hassets with h1 | h1
        · exact h1
        · rw [h1]
          exact eraseIdx_map_clean w.assets hwf.2.1 index a' ha
      · rw [callsSince_eq hcalls]
        exact hmem
      · rw [hundo]
        simp

theorem TryCloseAsset_result_witness :
    sampleWindow.WellFormed ∧
    ∃ w', TryCloseAsset sampleEnv sampleWindow 0 true true = some (true, w') ∧
      w'.assets = sampleWindow.assets.eraseIdx 0 ∧ w'.tabs = sampleWindow.tabs.eraseIdx 0 ∧
      Call.assetSetActive 0 false ∈ w'.callsSince sampleWindow ∧ 0 ∉ w'.undoStacks :=
  ⟨sampleWindow_wellFormed,
    (TryCloseAsset_result sampleEnv sampleWindow 0 true true sampleWindow_wellFormed).2.2
      ⟨0, "/a.mdl", false⟩ (by decide) (Or.inr (by decide))⟩

/-! ## Loading: names that cannot be loaded -/

/-- C2: when the name is empty after trimming, or no file exists under it, `TryLoadAsset`
returns `Failed` and the window is as before but for one error message box: assets, tabs
and every other field are unchanged, and no call to the provider registry, to the recent
files or to an asset was made, whatever `OneAssetAtATime` is. -/
theorem TryLoadAsset_unloadable (env : Env) (w : MainWindow) (fileName : String)
    (h : (env.trimmed fileName).isEmpty = true ∨ env.fileExists (env.trimmed fileName) = false) :
    ∃ detail, TryLoadAsset env w fileName
      = some (LoadResult.Failed,
          { w with calls := w.calls ++ [Call.critical "Error loading asset" detail] }) := by
  unfold TryLoadAsset
  by_cases he : (env.trimmed fileName).isEmpty = true
  · exact ⟨["Asset filename is empty"], by simp [he, call]⟩
  · rcases h with h | h
    · exact absurd h he
    · exact ⟨[env.absoluteFilePath (env.trimmed fileName), "does not exist"],
        by simp [he, h, call]⟩

theorem TryLoadAsset_unloadable_witness :
    ((sampleEnv.trimmed "/gone.mdl").isEmpty = true
      ∨ sampleEnv.fileExists (sampleEnv.trimmed "/gone.mdl") = false) ∧
    ∃ detail, TryLoadAsset { sampleEnv with oneAssetAtATime := true } sampleWindow "/gone.mdl"
      = some (LoadResult.Failed,
          { sampleWindow with
            calls := sampleWindow.calls ++ [Call.critical "Error loading asset" detail] }) :=
  ⟨by decide,
    TryLoadAsset_unloadable { sampleEnv with oneAssetAtATime := true } sampleWindow "/gone.mdl"
      (by decide)⟩

/-! ## Loading: a file that is not open yet, and one that is -/

theorem findLoaded_none (w : MainWindow) (fileName : String)
    (h : ∀ a ∈ w.assets, a.fileName ≠ fileName) (n i : Nat) (hn : i + n ≤ w.assets.length) :
    findLoaded w fileName i n = some none := by
  induction n generalizing i with
  | zero => rfl
  | succ n ih =>
    have hi : i < w.assets.length := by omega
    have hg : w.GetAsset i = some (w.assets[i]) := by
      simp [GetAsset, List.getElem?_eq_getElem hi]
    have hne : (w.assets[i]).fileName ≠ fileName := h _ (List.getElem_mem _)
    simp only [findLoaded, hg, hne, if_false]
    exact ih (i + 1) (by omega)

theorem findLoaded_first (w : MainWindow) (fileName : String) (i : Nat) (a : Asset)
    (ha : w.assets[i]? = some a) (hname : a.fileName = fileName)
    (hfirst : ∀ j b, j < i → w.assets[j]? = some b → b.fileName ≠ fileName)
    (n k : Nat) (hk : k ≤ i) (hn : i < k + n) :
    findLoaded w fileName k n = some (some i) := by
  induction n generalizing k with
  | zero => omega
  | succ n ih =>
    by_cases hki : k = i
    · subst hki
      simp [findLoaded, GetAsset, ha, hname]
    · have hlt : k < i := by omega
      have hil : i < w.assets.length := (List.getElem?_eq_some.1 ha).1
      have hkl : k < w.assets.length := by omega
      have hg : w.GetAsset k = some (w.assets[k]) := by
        simp [GetAsset, List.getElem?_eq_getElem hkl]
      have hne : (w.assets[k]).fileName ≠ fileName :=
        hfirst k _ hlt (List.getElem?_eq_getElem hkl)
      simp only [findLoaded, hg, hne, if_false]
      exact ih (k + 1) (by omega) (by omega)

/-- The run of `TryLoadAsset` for a name that is not open yet and for which `Load` throws:
the close that `OneAssetAtATime` asks for comes first, and its answer `v` decides between
`Failed`, after the call of `Load`, and `Cancelled`, without it. -/
theorem TryLoadAsset_throws_steps (env : Env) (w : MainWindow) (fileName what : String)
    (hwf : w.WellFormed)
    (hne : (env.trimmed fileName).isEmpty = false)
    (hex : env.fileExists (env.trimmed fileName) = true)
    (hnew : ∀ a ∈ w.assets, a.fileName ≠ env.absoluteFilePath (env.trimmed fileName))
    (hthrow : env.registryLoad (env.absoluteFilePath (env.trimmed fileName))
      = .assetException what) :
    ∃ v w1 l,
      (if env.oneAssetAtATime then TryCloseAsset env w 0 true env.allowCancelDefault
        else some (true, w)) = some (v, w1) ∧
      quiet l ∧ w1.calls = w.calls ++ l ∧
      (v = false → w1.assets = w.assets ∧ w1.tabs = w.tabs) ∧
      (v = true → env.oneAssetAtATime = false → w1.assets = w.assets ∧ w1.tabs = w.tabs) ∧
      (v = true → env.oneAssetAtATime = true →
        w1.assets = w.assets.eraseIdx 0 ∧ w1.tabs = w.tabs.eraseIdx 0) ∧
      TryLoadAsset env w fileName
        = some (if v then LoadResult.Failed else LoadResult.Cancelled,
            if v then
              (w1.call (.registryLoad (env.absoluteFilePath (env.trimmed fileName)))).call
                (.critical "Error loading asset"
                  [env.absoluteFilePath (env.trimmed fileName), what])
            else w1) := by
  have hfind := findLoaded_none w _ hnew w.tabs.length 0 (by rw [hwf.1]; omega)
  have hclose : ∃ v w1 l, (if env.oneAssetAtATime then
        TryCloseAsset env w 0 true env.allowCancelDefault else some (true, w)) = some (v, w1) ∧
      quiet l ∧ w1.calls = w.calls ++ l ∧
      (v = false → w1.assets = w.assets ∧ w1.tabs = w.tabs) ∧
      (v = true → env.oneAssetAtATime = false → w1.assets = w.assets ∧ w1.tabs = w.tabs) ∧
      (v = true → env.oneAssetAtATime = true →
        w1.assets = w.assets.eraseIdx 0 ∧ w1.tabs = w.tabs.eraseIdx 0) := by
    by_cases hone : env.oneAssetAtATime = true
    · rw [if_pos hone]
      have hdef : ∃ v w1, TryCloseAsset env w 0 true env.allowCancelDefault = some (v, w1) := by
        by_cases h0 : 0 < w.tabs.length
        · have h0' : 0 < w.assets.length := by rw [← hwf.1]; exact h0
          obtain ⟨w1, h1⟩ := TryCloseAsset_defined env w 0 true env.allowCancelDefault
            (w.assets[0]) hwf h0 (List.getElem?_eq_getElem h0')
          exact ⟨_, w1, h1⟩
        · exact ⟨true, w, by simp [TryCloseAsset, Nat.le_of_not_lt h0]⟩
      obtain ⟨v, w1, h1⟩ := hdef
      obtain ⟨l, hl, hcalls, _, _, hfalse, htrue⟩ := TryCloseAsset_effect h1
      refine ⟨v, w1, l, h1, hl, hcalls, fun hv => ⟨(hfalse hv).1, (hfalse hv).2.1⟩, ?_, ?_⟩
      · intro _ hoff
        rw [hone] at hoff
        cases hoff
      · intro hv _
        rcases htrue hv with ⟨hlen, rfl⟩ | ⟨a, _, ha, htabs, hassets, _, _⟩
        · have hlen' : w1.assets.length ≤ 0 := by rw [← hwf.1]; exact hlen
          exact ⟨(List.eraseIdx_of_length_le hlen').symm,
            (List.eraseIdx_of_length_le hlen).symm⟩
        · refine ⟨?_, htabs⟩
          rcases hassets with h2 | h2
          · exact h2
          · rw [h2]
            exact eraseIdx_map_clean w.assets hwf.2.1 0 a ha
    · rw [if_neg hone]
      refine ⟨true, w, [], rfl, quiet_nil, by simp, ?_, ?_, ?_⟩
      · intro hv
        cases hv
      · intro _ _
        exact ⟨rfl, rfl⟩
      · intro _ hon
        exact absurd hon hone
  obtain ⟨v, w1, l, hc, hl, hcalls, hfalse, hoff, hon⟩ := hclose
  refine ⟨v, w1, l, hc, hl, hcalls, hfalse, hoff, hon, ?_⟩
  unfold TryLoadAsset
  simp only [hne, hex, hfind, hc, hthrow, Bool.false_eq_true, if_false, Bool.not_true]
  cases v <;> rfl

/-- The answer of the close that `OneAssetAtATime` asks for is the answer of
`VerifyNoUnsavedChanges` for the first asset. -/
theorem closeFirst_answer {env : Env} {w w1 : MainWindow} {a : Asset} {v b : Bool}
    (hwf : w.WellFormed) (ha : w.assets[0]? = some a)
    (hverify : (VerifyNoUnsavedChanges env w a.id env.allowCancelDefault).map Prod.fst = some b)
    (hc : TryCloseAsset env w 0 true env.allowCancelDefault = some (v, w1)) : v = b := by
  have h0 : 0 < w.tabs.length := by
    rw [hwf.1]
    exact (List.getElem?_eq_some.1 ha).1
  obtain ⟨w', h⟩ := TryCloseAsset_defined env w 0 true env.allowCancelDefault a hwf h0 ha
  rw [hc] at h
  have hv : v = (!true || verdict env a env.allowCancelDefault) :=
    congrArg Prod.fst (Option.some.inj h)
  rw [hv, verdict_of_verify (deref_of_getElem hwf.2.1 ha) hverify]
  rfl

/-- C1 as amended: on a consistent window, for a name that is not empty after trimming,
names an existing file and is not open yet, when `AssetProviderRegistry::Load` throws
`AssetException` for it.  Unless `OneAssetAtATime` is set and the user refuses to close the
first asset, `TryLoadAsset` calls `Load` and returns `Failed`; no asset and no tab is
appended (the lists are the former ones, or with `OneAssetAtATime` those without the first
element) and nothing is added to the recent files.  When `OneAssetAtATime` is set and the
close is refused, it returns `Cancelled` without calling `Load`, with the same assets and
tabs. -/
theorem TryLoadAsset_loadThrows (env : Env) (w : MainWindow) (fileName what : String)
    (hwf : w.WellFormed)
    (hne : (env.trimmed fileName).isEmpty = false)
    (hex : env.fileExists (env.trimmed fileName) = true)
    (hnew : ∀ a ∈ w.assets, a.fileName ≠ env.absoluteFilePath (env.trimmed fileName))
    (hthrow : env.registryLoad (env.absoluteFilePath (env.trimmed fileName))
      = .assetException what) :
    ((env.oneAssetAtATime = true → ∀ a, w.assets[0]? = some a →
        (VerifyNoUnsavedChanges env w a.id env.allowCancelDefault).map Prod.fst = some true) →
      ∃ w', TryLoadAsset env w fileName = some (LoadResult.Failed, w') ∧
        Call.registryLoad (env.absoluteFilePath (env.trimmed fileName)) ∈ w'.callsSince w ∧
        (env.oneAssetAtATime = false → w'.assets = w.assets ∧ w'.tabs = w.tabs) ∧
        (env.oneAssetAtATime = true →
          w'.assets = w.assets.eraseIdx 0 ∧ w'.tabs = w.tabs.eraseIdx 0) ∧
        (∀ name, Call.recentFilesAdd name ∉ w'.callsSince w)) ∧
    (env.oneAssetAtATime = true → ∀ a, w.assets[0]? = some a →
      (VerifyNoUnsavedChanges env w a.id env.allowCancelDefault).map Prod.fst = some false →
      ∃ w', TryLoadAsset env w fileName = some (LoadResult.Cancelled, w') ∧
        w'.assets = w.assets ∧ w'.tabs = w.tabs ∧
        Call.registryLoad (env.absoluteFilePath (env.trimmed fileName)) ∉ w'.callsSince w ∧
        (∀ name, Call.recentFilesAdd name ∉ w'.callsSince w)) := by
  obtain ⟨v, w1, l, hc, hl, hcalls, hfalse, hoff, hon, hload⟩ :=
    TryLoadAsset_throws_steps env w fileName what hwf hne hex hnew hthrow
  constructor
  · intro hreached
    have hv : v = true := by
      by_cases hone : env.oneAssetAtATime = true
      · rw [if_pos hone] at hc
        by_cases h0 : 0 < w.assets.length
        · exact closeFirst_answer hwf (List.getElem?_eq_getElem h0)
            (hreached hone _ (List.getElem?_eq_getElem h0)) hc
        · have hle : w.tabs.length ≤ 0 := by rw [hwf.1]; omega
          have hsome : TryCloseAsset env w 0 true env.allowCancelDefault = some (true, w) := by
            simp [TryCloseAsset, hle]
          rw [hsome] at hc
          exact (congrArg Prod.fst (Option.some.inj hc)).symm
      · rw [if_neg hone] at hc
        exact (congrArg Prod.fst (Option.some.inj hc)).symm
    subst hv
    simp only [if_true] at hload
    have hcalls' : ((w1.call (.registryLoad (env.absoluteFilePath (env.trimmed fileName)))).call
        (.critical "Error loading asset"
          [env.absoluteFilePath (env.trimmed fileName), what])).calls
        = w.calls ++ (l ++ [.registryLoad (env.absoluteFilePath (env.trimmed fileName)),
            .critical "Error loading asset"
              [env.absoluteFilePath (env.trimmed fileName), what]]) := by
      simp [hcalls]
    refine ⟨_, hload, ?_, hoff rfl, hon rfl, ?_⟩
    · rw [callsSince_eq hcalls']
      simp
    · intro name hmem
      rw [callsSince_eq hcalls'] at hmem
      rcases List.mem_append.1 hmem with hmem | hmem
      · have := hl _ hmem
        simp [Call.isLoadOrRecent] at this
      · simp at hmem
  · intro hone a ha hrefused
    rw [if_pos hone] at hc
    have hv : v = false := closeFirst_answer hwf ha hrefused hc
    subst hv
    simp only [Bool.false_eq_true, if_false] at hload
    refine ⟨w1, hload, (hfalse rfl).1, (hfalse rfl).2, ?_, ?_⟩
    · intro hmem
      rw [callsSince_eq hcalls] at hmem
      have := hl _ hmem
      simp [Call.isLoadOrRecent] at this
    · intro name hmem
      rw [callsSince_eq hcalls] at hmem
      have := hl _ hmem
      simp [Call.isLoadOrRecent] at this

theorem TryLoadAsset_loadThrows_witness :
    sampleWindow.WellFormed ∧
    sampleEnvOne.registryLoad (sampleEnvOne.absoluteFilePath (sampleEnvOne.trimmed "/bad.mdl"))
      = .assetException "bad" ∧
    ∃ w', TryLoadAsset sampleEnvOne sampleWindow "/bad.mdl" = some (LoadResult.Failed, w') ∧
      Call.registryLoad (sampleEnvOne.absoluteFilePath (sampleEnvOne.trimmed "/bad.mdl"))
        ∈ w'.callsSince sampleWindow ∧
      (sampleEnvOne.oneAssetAtATime = false →
        w'.assets = sampleWindow.assets ∧ w'.tabs = sampleWindow.tabs) ∧
      (sampleEnvOne.oneAssetAtATime = true →
        w'.assets = sampleWindow.assets.eraseIdx 0 ∧ w'.tabs = sampleWindow.tabs.eraseIdx 0) ∧
      (∀ name, Call.recentFilesAdd name ∉ w'.callsSince sampleWindow) :=
  ⟨sampleWindow_wellFormed, rfl,
    (TryLoadAsset_loadThrows sampleEnvOne sampleWindow "/bad.mdl" "bad" sampleWindow_wellFormed
      (by decide) (by decide) (by decide) rfl).1
      (by
        intro _ a ha
        have hfirst : a = ⟨0, "/a.mdl", false⟩ := (Option.some.inj ha).symm
        subst hfirst
        decide)⟩

/-- C1 as stated fails: with `OneAssetAtATime` set and a user who answers Cancel when asked
about the unsaved changes of the open asset, `TryLoadAsset` returns `Cancelled` for a name
that is not empty, names an existing file, is not open and for which `Load` throws. -/
theorem TryLoadAsset_loadThrows_refused :
    (sampleEnvRefuse.trimmed "/bad.mdl").isEmpty = false ∧
    sampleEnvRefuse.fileExists (sampleEnvRefuse.trimmed "/bad.mdl") = true ∧
    (∀ a ∈ sampleWindow.assets,
      a.fileName ≠ sampleEnvRefuse.absoluteFilePath (sampleEnvRefuse.trimmed "/bad.mdl")) ∧
    sampleEnvRefuse.registryLoad
        (sampleEnvRefuse.absoluteFilePath (sampleEnvRefuse.trimmed "/bad.mdl"))
      = .assetException "bad" ∧
    (TryLoadAsset sampleEnvRefuse sampleWindow "/bad.mdl").map Prod.fst
      = some LoadResult.Cancelled :=
  ⟨by decide, by decide, by decide, rfl, by decide⟩

theorem setCurrentIndex_result (w : MainWindow) (i : Nat) (a : Asset) (hwf : w.WellFormed)
    (ha : w.assets[i]? = some a) :
    ∃ l, quiet l ∧
      w.setCurrentIndex i
        = some { w with currentIndex := some i, currentAsset := some a.id,
                        calls := w.calls ++ l } := by
  have hi : i < w.tabs.length := by
    rw [hwf.1]
    exact (List.getElem?_eq_some.1 ha).1
  unfold setCurrentIndex
  by_cases hc : w.currentIndex = some i
  · have hca : w.currentAsset = some a.id := by
      rw [(hwf.2.2.1 i hc).2, ha]
      rfl
    refine ⟨[], quiet_nil, ?_⟩
    simp only [hc, ne_eq, not_true_eq_false, and_false, if_false, List.append_nil]
    rw [← hc, ← hca]
  · simp only [hi, ne_eq, hc, not_false_eq_true, and_self, if_true]
    exact OnAssetTabChanged_some { w with currentIndex := some i } i a ha

theorem OnRefreshAsset_result (env : Env) (w : MainWindow) (a : Asset)
    (hc : w.currentAsset = some a.id) (hd : w.deref a.id = some a) :
    ∃ w', OnRefreshAsset env w = some (verdict env a true && env.assetTryRefresh a.id, w') ∧
      w'.assets.length = w.assets.length ∧ w'.tabs = w.tabs ∧
      w'.currentIndex = w.currentIndex := by
  obtain ⟨w1, hv⟩ := VerifyNoUnsavedChanges_verdict env w a.id a true hd
  obtain ⟨l, _, hw1⟩ := VerifyNoUnsavedChanges_effect hv
  have hframe : w1.assets.length = w.assets.length ∧ w1.tabs = w.tabs ∧
      w1.currentIndex = w.currentIndex := by
    rcases hw1 with hw1 | ⟨_, hw1⟩ <;>
    · subst hw1
      simp [setClean]
  unfold OnRefreshAsset
  simp only [hc, hv]
  cases hb : verdict env a true with
  | false => exact ⟨w1, rfl, hframe⟩
  | true => exact ⟨_, rfl, hframe⟩

/-- C7 as amended: on a consistent window, for a name that is not empty after trimming,
names an existing file, and whose absolute path is the file name of an open asset, take
the first tab `i` with such an asset `a`.  `TryLoadAsset` makes tab `i` current, which
makes `a` the current asset, and runs `OnRefreshAsset` on it.  The result is `Success`,
with the name added to the recent files, when the refresh returns true and `Cancelled`
otherwise; the refresh returns true exactly when `VerifyNoUnsavedChanges` passes and
`TryRefresh` succeeds.  No asset and no tab is added or removed. -/
theorem TryLoadAsset_alreadyOpen (env : Env) (w : MainWindow) (fileName : String) (i : Nat)
    (a : Asset) (hwf : w.WellFormed)
    (hne : (env.trimmed fileName).isEmpty = false)
    (hex : env.fileExists (env.trimmed fileName) = true)
    (ha : w.assets[i]? = some a)
    (hname : a.fileName = env.absoluteFilePath (env.trimmed fileName))
    (hfirst : ∀ j b, j < i → w.assets[j]? = some b →
      b.fileName ≠ env.absoluteFilePath (env.trimmed fileName)) :
    ∃ w1 refreshed w2,
      w.setCurrentIndex i = some w1 ∧ w1.currentIndex = some i ∧
      w1.currentAsset = some a.id ∧
      OnRefreshAsset env w1 = some (refreshed, w2) ∧
      (refreshed = true ↔
        (VerifyNoUnsavedChanges env w1 a.id true).map Prod.fst = some true
          ∧ env.assetTryRefresh a.id = true) ∧
      TryLoadAsset env w fileName
        = some (if refreshed then LoadResult.Success else LoadResult.Cancelled,
            if refreshed then
              w2.call (.recentFilesAdd (env.absoluteFilePath (env.trimmed fileName)))
            else w2) ∧
      w2.assets.length = w.assets.length ∧ w2.tabs = w.tabs ∧ w2.currentIndex = some i := by
  have hil : i < w.tabs.length := by
    rw [hwf.1]
    exact (List.getElem?_eq_some.1 ha).1
  have hfind := findLoaded_first w _ i a ha hname hfirst w.tabs.length 0 (Nat.zero_le _)
    (by omega)
  obtain ⟨l, _, hset⟩ := setCurrentIndex_result w i a hwf ha
  have hd : MainWindow.deref
      { w with currentIndex := some i, currentAsset := some a.id, calls := w.calls ++ l } a.id
      = some a := deref_of_getElem (i := i) hwf.2.1 ha
  obtain ⟨w2, href, h2a, h2t, h2c⟩ := OnRefreshAsset_result env
    { w with currentIndex := some i, currentAsset := some a.id, calls := w.calls ++ l } a rfl hd
  obtain ⟨w3, hv3⟩ := VerifyNoUnsavedChanges_verdict env
    { w with currentIndex := some i, currentAsset := some a.id, calls := w.calls ++ l } a.id a
    true hd
  refine ⟨_, _, w2, hset, rfl, rfl, href, ?_, ?_, h2a, h2t, h2c⟩
  · rw [hv3]
    simp
  · unfold TryLoadAsset
    simp only [hne, hex, hfind, hset, href, Bool.false_eq_true, if_false, Bool.not_true]
    cases verdict env a true && env.assetTryRefresh a.id <;> rfl

theorem TryLoadAsset_alreadyOpen_witness :
    sampleWindow.WellFormed ∧
    ∃ w1 refreshed w2,
      sampleWindow.setCurrentIndex 0 = some w1 ∧ w1.currentIndex = some 0 ∧
      w1.currentAsset = some 0 ∧
      OnRefreshAsset sampleEnv w1 = some (refreshed, w2) ∧
      (refreshed = true ↔
        (VerifyNoUnsavedChanges sampleEnv w1 0 true).map Prod.fst = some true
          ∧ sampleEnv.assetTryRefresh 0 = true) ∧
      TryLoadAsset sampleEnv sampleWindow "/a.mdl"
        = some (if refreshed then LoadResult.Success else LoadResult.Cancelled,
            if refreshed then
              w2.call (.recentFilesAdd (sampleEnv.absoluteFilePath (sampleEnv.trimmed "/a.mdl")))
            else w2) ∧
      w2.assets.length = sampleWindow.assets.length ∧ w2.tabs = sampleWindow.tabs ∧
      w2.currentIndex = some 0 :=
  ⟨sampleWindow_wellFormed,
    TryLoadAsset_alreadyOpen sampleEnv sampleWindow "/a.mdl" 0 ⟨0, "/a.mdl", false⟩
      sampleWindow_wellFormed (by decide) (by decide) (by decide) rfl
      (fun j b hj => absurd hj (Nat.not_lt_zero j))⟩

/-- C7 as stated fails: the asset `/gone.mdl` is open in the sample window but its file
no longer exists, and `TryLoadAsset` returns `Failed` for that name. -/
theorem TryLoadAsset_alreadyOpen_missing_file :
    (∃ a ∈ sampleWindow.assets,
      a.fileName = sampleEnv.absoluteFilePath (sampleEnv.trimmed "/gone.mdl")) ∧
    (TryLoadAsset sampleEnv sampleWindow "/gone.mdl").map Prod.fst
      = some LoadResult.Failed :=
  ⟨⟨⟨2, "/gone.mdl", false⟩, by decide, rfl⟩, by decide⟩

/-! ## Closing the window -/

theorem id_ne_of_index_ne (l : List Asset) (hn : (l.map Asset.id).Nodup) {i j : Nat}
    {a b : Asset} (hi : l[i]? = some a) (hj : l[j]? = some b) (hij : i ≠ j) : a.id ≠ b.id := by
  have hi' : (l.map Asset.id)[i]? = some a.id := by simp [List.getElem?_map, hi]
  have hj' : (l.map Asset.id)[j]? = some b.id := by simp [List.getElem?_map, hj]
  have hil : i < (l.map Asset.id).length := (List.getElem?_eq_some.1 hi').1
  have hjl : j < (l.map Asset.id).length := (List.getElem?_eq_some.1 hj').1
  intro he
  rcases Nat.lt_or_gt_of_ne hij with h | h
  · exact List.nodup_iff_getElem?_ne_getElem?.1 hn i j h hjl (by rw [hi', hj', he])
  · exact List.nodup_iff_getElem?_ne_getElem?.1 hn j i h hil (by rw [hi', hj', he])

/-- The first loop of `closeEvent` stops with false when some asset refuses, leaving
the assets (up to their clean flags), the tabs and the settings as they were. -/
theorem verifyAll_refused (env : Env) (fuel : Nat) :
    ∀ (i : Nat) (w : MainWindow), (w.assets.map Asset.id).Nodup →
      w.tabs.length ≤ w.assets.length → w.tabs.length ≤ i + fuel →
      (∃ j a, i ≤ j ∧ j < w.tabs.length ∧ w.assets[j]? = some a ∧ verdict env a true = false) →
      ∃ w', verifyAll env fuel i w = some (false, w') ∧
        w'.assets.map Asset.id = w.assets.map Asset.id ∧
        w'.assets.map Asset.fileName = w.assets.map Asset.fileName ∧
        w'.tabs = w.tabs ∧ w'.settings = w.settings := by
  induction fuel with
  | zero =>
    intro i w _ _ hfuel ⟨j, a, hij, hj, _, _⟩
    omega
  | succ fuel ih =>
    intro i w hn hlen hfuel ⟨j, a, hij, hj, ha, hv⟩
    have hi : i < w.tabs.length := by omega
    have hil : i < w.assets.length := by omega
    have hg : w.GetAsset i = some (w.assets[i]) := by
      simp [GetAsset, List.getElem?_eq_getElem hil]
    have hgi : w.assets[i]? = some (w.assets[i]) := List.getElem?_eq_getElem hil
    obtain ⟨w1, h1⟩ := VerifyNoUnsavedChanges_verdict env w (w.assets[i]).id (w.assets[i]) true
      (deref_of_getElem hn hgi)
    obtain ⟨l, _, hw1⟩ := VerifyNoUnsavedChanges_effect h1
    have hframe : w1.assets.map Asset.id = w.assets.map Asset.id ∧
        w1.assets.map Asset.fileName = w.assets.map Asset.fileName ∧
        w1.tabs = w.tabs ∧ w1.settings = w.settings := by
      rcases hw1 with hw1 | ⟨_, hw1⟩
      · subst hw1
        exact ⟨rfl, rfl, rfl, rfl⟩
      · subst hw1
        exact ⟨map_id_map_clean _ _, map_fileName_map_clean _ _, rfl, rfl⟩
    simp only [verifyAll, hi, if_true, hg, h1]
    cases hb : verdict env (w.assets[i]) true with
    | false => exact ⟨w1, rfl, hframe⟩
    | true =>
      have hne : i ≠ j := by
        intro he
        subst he
        rw [hgi] at ha
        rw [Option.some.inj ha, hv] at hb
        cases hb
      have ha1 : w1.assets[j]? = some a := by
        rcases hw1 with hw1 | ⟨_, hw1⟩
        · subst hw1
          exact ha
        · subst hw1
          exact getElem?_map_clean_ne _ _ _ _ ha
            (id_ne_of_index_ne w.assets hn hgi ha hne).symm
      have hlen1 : w1.assets.length = w.assets.length := by
        have := congrArg List.length hframe.1
        simpa using this
      obtain ⟨w', h', hid, hfn, ht, hs⟩ := ih (i + 1) w1 (by rw [hframe.1]; exact hn)
        (by rw [hframe.2.2.1, hlen1]; exact hlen) (by rw [hframe.2.2.1]; omega)
        ⟨j, a, by omega, by rw [hframe.2.2.1]; exact hj, ha1, hv⟩
      exact ⟨w', h', hid.trans hframe.1, hfn.trans hframe.2.1, ht.trans hframe.2.2.1,
        hs.trans hframe.2.2.2⟩

/-- C4: on a consistent window, when `VerifyNoUnsavedChanges(asset, true)` returns false
for some open asset, `closeEvent` ignores the event; the window then has the assets it
started with (the same objects with the same file names, in the same order), the same
tabs and the same settings, so neither `ScreenName` nor `ScreenGeometry` was written. -/
theorem closeEvent_refused (env : Env) (fuel : Nat) (w : MainWindow) (i : Nat) (a : Asset)
    (hwf : w.WellFormed) (hfuel : w.tabs.length ≤ fuel) (ha : w.assets[i]? = some a)
    (hv : (VerifyNoUnsavedChanges env w a.id true).map Prod.fst = some false) :
    ∃ w', closeEvent env fuel w = some (false, w') ∧
      w'.assets.map Asset.id = w.assets.map Asset.id ∧
      w'.assets.map Asset.fileName = w.assets.map Asset.fileName ∧
      w'.tabs = w.tabs ∧ w'.settings = w.settings := by
  have hverdict := verdict_of_verify (deref_of_getElem hwf.2.1 ha) hv
  obtain ⟨w1, h1⟩ := OnExitFullscreen_defined w hwf.2.2.2
  obtain ⟨l, fs, _, hw1⟩ := OnExitFullscreen_effect h1
  have hil : i < w.assets.length := (List.getElem?_eq_some.1 ha).1
  obtain ⟨w', h', hres⟩ := verifyAll_refused env fuel 0 w1
    (by rw [hw1]; exact hwf.2.1) (by rw [hw1]; exact Nat.le_of_eq hwf.1)
    (by rw [hw1]; simpa using hfuel)
    ⟨i, a, Nat.zero_le _, by rw [hw1]; simpa [hwf.1] using hil, by rw [hw1]; exact ha, hverdict⟩
  refine ⟨w', ?_, ?_⟩
  · simp only [closeEvent, h1, h']
  · subst hw1
    exact hres

theorem closeEvent_refused_witness :
    sampleWindow.WellFormed ∧
    (VerifyNoUnsavedChanges sampleEnv sampleWindow 1 true).map Prod.fst = some false ∧
    ∃ w', closeEvent sampleEnv 3 sampleWindow = some (false, w') ∧
      w'.assets.map Asset.id = sampleWindow.assets.map Asset.id ∧
      w'.assets.map Asset.fileName = sampleWindow.assets.map Asset.fileName ∧
      w'.tabs = sampleWindow.tabs ∧ w'.settings = sampleWindow.settings :=
  ⟨sampleWindow_wellFormed, by decide,
    closeEvent_refused sampleEnv 3 sampleWindow 1 ⟨1, "/b.mdl", false⟩ sampleWindow_wellFormed
      (by decide) (by decide) (by decide)⟩

/-! ## Window placement -/

theorem intercalate_go_append (s : String) (as : List String) (k acc : String) :
    String.intercalate.go acc s (as ++ [k]) = String.intercalate.go acc s as ++ s ++ k := by
  induction as generalizing acc with
  | nil => simp [String.intercalate.go]
  | cons b as ih => simp [String.intercalate.go, ih]

theorem string_append_left_cancel {a b c : String} (h : a ++ b = a ++ c) : b = c := by
  have := congrArg String.data h
  simp only [String.data_append] at this
  exact String.ext (List.append_cancel_left this)

theorem fullKey_injective (s : QSettings) {k₁ k₂ : String}
    (h : s.fullKey k₁ = s.fullKey k₂) : k₁ = k₂ := by
  unfold QSettings.fullKey at h
  cases hg : s.groups with
  | nil =>
    simpa [hg, String.intercalate, String.intercalate.go] using h
  | cons g gs =>
    simp only [hg, List.cons_append, String.intercalate, intercalate_go_append] at h
    exact string_append_left_cancel h

theorem lookup_filter_ne (l : List (String × QVariant)) (k k' : String) (h : k ≠ k') :
    (l.filter (fun kv => kv.1 != k')).lookup k = l.lookup k := by
  induction l with
  | nil => rfl
  | cons kv l ih =>
    obtain ⟨key, v⟩ := kv
    by_cases hk : key = k'
    · subst hk
      have : (k == key) = false := by simpa using h
      simp [List.filter_cons, List.lookup_cons, this, ih]
    · by_cases hkk : k = key
      · subst hkk
        simp [List.filter_cons, List.lookup_cons, hk]
      · have : (k == key) = false := by simpa using hkk
        simp [List.filter_cons, List.lookup_cons, hk, this, ih]

theorem value_setValue_self (s : QSettings) (k : String) (v : QVariant) :
    (s.setValue k v).value k = v := by
  simp [QSettings.value, QSettings.setValue, QSettings.fullKey]

theorem value_setValue_ne (s : QSettings) (k k' : String) (v : QVariant) (h : k ≠ k') :
    (s.setValue k' v).value k = s.value k := by
  have hne : s.fullKey k ≠ s.fullKey k' := fun he => h (fullKey_injective s he)
  have hb : (s.fullKey k == s.fullKey k') = false := by simpa using hne
  have hl := lookup_filter_ne s.values _ _ hne
  simp only [QSettings.value, QSettings.setValue, QSettings.fullKey, List.lookup_cons] at *
  rw [hb, hl]

theorem beginGroup_endGroup (s : QSettings) (g : String) : (s.beginGroup g).endGroup = s := by
  simp [QSettings.beginGroup, QSettings.endGroup]

theorem endGroup_beginGroup (s : QSettings) (g : String) (gs : List String)
    (h : s.groups = gs ++ [g]) : s.endGroup.beginGroup g = s := by
  cases s with
  | mk groups values =>
    simp only at h
    subst h
    simp [QSettings.beginGroup, QSettings.endGroup]

theorem verifyAll_frame (env : Env) (fuel : Nat) :
    ∀ (i : Nat) (w w' : MainWindow) (r : Bool), verifyAll env fuel i w = some (r, w') →
      w'.screen = w.screen ∧ w'.settings = w.settings := by
  induction fuel with
  | zero =>
    intro i w w' r h
    unfold verifyAll at h
    split at h
    · cases h
    · simp only [Option.some.injEq, Prod.mk.injEq] at h
      obtain ⟨_, rfl⟩ := h
      exact ⟨rfl, rfl⟩
  | succ fuel ih =>
    intro i w w' r h
    unfold verifyAll at h
    split at h
    · cases hg : w.GetAsset i with
      | none => simp [hg] at h
      | some asset =>
        simp only [hg] at h
        cases hv : VerifyNoUnsavedChanges env w asset.id true with
        | none => simp [hv] at h
        | some p =>
          obtain ⟨v, w1⟩ := p
          obtain ⟨l, _, hw1⟩ := VerifyNoUnsavedChanges_effect hv
          have hframe : w1.screen = w.screen ∧ w1.settings = w.settings := by
            rcases hw1 with hw1 | ⟨_, hw1⟩ <;>
            · subst hw1
              exact ⟨rfl, rfl⟩
          cases v with
          | false =>
            simp only [hv, Option.some.injEq, Prod.mk.injEq] at h
            obtain ⟨_, rfl⟩ := h
            exact hframe
          | true =>
            simp only [hv] at h
            obtain ⟨h1, h2⟩ := ih (i + 1) w1 w' r h
            exact ⟨h1.trans hframe.1, h2.trans hframe.2⟩
    · simp only [Option.some.injEq, Prod.mk.injEq] at h
      obtain ⟨_, rfl⟩ := h
      exact ⟨rfl, rfl⟩

theorem closeAll_frame (env : Env) (fuel : Nat) :
    ∀ (w w' : MainWindow), closeAll env fuel w = some w' →
      w'.screen = w.screen ∧ w'.settings = w.settings := by
  induction fuel with
  | zero =>
    intro w w' h
    unfold closeAll at h
    split at h
    · cases h
    · simp only [Option.some.injEq] at h
      subst h
      exact ⟨rfl, rfl⟩
  | succ fuel ih =>
    intro w w' h
    unfold closeAll at h
    split at h
    · cases hc : TryCloseAsset env w 0 false env.allowCancelDefault with
      | none => simp [hc] at h
      | some p =>
        obtain ⟨v, w1⟩ := p
        simp only [hc] at h
        obtain ⟨l, _, _, hsc, hst, _, _⟩ := TryCloseAsset_effect hc
        obtain ⟨h1, h2⟩ := ih w1 w' h
        exact ⟨h1.trans hsc, h2.trans hst⟩
    · simp only [Option.some.injEq] at h
      subst h
      exact ⟨rfl, rfl⟩

/-- An accepted `closeEvent` leaves the settings of the window with the screen name and
the geometry stored in group `MainWindow`, and no group open that was not open before. -/
theorem closeEvent_accepted_settings {env : Env} {fuel : Nat} {w w' : MainWindow}
    (h : closeEvent env fuel w = some (true, w')) :
    w'.settings
      = (((w.settings.beginGroup "MainWindow").setValue "ScreenName" (.string w.screen.name)
          ).setValue "ScreenGeometry" (.byteArray env.saveGeometry)).endGroup := by
  unfold closeEvent at h
  cases h1 : w.OnExitFullscreen with
  | none => simp [h1] at h
  | some w1 =>
    simp only [h1] at h
    obtain ⟨l, fs, _, hw1⟩ := OnExitFullscreen_effect h1
    cases h2 : verifyAll env fuel 0 w1 with
    | none => simp [h2] at h
    | some p =>
      obtain ⟨v, w2⟩ := p
      obtain ⟨hsc2, hst2⟩ := verifyAll_frame env fuel 0 w1 w2 v h2
      cases v with
      | false => simp [h2] at h
      | true =>
        simp only [h2] at h
        cases h3 : closeAll env fuel w2 with
        | none => simp [h3] at h
        | some w3 =>
          obtain ⟨hsc3, hst3⟩ := closeAll_frame env fuel w2 w3 h3
          simp only [h3, Option.some.injEq, Prod.mk.injEq, true_and] at h
          subst h
          have hsc : w3.screen = w.screen := by rw [hsc3, hsc2, hw1]
          have hst : w3.settings = w.settings := by rw [hst3, hst2, hw1]
          simp [call, hsc, hst]

theorem find?_first {α : Type} (p : α → Bool) (l : List α) (k : Nat) (x : α)
    (hk : l[k]? = some x) (hp : p x = true)
    (hfirst : ∀ j y, j < k → l[j]? = some y → p y = false) : l.find? p = some x := by
  induction l generalizing k with
  | nil => simp at hk
  | cons y l ih =>
    cases k with
    | zero =>
      simp only [List.getElem?_cons_zero, Option.some.injEq] at hk
      subst hk
      simp [List.find?_cons, hp]
    | succ k =>
      have hy : p y = false := hfirst 0 y (Nat.succ_pos k) (List.getElem?_cons_zero)
      rw [List.find?_cons_of_neg _ (by simp [hy])]
      exact ih k (by simpa using hk)
        (fun j z hj hz => hfirst (j + 1) z (Nat.succ_lt_succ hj) (by simpa using hz))

/-- What `LoadSettings` does, by the screen found and the validity of the geometry. -/
theorem LoadSettings_effect (env : Env) (w : MainWindow) :
    LoadSettings env w
      = { w with
          screen :=
            if ((w.settings.beginGroup "MainWindow").value "ScreenName").isValid then
              ((env.screens.find? (fun screen => screen.name ==
                ((w.settings.beginGroup "MainWindow").value "ScreenName").toString env)).getD
                  w.screen)
            else w.screen,
          calls := w.calls
            ++ [.settingsValue ((w.settings.beginGroup "MainWindow").fullKey "ScreenName"),
                .settingsValue ((w.settings.beginGroup "MainWindow").fullKey "ScreenGeometry")]
            ++ (if ((w.settings.beginGroup "MainWindow").value "ScreenName").isValid then
                  ((env.screens.find? (fun screen => screen.name ==
                    ((w.settings.beginGroup "MainWindow").value "ScreenName").toString env)).map
                      (fun screen => Call.setScreen screen.id)).toList
                else [])
            ++ (if ((w.settings.beginGroup "MainWindow").value "ScreenGeometry").isValid then
                  [.restoreGeometry
                    (((w.settings.beginGroup "MainWindow").value "ScreenGeometry").toByteArray env)]
                else []) } := by
  unfold LoadSettings
  simp only [beginGroup_endGroup]
  cases hn : ((w.settings.beginGroup "MainWindow").value "ScreenName").isValid <;>
  cases hg : ((w.settings.beginGroup "MainWindow").value "ScreenGeometry").isValid
  · simp [call]
  · simp [call]
  · cases hf : env.screens.find? (fun screen => screen.name ==
        ((w.settings.beginGroup "MainWindow").value "ScreenName").toString env) <;>
      simp [call]
  · cases hf : env.screens.find? (fun screen => screen.name ==
        ((w.settings.beginGroup "MainWindow").value "ScreenName").toString env) <;>
      simp [call]

theorem LoadSettings_calls (env : Env) (v : MainWindow) :
    (LoadSettings env v).callsSince v
      = [.settingsValue ((v.settings.beginGroup "MainWindow").fullKey "ScreenName"),
         .settingsValue ((v.settings.beginGroup "MainWindow").fullKey "ScreenGeometry")]
        ++ (if v.storedScreenName.isValid then
              ((env.screens.find? (fun screen => screen.name ==
                v.storedScreenName.toString env)).map
                  (fun screen => Call.setScreen screen.id)).toList
            else [])
        ++ (if v.storedGeometry.isValid then
              [.restoreGeometry (v.storedGeometry.toByteArray env)]
            else []) := by
  apply callsSince_eq
  rw [LoadSettings_effect]
  simp [storedScreenName, storedGeometry]

theorem LoadSettings_restoreGeometry (env : Env) (v : MainWindow) (bytes : List Nat) :
    Call.restoreGeometry bytes ∈ (LoadSettings env v).callsSince v
      ↔ v.storedGeometry.isValid = true ∧ bytes = v.storedGeometry.toByteArray env := by
  rw [LoadSettings_calls]
  cases hn : v.storedScreenName.isValid <;> cases hg : v.storedGeometry.isValid <;>
    simp [Option.toList]
  all_goals
    cases env.screens.find? (fun screen => screen.name == v.storedScreenName.toString env) <;>
      simp

theorem LoadSettings_screen_found (env : Env) (v : MainWindow) (k : Nat) (screen : Screen)
    (hvalid : v.storedScreenName.isValid = true) (hk : env.screens[k]? = some screen)
    (hname : screen.name = v.storedScreenName.toString env)
    (hfirst : ∀ j s, j < k → env.screens[j]? = some s →
      s.name ≠ v.storedScreenName.toString env) :
    (LoadSettings env v).screen = screen := by
  have hf := find?_first (fun s : Screen => s.name == v.storedScreenName.toString env)
    env.screens k screen hk (by simp [hname])
    (fun j s hj hs => by simpa using hfirst j s hj hs)
  rw [LoadSettings_effect]
  simp only [storedScreenName] at hvalid hf
  simp [hvalid, hf]

theorem LoadSettings_screen_kept (env : Env) (v : MainWindow)
    (h : v.storedScreenName.isValid = false
      ∨ ∀ s ∈ env.screens, s.name ≠ v.storedScreenName.toString env) :
    (LoadSettings env v).screen = v.screen := by
  rw [LoadSettings_effect]
  rcases h with h | h
  · simp only [storedScreenName] at h
    simp [h]
  · have hf : env.screens.find? (fun s => s.name == v.storedScreenName.toString env) = none := by
      rw [List.find?_eq_none]
      intro s hs
      simpa using h s hs
    simp only [storedScreenName] at hf
    simp [hf]

/-- C8: the window placement stored by `closeEvent` is the one `LoadSettings` restores.
For every settings store, `LoadSettings` reads exactly the keys `ScreenName` and
`ScreenGeometry` of group `MainWindow`, calls `restoreGeometry` exactly when the stored
geometry is valid and then with its bytes, moves the window to the first screen whose
name is the stored one, and leaves the screen alone when the key is absent or no screen
has that name.  An accepted `closeEvent` stores the name of the current screen and
`saveGeometry()` under those keys, so that `LoadSettings` on these settings restores
that geometry and selects the first screen of that name. -/
theorem windowPlacement_roundtrip (env env' : Env) (w v : MainWindow) :
    ((LoadSettings env' v).callsSince v).filter Call.isSettingsValue
      = [.settingsValue ((v.settings.beginGroup "MainWindow").fullKey "ScreenName"),
         .settingsValue ((v.settings.beginGroup "MainWindow").fullKey "ScreenGeometry")] ∧
    (∀ bytes, Call.restoreGeometry bytes ∈ (LoadSettings env' v).callsSince v
      ↔ v.storedGeometry.isValid = true ∧ bytes = v.storedGeometry.toByteArray env') ∧
    (∀ (k : Nat) (screen : Screen), v.storedScreenName.isValid = true → env'.screens[k]? = some screen →
      screen.name = v.storedScreenName.toString env' →
      (∀ (j : Nat) (s : Screen), j < k → env'.screens[j]? = some s → s.name ≠ v.storedScreenName.toString env') →
      (LoadSettings env' v).screen = screen) ∧
    ((v.storedScreenName.isValid = false
        ∨ ∀ s ∈ env'.screens, s.name ≠ v.storedScreenName.toString env') →
      (LoadSettings env' v).screen = v.screen) ∧
    (∀ fuel w', closeEvent env fuel w = some (true, w') →
      w'.storedScreenName = .string w.screen.name ∧
      w'.storedGeometry = .byteArray env.saveGeometry ∧
      (v.settings = w'.settings →
        Call.restoreGeometry env.saveGeometry ∈ (LoadSettings env' v).callsSince v ∧
        (∀ (k : Nat) (screen : Screen), env'.screens[k]? = some screen → screen.name = w.screen.name →
          (∀ (j : Nat) (s : Screen), j < k → env'.screens[j]? = some s → s.name ≠ w.screen.name) →
          (LoadSettings env' v).screen = screen) ∧
        ((∀ s ∈ env'.screens, s.name ≠ w.screen.name) →
          (LoadSettings env' v).screen = v.screen))) := by
  refine ⟨?_, LoadSettings_restoreGeometry env' v, ?_, LoadSettings_screen_kept env' v, ?_⟩
  · rw [LoadSettings_calls]
    cases v.storedScreenName.isValid <;> cases v.storedGeometry.isValid <;>
      simp [Call.isSettingsValue, List.filter_cons, Option.toList]
    all_goals
      cases env'.screens.find? (fun screen => screen.name == v.storedScreenName.toString env') <;>
        simp [Call.isSettingsValue]
  · intro k screen hvalid hk hname hfirst
    exact LoadSettings_screen_found env' v k screen hvalid hk hname hfirst
  · intro fuel w' hclose
    have hset := closeEvent_accepted_settings hclose
    have hback : w'.settings.beginGroup "MainWindow"
        = ((w.settings.beginGroup "MainWindow").setValue "ScreenName" (.string w.screen.name)
            ).setValue "ScreenGeometry" (.byteArray env.saveGeometry) := by
      rw [hset]
      exact endGroup_beginGroup _ "MainWindow" w.settings.groups rfl
    have hname : w'.storedScreenName = .string w.screen.name := by
      unfold storedScreenName
      rw [hback, value_setValue_ne _ _ _ _ (by decide), value_setValue_self]
    have hgeo : w'.storedGeometry = .byteArray env.saveGeometry := by
      unfold storedGeometry
      rw [hback, value_setValue_self]
    refine ⟨hname, hgeo, ?_⟩
    intro hv
    have hvn : v.storedScreenName = .string w.screen.name := by
      unfold storedScreenName at hname ⊢
      rw [hv]
      exact hname
    have hvg : v.storedGeometry = .byteArray env.saveGeometry := by
      unfold storedGeometry at hgeo ⊢
      rw [hv]
      exact hgeo
    refine ⟨?_, ?_, ?_⟩
    · rw [LoadSettings_restoreGeometry, hvg]
      exact ⟨rfl, rfl⟩
    · intro k screen hk hn hfirst
      apply LoadSettings_screen_found env' v k screen
      · rw [hvn]
        rfl
      · exact hk
      · rw [hvn]
        exact hn
      · rw [hvn]
        exact hfirst
    · intro hnone
      apply LoadSettings_screen_kept
      right
      rw [hvn]
      exact hnone

theorem windowPlacement_roundtrip_witness :
    closeEvent sampleEnv 2 sampleCleanWindow = some (true, sampleClosedWindow) ∧
    (LoadSettings sampleEnvScreens
        { sampleWindow with settings := sampleClosedWindow.settings }).screen = ⟨6, "B"⟩ :=
  ⟨by decide,
    ((((windowPlacement_roundtrip sampleEnv sampleEnvScreens sampleCleanWindow
        { sampleWindow with settings := sampleClosedWindow.settings }).2.2.2.2
      2 sampleClosedWindow (by decide)).2.2 rfl).2.1) 1 ⟨6, "B"⟩ (by decide) (by decide)
        (by
          intro j s hj hs
          have hj0 : j = 0 := by omega
          subst hj0
          cases hs
          decide)⟩

/-! ## Studio model provider -/

namespace studiomodel

/-- C9: for a model that is not a Xash model, `Load` returns an asset whose file name is
path + "/" + complete base name + "." + `StudioModelExtension` when the suffix of the
given name is `StudioModelPS2Extension`, and the given name for every other suffix. -/
theorem Load_fileName {Raw Model : Type} (env : ProviderEnv Raw Model) (fileName : String)
    (studioModel : Raw) (hload : env.loadStudioModel fileName = .ok studioModel)
    (hxash : env.isXashModel studioModel = false) :
    (env.suffix fileName = env.StudioModelPS2Extension →
      Load env fileName
        = .asset (env.path fileName ++ "/" ++ env.completeBaseName fileName ++ "."
            ++ env.StudioModelExtension) (env.convertToEditable studioModel)) ∧
    (env.suffix fileName ≠ env.StudioModelPS2Extension →
      Load env fileName = .asset fileName (env.convertToEditable studioModel)) := by
  constructor <;> intro hs <;> simp [Load, hload, hxash, hs]

theorem Load_fileName_witness :
    (sampleProviderEnv.loadStudioModel "/models/gman.dol" = .ok "/models/gman.dol"
      ∧ sampleProviderEnv.isXashModel "/models/gman.dol" = false
      ∧ sampleProviderEnv.suffix "/models/gman.dol" = sampleProviderEnv.StudioModelPS2Extension)
    ∧ Load sampleProviderEnv "/models/gman.dol" = .asset "/models/gman.mdl" "/models/gman.dol" :=
  ⟨⟨rfl, by decide, rfl⟩,
    (Load_fileName sampleProviderEnv "/models/gman.dol" "/models/gman.dol" rfl (by decide)).1 rfl⟩

/-- C10: for a Xash model `Load` never returns an asset: it returns
`AssetLoadInExternalProgram` with `Loaded` telling whether the launch result is `Success`
when the launch result is not `Failed`, and it throws `AssetException` exactly when the
launch result is `Failed`. -/
theorem Load_xash {Raw Model : Type} (env : ProviderEnv Raw Model) (fileName : String)
    (studioModel : Raw) (hload : env.loadStudioModel fileName = .ok studioModel)
    (hxash : env.isXashModel studioModel = true) :
    (∀ name model, Load env fileName ≠ .asset name model) ∧
    (env.tryLaunchExternalProgram fileName ≠ .Failed →
      Load env fileName
        = .inExternalProgram (decide (env.tryLaunchExternalProgram fileName = .Success))) ∧
    ((∃ what, Load env fileName = .assetException what)
      ↔ env.tryLaunchExternalProgram fileName = .Failed) := by
  cases hr : env.tryLaunchExternalProgram fileName <;>
    simp [Load, hload, hxash, hr]

theorem Load_xash_witness :
    (sampleProviderEnv.loadStudioModel "/models/x" = .ok "/models/x"
      ∧ sampleProviderEnv.isXashModel "/models/x" = true)
    ∧ Load sampleProviderEnv "/models/x" = .inExternalProgram false :=
  ⟨⟨rfl, by decide⟩,
    (Load_xash sampleProviderEnv "/models/x" "/models/x" rfl (by decide)).2.1 (by decide)⟩

end studiomodel

/-! ## Studio model container -/

namespace studiomdl

open StudioModel

/-- C11: a `StudioModel` constructed with a non-null studio header is constructed, its
`GetTextureHeader` is the separate texture header exactly when
`HasSeparateTextureHeader` is true, it is the studio header, the value of
`GetStudioHeader`, otherwise, and it is never null. -/
theorem GetTextureHeader_result (fileName : String) (studioHeader textureHeader : Option Int)
    (sequenceHeaders : List (Option Int)) (isDol : Bool) (h : studioHeader ≠ none) :
    ∃ m, construct fileName studioHeader textureHeader sequenceHeaders isDol = some m ∧
      m.studioHeader = studioHeader ∧ m.textureHeader = textureHeader ∧
      (m.GetTextureHeader = m.textureHeader ↔ m.HasSeparateTextureHeader = true) ∧
      (m.HasSeparateTextureHeader = false → m.GetTextureHeader = m.GetStudioHeader) ∧
      m.GetTextureHeader ≠ none := by
  cases studioHeader with
  | none => exact absurd rfl h
  | some p =>
    refine ⟨⟨fileName, some p, textureHeader, sequenceHeaders, isDol⟩, by simp [construct],
      rfl, rfl, ?_, ?_, ?_⟩ <;>
      cases textureHeader <;>
        simp [GetTextureHeader, HasSeparateTextureHeader, GetStudioHeader]

theorem GetTextureHeader_result_witness :
    ∃ m, construct "gman.mdl" (some 1024) none [] false = some m ∧
      m.studioHeader = some 1024 ∧ m.textureHeader = none ∧
      (m.GetTextureHeader = m.textureHeader ↔ m.HasSeparateTextureHeader = true) ∧
      (m.HasSeparateTextureHeader = false → m.GetTextureHeader = m.GetStudioHeader) ∧
      m.GetTextureHeader ≠ none :=
  GetTextureHeader_result "gman.mdl" (some 1024) none [] false (by decide)

theorem toSizeT_of_nonneg (i : Int) (h0 : 0 ≤ i) (h1 : i < 2 ^ 64) : toSizeT i = i.toNat := by
  unfold toSizeT
  rw [Int.emod_eq_of_lt h0 h1]

/-- C12: with a non-null studio header at `base`, `GetAnim` returns
`base + unused2 + animindex`, with `unused2` taken from sequence group 0, when `seqgroup`
is 0, and the base of sequence header `seqgroup - 1` plus `animindex` when `seqgroup` is
at least 1; when `0 <= seqgroup <= number of sequence headers` the index used to read
the list of sequence headers is in bounds. -/
theorem GetAnim_result (m : StudioModel) (unused2 : Int → Int) (pseqdesc : mstudioseqdesc_t)
    (base : Int) (hbase : m.studioHeader = some base) (hint : pseqdesc.seqgroup < 2 ^ 31) :
    (pseqdesc.seqgroup = 0 →
      m.GetAnim unused2 pseqdesc = some (base + unused2 0 + pseqdesc.animindex)) ∧
    (∀ sequenceHeader, 1 ≤ pseqdesc.seqgroup →
      m.sequenceHeaders[(pseqdesc.seqgroup - 1).toNat]? = some (some sequenceHeader) →
      m.GetAnim unused2 pseqdesc = some (sequenceHeader + pseqdesc.animindex)) ∧
    (1 ≤ pseqdesc.seqgroup → pseqdesc.seqgroup ≤ m.sequenceHeaders.length →
      toSizeT (pseqdesc.seqgroup - 1) < m.sequenceHeaders.length) := by
  have hsize : 1 ≤ pseqdesc.seqgroup →
      toSizeT (pseqdesc.seqgroup - 1) = (pseqdesc.seqgroup - 1).toNat := by
    intro h1
    apply toSizeT_of_nonneg <;> omega
  refine ⟨?_, ?_, ?_⟩
  · intro h0
    simp [GetAnim, hbase, h0]
  · intro sequenceHeader h1 hget
    have hne : pseqdesc.seqgroup ≠ 0 := by omega
    simp only [GetAnim, hbase, hne, if_false]
    rw [hsize h1, hget]
  · intro h1 hle
    rw [hsize h1]
    omega

theorem GetAnim_result_witness :
    sampleModel.studioHeader = some 1024 ∧
    sampleModel.GetAnim (fun _ => 100) ⟨2, 7⟩ = some (12288 + 7) :=
  ⟨rfl,
    (GetAnim_result sampleModel (fun _ => 100) ⟨2, 7⟩ 1024 rfl (by decide)).2.1 12288
      (by decide) (by decide)⟩

end studiomdl

/-! ## Search paths of the file system -/

namespace hlmv

open ToolApplication

/-- C14: `CheckSingleInstance` returns true exactly when the single-instance setting is
enabled and `SingleInstance::Create` returns false; then `Run` returns `EXIT_SUCCESS`,
no main window is created and no file is loaded.  With the setting disabled
`CheckSingleInstance` returns false, creates no `SingleInstance` and makes no call. -/
theorem CheckSingleInstance_result (env : AppEnv) (app : ToolApplication)
    (programName fileName : String) :
    ((CheckSingleInstance env app programName fileName).1 = true
      ↔ env.shouldUseSingleInstance = true
        ∧ env.singleInstanceCreate programName fileName = false) ∧
    (env.shouldUseSingleInstance = true →
      env.singleInstanceCreate "Half-Life Model Viewer" env.commandLineFileName = false →
      (Run env app).1 = EXIT_SUCCESS ∧
      (Run env app).2.mainWindow = app.mainWindow ∧
      (Run env app).2.calls
        = app.calls ++ [.configureApplication "Half-Life Model Viewer", .configureOpenGL,
            .createEditorContext, .parseCommandLine, .newSingleInstance,
            .singleInstanceCreate "Half-Life Model Viewer" env.commandLineFileName]) ∧
    (env.shouldUseSingleInstance = false →
      CheckSingleInstance env app programName fileName = (false, app)) := by
  refine ⟨?_, ?_, ?_⟩
  · unfold CheckSingleInstance
    cases env.shouldUseSingleInstance <;> cases env.singleInstanceCreate programName fileName <;>
      simp
  · intro hs hc
    simp [Run, CheckSingleInstance, hs, hc, ToolApplication.call]
  · intro hs
    simp [CheckSingleInstance, hs]

theorem CheckSingleInstance_result_witness :
    (sampleAppEnv.shouldUseSingleInstance = true ∧
      sampleAppEnv.singleInstanceCreate "Half-Life Model Viewer"
        sampleAppEnv.commandLineFileName = false) ∧
    (Run sampleAppEnv initialApp).1 = EXIT_SUCCESS ∧
    (Run sampleAppEnv initialApp).2.mainWindow = false ∧
    (Run sampleAppEnv initialApp).2.calls
      = [.configureApplication "Half-Life Model Viewer", .configureOpenGL,
          .createEditorContext, .parseCommandLine, .newSingleInstance,
          .singleInstanceCreate "Half-Life Model Viewer" "gman.mdl"] :=
  ⟨⟨rfl, rfl⟩,
    (CheckSingleInstance_result sampleAppEnv initialApp "" "").2.1 rfl rfl⟩

end hlmv

/-! ## Closing an asset while in fullscreen -/

theorem OnExitFullscreen_flag {w w' : MainWindow} (h : w.OnExitFullscreen = some w') :
    w'.fullscreenWidget = false := by
  unfold OnExitFullscreen at h
  split at h
  · rename_i hf
    simp only [Option.some.injEq] at h
    subst h
    simpa using hf
  · cases hc : w.currentAsset with
    | none => simp [hc] at h
    | some asset =>
      simp only [hc, Option.some.injEq] at h
      subst h
      rfl

/-- The exit from fullscreen at the start of `TryCloseAsset`: when a fullscreen widget
exists `ExitFullscreen` is called on it first; the widget can only go away, and it does
when `ExitedFullscreen` is emitted. -/
theorem exitIfFullscreen_exact {env : Env} {w w1 : MainWindow}
    (h : (if w.fullscreenWidget then w.ExitFullscreen env else some w) = some w1) :
    ∃ l, quiet l ∧
      w1 = { w with fullscreenWidget := w1.fullscreenWidget, calls := w.calls ++ l } ∧
      (w.fullscreenWidget = true → ∃ l', l = Call.fullscreenExit :: l') ∧
      (w1.fullscreenWidget = true → w.fullscreenWidget = true) ∧
      (env.exitFullscreenEmits = true → w1.fullscreenWidget = false) := by
  by_cases hf : w.fullscreenWidget = true
  · simp only [hf, if_true] at h
    unfold ExitFullscreen at h
    by_cases he : env.exitFullscreenEmits = true
    · simp only [he, if_true] at h
      have hflag := OnExitFullscreen_flag h
      obtain ⟨l, fs, hl, rfl⟩ := OnExitFullscreen_effect h
      exact ⟨.fullscreenExit :: l, quiet_cons rfl hl, by simp [call], fun _ => ⟨l, rfl⟩,
        fun _ => hf, fun _ => hflag⟩
    · simp only [he, if_false, Option.some.injEq, Bool.false_eq_true] at h
      subst h
      exact ⟨[.fullscreenExit], quiet_cons rfl quiet_nil, rfl, fun _ => ⟨[], rfl⟩,
        fun _ => hf, fun h' => absurd h' he⟩
  · simp only [hf, if_false, Option.some.injEq, Bool.false_eq_true] at h
    subst h
    have hff : w.fullscreenWidget = false := by simpa using hf
    exact ⟨[], quiet_nil, by simp, fun h' => absurd h' hf, fun h' => h', fun _ => hff⟩

/-- The steps of `TryCloseAsset` for an index that is a tab. -/
theorem TryCloseAsset_steps {env : Env} {w w' : MainWindow} {index : Nat}
    {verifyUnsavedChanges allowCancel r : Bool}
    (h : TryCloseAsset env w index verifyUnsavedChanges allowCancel = some (r, w'))
    (hi : index < w.tabs.length) :
    ∃ w1 a b w2,
      (if w.fullscreenWidget then w.ExitFullscreen env else some w) = some w1 ∧
      w1.GetAsset index = some a ∧
      (if verifyUnsavedChanges then VerifyNoUnsavedChanges env w1 a.id allowCancel
        else some (true, w1)) = some (b, w2) ∧
      r = b ∧
      (b = false → w' = w2) ∧
      (b = true → ∃ asset w6, w2.GetAsset index = some asset ∧
        MainWindow.removeTab
          { w2 with undoStacks := w2.undoStacks.filter (fun s => s != asset.id),
                    calls := w2.calls ++ [Call.assetSetActive asset.id false],
                    assets := w2.assets.eraseIdx index } index = some w6 ∧
        w' = w6.destroyed asset.id) := by
  unfold TryCloseAsset at h
  have hnot : ¬ index ≥ w.tabs.length := Nat.not_le_of_lt hi
  simp only [hnot, if_false] at h
  cases he : (if w.fullscreenWidget then w.ExitFullscreen env else some w) with
  | none => simp [he] at h
  | some w1 =>
    simp only [he] at h
    cases ha : w1.GetAsset index with
    | none => simp [ha] at h
    | some a =>
      simp only [ha] at h
      cases hv : (if verifyUnsavedChanges then VerifyNoUnsavedChanges env w1 a.id allowCancel
          else some (true, w1)) with
      | none => simp [hv] at h
      | some p =>
        obtain ⟨b, w2⟩ := p
        refine ⟨w1, a, b, w2, rfl, ha, hv, ?_⟩
        cases b with
        | false =>
          simp only [hv, Option.some.injEq, Prod.mk.injEq] at h
          obtain ⟨rfl, rfl⟩ := h
          refine ⟨rfl, fun _ => rfl, ?_⟩
          intro hb
          cases hb
        | true =>
          simp only [hv] at h
          cases hg : w2.GetAsset index with
          | none => simp [hg] at h
          | some asset =>
            simp only [hg, removeStack, call] at h
            cases h6 : MainWindow.removeTab
                { w2 with undoStacks := w2.undoStacks.filter (fun s => s != asset.id),
                          calls := w2.calls ++ [Call.assetSetActive asset.id false],
                          assets := w2.assets.eraseIdx index } index with
            | none => simp [h6] at h
            | some w6 =>
              simp only [h6, Option.some.injEq, Prod.mk.injEq] at h
              obtain ⟨rfl, rfl⟩ := h
              refine ⟨rfl, ?_, fun _ => ⟨asset, w6, rfl, h6, rfl⟩⟩
              intro hb
              cases hb

theorem destroyed_calls (w : MainWindow) (asset : Nat) : (w.destroyed asset).calls = w.calls := by
  obtain ⟨ca, h⟩ := destroyed_effect w asset
  rw [h]

theorem sampleFullscreenWindow_wellFormed : sampleFullscreenWindow.WellFormed := by
  refine ⟨rfl, by decide, ?_, by decide⟩
  intro i hi
  cases hi
  exact ⟨by decide, rfl⟩

/-- C15 as amended: when a fullscreen widget exists, `TryCloseAsset` on a consistent
window calls `ExitFullscreen` on it for every index that is a tab, whether or not the
unsaved-changes check is asked for and whatever it answers. -/
theorem TryCloseAsset_exitsFullscreen (env : Env) (w : MainWindow) (index : Nat)
    (verifyUnsavedChanges allowCancel : Bool) (hwf : w.WellFormed)
    (hfull : w.fullscreenWidget = true) (hi : index < w.tabs.length) :
    ∃ r w', TryCloseAsset env w index verifyUnsavedChanges allowCancel = some (r, w') ∧
      Call.fullscreenExit ∈ w'.callsSince w := by
  have hil : index < w.assets.length := by rw [← hwf.1]; exact hi
  obtain ⟨w', h⟩ := TryCloseAsset_defined env w index verifyUnsavedChanges allowCancel
    (w.assets[index]) hwf hi (List.getElem?_eq_getElem hil)
  refine ⟨_, w', h, ?_⟩
  obtain ⟨w1, a, b, w2, he, _, hv, _, hfalse, htrue⟩ := TryCloseAsset_steps h hi
  obtain ⟨l1, _, hw1, hexit, _, _⟩ := exitIfFullscreen_exact he
  obtain ⟨l1', rfl⟩ := hexit hfull
  have h1c : w1.calls = w.calls ++ Call.fullscreenExit :: l1' := by rw [hw1]
  have h2c : ∃ l2, w2.calls = w1.calls ++ l2 := by
    by_cases hver : verifyUnsavedChanges = true
    · simp only [hver, if_true] at hv
      obtain ⟨l2, _, hw2⟩ := VerifyNoUnsavedChanges_effect hv
      rcases hw2 with hw2 | ⟨_, hw2⟩ <;> exact ⟨l2, by rw [hw2]⟩
    · simp only [hver, if_false, Option.some.injEq, Prod.mk.injEq, Bool.false_eq_true] at hv
      exact ⟨[], by rw [← hv.2]; simp⟩
  obtain ⟨l2, h2c⟩ := h2c
  have hc : ∃ l, w'.calls = w.calls ++ Call.fullscreenExit :: l := by
    cases b with
    | false =>
      rw [hfalse rfl, h2c, h1c]
      exact ⟨l1' ++ l2, by simp⟩
    | true =>
      obtain ⟨asset, w6, _, h6, hw'⟩ := htrue rfl
      obtain ⟨l6, ci, ca, _, hw6⟩ := removeTab_effect h6
      rw [hw', destroyed_calls, hw6]
      simp only [h2c, h1c]
      exact ⟨l1' ++ l2 ++ [Call.assetSetActive asset.id false] ++ l6, by simp⟩
  obtain ⟨l, hl⟩ := hc
  rw [callsSince_eq hl]
  exact List.mem_cons_self _ _

theorem TryCloseAsset_exitsFullscreen_witness :
    (sampleFullscreenWindow.WellFormed ∧ sampleFullscreenWindow.fullscreenWidget = true) ∧
    ∃ r w', TryCloseAsset sampleEnv sampleFullscreenWindow 1 true true = some (r, w') ∧
      Call.fullscreenExit ∈ w'.callsSince sampleFullscreenWindow :=
  ⟨⟨sampleFullscreenWindow_wellFormed, rfl⟩,
    TryCloseAsset_exitsFullscreen sampleEnv sampleFullscreenWindow 1 true true
      sampleFullscreenWindow_wellFormed rfl (by decide)⟩

/-- C15 as stated fails: with a fullscreen widget and an index that is no tab,
`TryCloseAsset` returns at once; `ExitFullscreen` is not called and the widget stays. -/
theorem TryCloseAsset_keeps_fullscreen :
    sampleFullscreenWindow.fullscreenWidget = true ∧
    TryCloseAsset sampleEnv sampleFullscreenWindow 3 true true
      = some (true, sampleFullscreenWindow) ∧
    Call.fullscreenExit ∉ sampleFullscreenWindow.callsSince sampleFullscreenWindow := by
  decide

/-! ## Default ground texture -/

namespace studiomodel

theorem paint_length (index : Nat → Nat) (color : RGB24) (count : Nat) :
    ∀ (i : Nat) (pixels out : List RGB24), paint index color i count pixels = some out →
      out.length = pixels.length := by
  induction count with
  | zero =>
    intro i pixels out h
    simp only [paint, Option.some.injEq] at h
    rw [← h]
  | succ count ih =>
    intro i pixels out h
    unfold paint at h
    split at h
    · have := ih _ _ _ h
      simpa using this
    · cases h

/-- A painting loop whose indices lie inside the array finishes, and adds the pixels it
names to the line. -/
theorem paint_painted (index : Nat → Nat) (count : Nat) :
    ∀ (i : Nat) (line : Nat → Prop) (pixels : List RGB24), Painted line pixels →
      (∀ k, i ≤ k → k < i + count → index k < pixelCount) →
      ∃ out, paint index lineColor i count pixels = some out ∧
        Painted (fun j => line j ∨ ∃ k, i ≤ k ∧ k < i + count ∧ index k = j) out := by
  induction count with
  | zero =>
    intro i line pixels hp _
    refine ⟨pixels, rfl, hp.1, ?_⟩
    intro j hj
    refine ⟨fun h => ?_, fun h => (hp.2 j hj).2 (fun hl => h (Or.inl hl))⟩
    rcases h with h | ⟨k, h1, h2, _⟩
    · exact (hp.2 j hj).1 h
    · omega
  | succ count ih =>
    intro i line pixels hp hin
    have hi : index i < pixels.length := by
      rw [hp.1]
      exact hin i (Nat.le_refl _) (by omega)
    have hp' : Painted (fun j => line j ∨ index i = j) (pixels.set (index i) lineColor) := by
      refine ⟨by simpa using hp.1, ?_⟩
      intro j hj
      have hjl : j < pixels.length := by rw [hp.1]; exact hj
      by_cases hij : index i = j
      · subst hij
        refine ⟨fun _ => ?_, fun h => absurd (Or.inr rfl) h⟩
        simp [List.getElem?_set, hi]
      · refine ⟨fun h => ?_, fun h => ?_⟩
        · rcases h with h | h
          · rw [List.getElem?_set_ne hij]
            exact (hp.2 j hj).1 h
          · exact absurd h hij
        · rw [List.getElem?_set_ne hij]
          exact (hp.2 j hj).2 (fun hl => h (Or.inl hl))
    obtain ⟨out, hout, hpo⟩ := ih (i + 1) _ _ hp' (fun k h1 h2 => hin k (by omega) (by omega))
    refine ⟨out, by simp only [paint, hi, if_true]; exact hout, hpo.1, ?_⟩
    intro j hj
    refine ⟨fun h => (hpo.2 j hj).1 ?_, fun h => (hpo.2 j hj).2 ?_⟩
    · rcases h with h | ⟨k, h1, h2, h3⟩
      · exact Or.inl (Or.inl h)
      · by_cases hk : k = i
        · subst hk
          exact Or.inl (Or.inr h3)
        · exact Or.inr ⟨k, by omega, by omega, h3⟩
    · intro h'
      apply h
      rcases h' with (h' | h') | ⟨k, h1, h2, h3⟩
      · exact Or.inl h'
      · exact Or.inr ⟨i, Nat.le_refl _, by omega, h'⟩
      · exact Or.inr ⟨k, by omega, by omega, h3⟩

theorem replicate_painted : Painted (fun _ => False) (List.replicate pixelCount groundColor) := by
  refine ⟨by simp, ?_⟩
  intro j hj
  refine ⟨fun h => h.elim, fun _ => ?_⟩
  simp [List.getElem?_replicate, hj]

theorem paintEdges_two (pixels p1 p2 p3 p4 : List RGB24)
    (h1 : paint (fun i => side * (side / 2 - 0) + i) lineColor 0 side pixels = some p1)
    (h2 : paint (fun i => (side / 2 - 0) + i * side) lineColor 0 side p1 = some p2)
    (h3 : paint (fun i => side * (side / 2 - (0 + 1)) + i) lineColor 0 side p2 = some p3)
    (h4 : paint (fun i => (side / 2 - (0 + 1)) + i * side) lineColor 0 side p3 = some p4) :
    paintEdges 0 2 pixels = some p4 := by
  rw [paintEdges]
  simp only [h1, h2]
  rw [paintEdges]
  simp only [h3, h4]
  rw [paintEdges]

theorem row_in_bounds (middle : Nat) (hm : middle < 64) :
    ∀ k, 0 ≤ k → k < 0 + side → (fun i => side * middle + i) k < pixelCount := by
  intro k _ hk
  simp only [side, pixelCount] at hk ⊢
  omega

theorem column_in_bounds (middle : Nat) (hm : middle < 64) :
    ∀ k, 0 ≤ k → k < 0 + side → (fun i => middle + i * side) k < pixelCount := by
  intro k _ hk
  simp only [side, pixelCount] at hk ⊢
  omega

/-- C20: `Initialize` builds the 64x64 ground texture without writing outside the 4096
pixels, and the pixel in row `r` and column `c` is `(0,0,0)` exactly when `r` or `c` is
31 or 32, and `(90,90,90)` otherwise. -/
theorem defaultGroundTexture_pixels :
    ∃ pixels, defaultGroundTexture = some pixels ∧ pixels.length = 4096 ∧
      ∀ r c, r < 64 → c < 64 →
        pixels[64 * r + c]?
          = some (if r = 31 ∨ r = 32 ∨ c = 31 ∨ c = 32 then RGB24.mk 0 0 0 else RGB24.mk 90 90 90) := by
  obtain ⟨p1, h1, hp1⟩ := paint_painted (fun i => side * (side / 2 - 0) + i) side 0 _ _
    replicate_painted (row_in_bounds _ (by decide))
  obtain ⟨p2, h2, hp2⟩ := paint_painted (fun i => (side / 2 - 0) + i * side) side 0 _ _
    hp1 (column_in_bounds _ (by decide))
  obtain ⟨p3, h3, hp3⟩ := paint_painted (fun i => side * (side / 2 - (0 + 1)) + i) side 0 _ _
    hp2 (row_in_bounds _ (by decide))
  obtain ⟨p4, h4, hp4⟩ := paint_painted (fun i => (side / 2 - (0 + 1)) + i * side) side 0 _ _
    hp3 (column_in_bounds _ (by decide))
  have hlen : p4.length = 4096 := hp4.1
  have hpix := hp4.2
  clear hp1 hp2 hp3 hp4
  refine ⟨p4, paintEdges_two _ p1 p2 p3 p4 h1 h2 h3 h4, hlen, ?_⟩
  clear h1 h2 h3 h4 hlen
  intro r c hr hc
  have hj : 64 * r + c < pixelCount := by
    simp only [side, pixelCount]
    omega
  obtain ⟨hline, hground⟩ := hpix (64 * r + c) hj
  clear hpix
  have h32 : side / 2 - 0 = 32 := by decide
  have h31 : side / 2 - (0 + 1) = 31 := by decide
  have h64 : side = 64 := rfl
  simp only [h32, h31, h64] at hline hground
  by_cases hrc : r = 31 ∨ r = 32 ∨ c = 31 ∨ c = 32
  · rw [if_pos hrc]
    apply hline
    rcases hrc with h | h | h | h
    · exact Or.inl (Or.inr ⟨c, Nat.zero_le _, by omega, by omega⟩)
    · exact Or.inl (Or.inl (Or.inl (Or.inr ⟨c, Nat.zero_le _, by omega, by omega⟩)))
    · exact Or.inr ⟨r, Nat.zero_le _, by omega, by omega⟩
    · exact Or.inl (Or.inl (Or.inr ⟨r, Nat.zero_le _, by omega, by omega⟩))
  · rw [if_neg hrc]
    apply hground
    rintro ((((h | ⟨k, _, hk, h⟩) | ⟨k, _, hk, h⟩) | ⟨k, _, hk, h⟩) | ⟨k, _, hk, h⟩)
    · exact h
    all_goals
      apply hrc
      omega

theorem defaultGroundTexture_pixels_witness :
    ∃ pixels, defaultGroundTexture = some pixels ∧
      pixels[64 * 31 + 5]? = some (RGB24.mk 0 0 0) ∧
      pixels[64 * 5 + 7]? = some (RGB24.mk 90 90 90) := by
  obtain ⟨pixels, h, _, hp⟩ := defaultGroundTexture_pixels
  exact ⟨pixels, h, by simpa using hp 31 5 (by decide) (by decide),
    by simpa using hp 5 7 (by decide) (by decide)⟩

end studiomodel

/-! ## Tool menus of the constructor -/

theorem compareChars_total (fold : Char → Nat) :
    ∀ a b : List Char, ¬ QString.compareChars fold a b < 0 → QString.compareChars fold b a ≤ 0
  | [], [] => by simp [QString.compareChars]
  | [], _ :: _ => by simp [QString.compareChars]
  | _ :: _, [] => by simp [QString.compareChars]
  | a :: as, b :: bs => by
    intro h
    by_cases hab : fold a = fold b
    · have hba : fold b = fold a := hab.symm
      simp only [QString.compareChars, hab, if_true] at h ⊢
      exact compareChars_total fold as bs h
    · have hba : ¬ fold b = fold a := fun e => hab e.symm
      simp only [QString.compareChars, hab, hba, if_false] at h ⊢
      omega

theorem compareChars_trans (fold : Char → Nat) :
    ∀ a b c : List Char, QString.compareChars fold a b ≤ 0 → QString.compareChars fold b c ≤ 0 →
      QString.compareChars fold a c ≤ 0
  | [], _, [] => by simp [QString.compareChars]
  | [], _, _ :: _ => by simp [QString.compareChars]
  | _ :: _, [], _ => by simp [QString.compareChars]
  | _ :: _, _ :: _, [] => by simp [QString.compareChars]
  | a :: as, b :: bs, c :: cs => by
    intro h1 h2
    simp only [QString.compareChars] at h1 h2 ⊢
    split_ifs at h1 h2 ⊢ <;>
      first
      | exact compareChars_trans fold as bs cs h1 h2
      | omega

/-- Inserting into a list that is ordered by "compares less than or equal" keeps it
ordered, although the insertion itself tests "compares less". -/
theorem orderedInsert_menus (fold : Char → Nat) (x : String × Nat) :
    ∀ l : List (String × Nat),
      List.Pairwise (fun lhs rhs => QString.compare fold lhs.1 rhs.1 ≤ 0) l →
      List.Pairwise (fun lhs rhs => QString.compare fold lhs.1 rhs.1 ≤ 0)
        (List.orderedInsert (menuLess fold) x l)
  | [], _ => by simp
  | y :: l, h => by
    rw [List.pairwise_cons] at h
    by_cases hxy : menuLess fold x y
    · rw [List.orderedInsert, if_pos hxy]
      refine List.pairwise_cons.2 ⟨?_, List.pairwise_cons.2 h⟩
      intro z hz
      have hle : QString.compare fold x.1 y.1 ≤ 0 := le_of_lt hxy
      rcases List.mem_cons.1 hz with rfl | hz
      · exact hle
      · exact compareChars_trans fold _ _ _ hle (h.1 z hz)
    · rw [List.orderedInsert, if_neg hxy]
      refine List.pairwise_cons.2 ⟨?_, orderedInsert_menus fold x l h.2⟩
      intro z hz
      rcases (List.mem_orderedInsert (menuLess fold)).1 hz with rfl | hz
      · exact compareChars_total fold _ _ hxy
      · exact h.1 z hz

theorem insertionSort_menus (fold : Char → Nat) :
    ∀ l : List (String × Nat),
      List.Pairwise (fun lhs rhs => QString.compare fold lhs.1 rhs.1 ≤ 0)
        (List.insertionSort (menuLess fold) l)
  | [] => by simp
  | x :: l => by
    rw [List.insertionSort]
    exact orderedInsert_menus fold x _ (insertionSort_menus fold l)

/-- C18: the tool menus that the constructor inserts are a permutation of the (provider
name, menu) pairs of exactly the providers whose `CreateToolMenu` is not null, and they are
inserted in an order in which each name compares less than or equal to the next one (and to
every later one) under the case-insensitive comparison. -/
theorem toolMenus_sorted (fold : Char → Nat) (providers : List AssetProvider) :
    List.Perm (toolMenus fold providers)
        (providers.filterMap (fun provider =>
          provider.toolMenu.map (fun menu => (provider.providerName, menu)))) ∧
      (∀ pair, pair ∈ toolMenus fold providers ↔
        ∃ provider ∈ providers, provider.toolMenu = some pair.2 ∧
          provider.providerName = pair.1) ∧
      List.Chain' (fun lhs rhs => QString.compare fold lhs.1 rhs.1 ≤ 0)
        (toolMenus fold providers) ∧
      List.Pairwise (fun lhs rhs => QString.compare fold lhs.1 rhs.1 ≤ 0)
        (toolMenus fold providers) := by
  have hmenus : (fun provider : AssetProvider =>
      match provider.toolMenu with
      | some menu => some (provider.providerName, menu)
      | none => none) = fun provider =>
        provider.toolMenu.map (fun menu => (provider.providerName, menu)) := by
    funext provider
    cases provider.toolMenu <;> rfl
  have hperm : List.Perm (toolMenus fold providers)
      (providers.filterMap (fun provider =>
        provider.toolMenu.map (fun menu => (provider.providerName, menu)))) := by
    simp only [toolMenus, hmenus]
    exact List.perm_insertionSort _ _
  have hsorted := insertionSort_menus fold (providers.filterMap (fun provider =>
      provider.toolMenu.map (fun menu => (provider.providerName, menu))))
  refine ⟨hperm, ?_, ?_, ?_⟩
  · intro pair
    rw [hperm.mem_iff, List.mem_filterMap]
    constructor
    · rintro ⟨provider, hmem, h⟩
      cases hm : provider.toolMenu with
      | none => simp [hm] at h
      | some menu =>
        simp only [hm, Option.map_some', Option.some.injEq] at h
        subst h
        exact ⟨provider, hmem, hm, rfl⟩
    · rintro ⟨provider, hmem, hm, hn⟩
      refine ⟨provider, hmem, ?_⟩
      simp [hm, hn]
  · simp only [toolMenus, hmenus]
    exact List.Pairwise.chain' hsorted
  · simp only [toolMenus, hmenus]
    exact hsorted

/-- With lower-casing as the case folding, the sample providers give the menu of `Map`
before the menu of `studiomodel`, and no menu for `Sprite`. -/
theorem toolMenus_sample :
    toolMenus (fun c => c.toLower.toNat) sampleProviders = [("Map", 2), ("studiomodel", 1)] := by
  decide

/-! ## File filters of the constructor -/

theorem escapeAt_cons_L (tail : List Char) :
    QString.escapeAt ('L' :: tail)
      = match tail with
        | [] => none
        | c :: tail =>
          match QString.digitValue c with
          | none => none
          | some escape =>
            match tail with
            | [] => some (escape, 1 + 1)
            | next :: _ =>
              match QString.digitValue next with
              | some next_escape => some (10 * escape + next_escape, 1 + 2)
              | none => some (escape, 1 + 1) := rfl

theorem escapeAt_cons_ne (c : Char) (tail : List Char) (hc : c ≠ 'L') :
    QString.escapeAt (c :: tail)
      = match QString.digitValue c with
        | none => none
        | some escape =>
          match tail with
          | [] => some (escape, 0 + 1)
          | next :: _ =>
            match QString.digitValue next with
            | some next_escape => some (10 * escape + next_escape, 0 + 2)
            | none => some (escape, 0 + 1) := by
  unfold QString.escapeAt
  split
  · rename_i h
    injection h with h1 h2
    exact absurd h1 hc
  · rfl

/-- Text that starts with a character that is neither `L` nor a digit does not change the
place marker found right before it. -/
theorem escapeAt_append (c0 : Char) (s : List Char) (hL : c0 ≠ 'L')
    (hd : QString.digitValue c0 = none) (rest : List Char) :
    QString.escapeAt (rest ++ c0 :: s) = QString.escapeAt rest := by
  cases rest with
  | nil =>
    rw [List.nil_append, escapeAt_cons_ne c0 s hL, hd]
    rfl
  | cons c tail =>
    rw [List.cons_append]
    by_cases hc : c = 'L'
    · subst hc
      rw [escapeAt_cons_L, escapeAt_cons_L]
      cases tail with
      | nil => simp [hd]
      | cons c1 tail1 =>
        cases tail1 with
        | nil => cases h1 : QString.digitValue c1 <;> simp [h1, hd]
        | cons c2 tail2 => rfl
    · rw [escapeAt_cons_ne c _ hc, escapeAt_cons_ne c _ hc]
      cases tail with
      | nil => cases h1 : QString.digitValue c <;> simp [h1, hd]
      | cons c1 tail1 => rfl

/-- The lowest place marker of a string is numbered above 2, or there is none. -/
theorem findArgEscapes_tail {c : Char} {rest : List Char}
    (h : ∀ n, QString.findArgEscapes (c :: rest) = some n → 2 < n) :
    (∀ n, QString.findArgEscapes rest = some n → 2 < n) ∧
      (c = '%' → ∀ e len, QString.escapeAt rest = some (e, len) → 2 < e) := by
  by_cases hc : c = '%'
  · subst hc
    cases he : QString.escapeAt rest with
    | none =>
      refine ⟨fun n hn => h n ?_, fun _ e len hh => Option.noConfusion hh⟩
      rw [QString.findArgEscapes, if_pos rfl, he]
      exact hn
    | some p =>
      obtain ⟨e, len⟩ := p
      cases hf : QString.findArgEscapes rest with
      | none =>
        have := h e (by rw [QString.findArgEscapes, if_pos rfl, he]; simp only [hf])
        refine ⟨fun n hn => Option.noConfusion hn, fun _ e' len' hh => ?_⟩
        cases hh
        exact this
      | some m =>
        have := h (min e m) (by rw [QString.findArgEscapes, if_pos rfl, he]; simp only [hf])
        refine ⟨fun n hn => ?_, fun _ e' len' hh => ?_⟩
        · cases hn
          exact lt_of_lt_of_le this (min_le_right _ _)
        · cases hh
          exact lt_of_lt_of_le this (min_le_left _ _)
  · refine ⟨fun n hn => h n ?_, fun hh => absurd hh hc⟩
    rw [QString.findArgEscapes, if_neg hc]
    exact hn

theorem findArgEscapes_append_high (c0 : Char) (s : List Char) (hL : c0 ≠ 'L')
    (hd : QString.digitValue c0 = none) (hs : QString.findArgEscapes (c0 :: s) = some 2) :
    ∀ name : List Char, (∀ n, QString.findArgEscapes name = some n → 2 < n) →
      QString.findArgEscapes (name ++ c0 :: s) = some 2
  | [], _ => hs
  | c :: rest, h => by
    obtain ⟨hrest, hmark⟩ := findArgEscapes_tail h
    have ih := findArgEscapes_append_high c0 s hL hd hs rest hrest
    rw [List.cons_append, QString.findArgEscapes, ih, escapeAt_append c0 s hL hd]
    by_cases hc : c = '%'
    · rw [if_pos hc]
      cases he : QString.escapeAt rest with
      | none => rfl
      | some p =>
        obtain ⟨e, len⟩ := p
        have h2 : 2 < e := hmark hc e len he
        show some (min e 2) = some 2
        rw [min_eq_right (Nat.le_of_lt h2)]
    · rw [if_neg hc]

theorem replaceArgEscapes_append_high (a : List Char) (c0 : Char) (s : List Char) (hL : c0 ≠ 'L')
    (hd : QString.digitValue c0 = none) :
    ∀ name : List Char, (∀ n, QString.findArgEscapes name = some n → 2 < n) →
      QString.replaceArgEscapes 2 a 0 (name ++ c0 :: s)
        = name ++ QString.replaceArgEscapes 2 a 0 (c0 :: s)
  | [], _ => rfl
  | c :: rest, h => by
    obtain ⟨hrest, hmark⟩ := findArgEscapes_tail h
    have ih := replaceArgEscapes_append_high a c0 s hL hd rest hrest
    rw [List.cons_append, QString.replaceArgEscapes, ih, escapeAt_append c0 s hL hd]
    by_cases hc : c = '%'
    · rw [if_pos hc]
      cases he : QString.escapeAt rest with
      | none => rfl
      | some p =>
        obtain ⟨e, len⟩ := p
        have h2 : e ≠ 2 := Nat.ne_of_gt (hmark hc e len he)
        show (if e = 2 then _ else _) = _
        rw [if_neg h2]
        rfl
    · rw [if_neg hc]
      rfl

/-- The two chained `arg` calls give the intended entry when the provider name holds no
place marker numbered 0, 1 or 2. -/
theorem arg_entry (name types : String)
    (hname : ∀ n, QString.findArgEscapes name.data = some n → 2 < n) :
    QString.arg (QString.arg "%1 Files (%2)" name) types
      = name ++ " Files (" ++ types ++ ")" := by
  have h1 : QString.findArgEscapes "%1 Files (%2)".data = some 1 := by decide
  have hfirst : QString.arg "%1 Files (%2)" name = ⟨name.data ++ " Files (%2)".data⟩ := by
    apply String.ext
    simp only [QString.arg, h1]
    show QString.replaceArgEscapes 1 name.data 0
      ['%', '1', ' ', 'F', 'i', 'l', 'e', 's', ' ', '(', '%', '2', ')'] = _
    simp [QString.replaceArgEscapes, QString.escapeAt, QString.digitValue]
  have h2 : QString.findArgEscapes
      (name.data ++ ' ' :: ['F', 'i', 'l', 'e', 's', ' ', '(', '%', '2', ')']) = some 2 :=
    findArgEscapes_append_high ' ' _ (by decide) (by decide) (by decide) _ hname
  have h3 := replaceArgEscapes_append_high types.data ' '
    ['F', 'i', 'l', 'e', 's', ' ', '(', '%', '2', ')'] (by decide) (by decide) _ hname
  apply String.ext
  rw [hfirst]
  show (QString.arg ⟨name.data ++ ' ' :: ['F', 'i', 'l', 'e', 's', ' ', '(', '%', '2', ')']⟩
    types).data = _
  simp only [QString.arg, h2, h3, String.data_append]
  simp [QString.replaceArgEscapes, QString.escapeAt, QString.digitValue]

/-- A file type becomes the pattern that matches its extension. -/
theorem arg_fileType (fileType : String) : QString.arg "*.%1" fileType = "*." ++ fileType := by
  apply String.ext
  have h : QString.findArgEscapes "*.%1".data = some 1 := by decide
  simp only [QString.arg, h, String.data_append]
  show QString.replaceArgEscapes 1 fileType.data 0 ['*', '.', '%', '1'] = ['*', '.'] ++ fileType.data
  simp [QString.replaceArgEscapes, QString.escapeAt, QString.digitValue]

theorem filters_foldl (feature : Nat) (entry : AssetProvider → String) :
    ∀ (providers : List AssetProvider) (filters : List String),
      providers.foldl (fun filters provider =>
          if provider.features &&& feature ≠ 0 then filters ++ [entry provider] else filters)
        filters
        = filters ++ (providers.filter (fun provider => provider.features &&& feature ≠ 0)).map
            entry
  | [], filters => by simp
  | provider :: providers, filters => by
    rw [List.foldl_cons, filters_foldl feature entry providers]
    by_cases h : provider.features &&& feature ≠ 0
    · simp [h, List.filter_cons]
    · simp [h, List.filter_cons]

theorem join_data_ne_nil (first : String) (others : List String) (separator : String)
    (h : first.data ≠ []) : (QString.join (first :: others) separator).data ≠ [] := by
  cases others with
  | nil => simpa [QString.join, List.intercalate] using h
  | cons second others =>
    simp [QString.join, List.intercalate, List.intersperse, h]

theorem filterEntry_data_ne_nil (provider : AssetProvider) : (filterEntry provider).data ≠ [] := by
  simp [filterEntry, String.data_append]

/-- C19 as amended: when no provider that has the feature has a name with a place marker
numbered 0, 1 or 2, the filter is made of the entries `<provider name> Files (*.t1 *.t2 ...)`
of the providers with the feature, in registry order, joined by `;;` and followed by
`;;All Files (*.*)`; without such a provider it is `All Files (*.*)` alone. -/
theorem setupFileFilters_entries (providers : List AssetProvider) (feature : Nat)
    (hnames : ∀ provider ∈ providers, provider.features &&& feature ≠ 0 →
      ∀ n, QString.findArgEscapes provider.providerName.data = some n → 2 < n) :
    setupFileFilters providers feature
      = if (providers.filter (fun provider => provider.features &&& feature ≠ 0)) = []
        then "All Files (*.*)"
        else QString.join
          ((providers.filter (fun provider => provider.features &&& feature ≠ 0)).map
            filterEntry) ";;" ++ ";;All Files (*.*)" := by
  have hentries :
      (providers.filter (fun provider => provider.features &&& feature ≠ 0)).map
        (fun provider => QString.arg (QString.arg "%1 Files (%2)" provider.providerName)
          (QString.join (provider.fileTypes.map (fun fileType => QString.arg "*.%1" fileType))
            " "))
      = (providers.filter (fun provider => provider.features &&& feature ≠ 0)).map
          filterEntry := by
    apply List.map_congr_left
    intro provider hmem
    have hfeature : provider.features &&& feature ≠ 0 := by
      simpa using (List.mem_filter.1 hmem).2
    rw [arg_entry _ _ (hnames provider (List.mem_of_mem_filter hmem) hfeature)]
    simp only [filterEntry, arg_fileType]
  unfold setupFileFilters
  simp only [filters_foldl feature, List.nil_append, hentries]
  cases hlist : providers.filter (fun provider => provider.features &&& feature ≠ 0) with
  | nil => simp [QString.isEmpty]
  | cons first others =>
    have hne := join_data_ne_nil (filterEntry first) (others.map filterEntry) ";;"
      (filterEntry_data_ne_nil first)
    have hempty : QString.isEmpty (QString.join (filterEntry first :: others.map filterEntry) ";;")
        = false := by
      simpa [QString.isEmpty, List.isEmpty_iff] using hne
    simp [hempty, String.append_assoc]

theorem setupFileFilters_entries_witness :
    setupFileFilters samplePercentProviders 1
      = "100% Maps %7 Files (*.bsp *.map);;studiomodel Files (*.mdl);;All Files (*.*)" :=
  (setupFileFilters_entries samplePercentProviders 1
    (by
      intro provider hmem _ n hn
      have hcases : provider = ⟨"100% Maps %7", none, 1, ["bsp", "map"]⟩
          ∨ provider = ⟨"%2", none, 2, ["spr"]⟩
          ∨ provider = ⟨"studiomodel", some 1, 3, ["mdl"]⟩ := by
        simpa [samplePercentProviders] using hmem
      rcases hcases with rfl | rfl | rfl
      · have h7 : QString.findArgEscapes "100% Maps %7".data = some 7 := by decide
        rw [h7] at hn
        cases hn
        decide
      · rename_i hfeature
        exact absurd rfl hfeature
      · have hnone : QString.findArgEscapes "studiomodel".data = none := by decide
        rw [hnone] at hn
        cases hn)).trans (by decide)

/-- C19 as stated fails: for a provider whose name is the place marker `%2`, the entry
that `setupFileFilters` builds does not hold the provider name, because the second `arg`
call replaces the marker inside the name as well; the filter differs from the one made of
the entry `%2 Files (*.mdl)`. -/
theorem setupFileFilters_marker_in_name :
    setupFileFilters sampleMarkerProviders 1 = "*.mdl Files (*.mdl);;All Files (*.*)" ∧
      setupFileFilters sampleMarkerProviders 1
        ≠ QString.join (sampleMarkerProviders.map filterEntry) ";;" ++ ";;All Files (*.*)" := by
  decide

/-! ## The assets and their tabs -/

theorem map_eraseIdx {α β : Type} (f : α → β) :
    ∀ (l : List α) (i : Nat), (l.eraseIdx i).map f = (l.map f).eraseIdx i
  | [], _ => rfl
  | _ :: _, 0 => rfl
  | x :: l, i + 1 => by
    simp only [List.eraseIdx_cons_succ, List.map_cons, map_eraseIdx f l i]

theorem eraseIdx_tabsShowAssets {w w' : MainWindow} {index : Nat} (h : w.TabsShowAssets)
    (ht : w'.tabs = w.tabs.eraseIdx index)
    (ha : w'.assets.map Asset.id = (w.assets.map Asset.id).eraseIdx index) :
    w'.TabsShowAssets := by
  unfold TabsShowAssets at h ⊢
  rw [ht, map_eraseIdx, h, ha]

/-- Consistency only looks at the identities of the assets, the tabs, the current tab and
asset, and the presence of the fullscreen widget. -/
theorem wellFormed_of_same {w w' : MainWindow} (hwf : w.WellFormed)
    (ha : w'.assets.map Asset.id = w.assets.map Asset.id) (ht : w'.tabs = w.tabs)
    (hci : w'.currentIndex = w.currentIndex) (hca : w'.currentAsset = w.currentAsset)
    (hfs : w'.fullscreenWidget = true → w.fullscreenWidget = true) : w'.WellFormed := by
  obtain ⟨hlen, hnodup, hcur, hfull⟩ := hwf
  have hl : w'.assets.length = w.assets.length := by
    simpa using congrArg List.length ha
  refine ⟨by rw [ht, hl, hlen], by rw [ha]; exact hnodup, ?_, ?_⟩
  · intro i hi
    rw [hci] at hi
    obtain ⟨h1, h2⟩ := hcur i hi
    refine ⟨by rw [ht]; exact h1, ?_⟩
    rw [hca, h2, ← List.getElem?_map, ← List.getElem?_map, ha]
  · intro hf
    rw [hca]
    exact hfull (hfs hf)

theorem tabsShowAssets_of_same {w w' : MainWindow} (h : w.TabsShowAssets)
    (ha : w'.assets.map Asset.id = w.assets.map Asset.id) (ht : w'.tabs = w.tabs) :
    w'.TabsShowAssets := by
  unfold TabsShowAssets at h ⊢
  rw [ht, ha, h]

theorem not_mem_eraseIdx_of_nodup (l : List Asset) (hn : (l.map Asset.id).Nodup) {i : Nat}
    {a : Asset} (ha : l[i]? = some a) : ∀ b ∈ l.eraseIdx i, b.id ≠ a.id := by
  intro b hb
  obtain ⟨j, hj⟩ := List.getElem?_of_mem hb
  rw [List.getElem?_eraseIdx] at hj
  split at hj
  · exact id_ne_of_index_ne l hn hj ha (by omega)
  · exact id_ne_of_index_ne l hn hj ha (by omega)

/-- Making tab `j` current on a window with as many tabs as assets gives a consistent
window whose current asset is asset `j`. -/
theorem setCurrent_wellFormed (w : MainWindow) (j : Nat) (hlen : w.tabs.length = w.assets.length)
    (hnodup : (w.assets.map Asset.id).Nodup) (hj : j < w.tabs.length) :
    ∃ w' b, OnAssetTabChanged { w with currentIndex := some j } (some j) = some w' ∧
      w.assets[j]? = some b ∧ w'.WellFormed ∧ w'.assets = w.assets ∧ w'.tabs = w.tabs ∧
      w'.fullscreenWidget = w.fullscreenWidget ∧ w'.currentIndex = some j ∧
      w'.currentAsset = some b.id := by
  have hja : j < w.assets.length := by omega
  have hb : w.assets[j]? = some (w.assets[j]) := List.getElem?_eq_getElem hja
  obtain ⟨l, _, h⟩ := OnAssetTabChanged_some { w with currentIndex := some j } j (w.assets[j]) hb
  refine ⟨_, w.assets[j], h, hb, ⟨hlen, hnodup, ?_, ?_⟩, rfl, rfl, rfl, rfl, rfl⟩
  · intro i hi
    have hij : j = i := Option.some.inj hi
    subst hij
    exact ⟨hj, by simp [hb]⟩
  · intro _ hnone
    cases hnone

theorem destroyed_of_ne {w : MainWindow} {asset : Nat} (h : w.currentAsset ≠ some asset) :
    w.destroyed asset = w := by
  unfold destroyed
  rw [if_neg h]

/-- The last steps of `TryCloseAsset` on a consistent window without fullscreen widget:
with asset `index` erased, removing tab `index` and ending the lifetime of the asset give
a consistent window again. -/
theorem removeTab_closing (w : MainWindow) (index : Nat) (asset : Asset) (undo : List Nat)
    (calls : List Call) (hwf : w.WellFormed) (hfs : w.fullscreenWidget = false)
    (ha : w.assets[index]? = some asset) :
    ∃ w6, MainWindow.removeTab
        { w with undoStacks := undo, calls := calls, assets := w.assets.eraseIdx index } index
        = some w6 ∧
      (w6.destroyed asset.id).WellFormed ∧
      (w6.destroyed asset.id).assets = w.assets.eraseIdx index ∧
      (w6.destroyed asset.id).tabs = w.tabs.eraseIdx index ∧
      (w6.destroyed asset.id).fullscreenWidget = false := by
  obtain ⟨hlen, hnodup, hcur, _⟩ := hwf
  have hia : index < w.assets.length := (List.getElem?_eq_some.1 ha).1
  have hi : index < w.tabs.length := by omega
  have hlen' : (w.tabs.eraseIdx index).length = (w.assets.eraseIdx index).length := by
    rw [List.length_eraseIdx, List.length_eraseIdx, if_pos hi, if_pos hia, hlen]
  have hnodup' : ((w.assets.eraseIdx index).map Asset.id).Nodup := by
    rw [map_eraseIdx]
    exact hnodup.sublist (List.eraseIdx_sublist _ _)
  have hgone := not_mem_eraseIdx_of_nodup w.assets hnodup ha
  unfold MainWindow.removeTab
  simp only [hi, if_true]
  cases hc : w.currentIndex with
  | none =>
    refine ⟨_, rfl, ?_, ?_, ?_, ?_⟩
    · unfold destroyed
      split
      · exact ⟨hlen', hnodup', by intro i h; simp [hc] at h, by intro h; simp [hfs] at h⟩
      · exact ⟨hlen', hnodup', by intro i h; simp [hc] at h, by intro h; simp [hfs] at h⟩
    all_goals
      unfold destroyed
      split <;> first | rfl | exact hfs
  | some current =>
    obtain ⟨hcl, hca⟩ := hcur current hc
    by_cases hic : index = current
    · simp only [hic, if_true]
      by_cases hempty : (w.tabs.eraseIdx current).length = 0
      · simp only [hempty, if_true]
        obtain ⟨l, _, h⟩ := OnAssetTabChanged_none
          { w with undoStacks := undo, calls := calls,
                   assets := w.assets.eraseIdx current,
                   tabs := w.tabs.eraseIdx current, currentIndex := none }
        refine ⟨_, h, ?_⟩
        rw [destroyed_of_ne (by simp)]
        subst hic
        refine ⟨⟨hlen', hnodup', ?_, ?_⟩, rfl, rfl, hfs⟩
        · intro i h
          cases h
        · intro h
          simp [hfs] at h
      · simp only [hempty, if_false]
        subst hic
        obtain ⟨w', b, h, hb, hwf', ha', ht', hf', _, hca'⟩ := setCurrent_wellFormed
          { w with undoStacks := undo, calls := calls,
                   assets := w.assets.eraseIdx index, tabs := w.tabs.eraseIdx index }
          (min index ((w.tabs.eraseIdx index).length - 1)) hlen' hnodup'
          (by
            have : min index ((w.tabs.eraseIdx index).length - 1)
                ≤ (w.tabs.eraseIdx index).length - 1 := min_le_right _ _
            show _ < (w.tabs.eraseIdx index).length
            omega)
        refine ⟨w', h, ?_⟩
        have hne : w'.currentAsset ≠ some asset.id := by
          rw [hca']
          intro he
          exact hgone b (List.getElem?_mem hb) (Option.some.inj he)
        rw [destroyed_of_ne hne]
        exact ⟨hwf', ha', ht', by rw [hf']; exact hfs⟩
    · simp only [hic, if_false]
      by_cases hlt : index < current
      · simp only [hlt, if_true]
        obtain ⟨w', b, h, hb, hwf', ha', ht', hf', _, hca'⟩ := setCurrent_wellFormed
          { w with undoStacks := undo, calls := calls,
                   assets := w.assets.eraseIdx index, tabs := w.tabs.eraseIdx index }
          (current - 1) hlen' hnodup'
          (by
            show _ < (w.tabs.eraseIdx index).length
            rw [List.length_eraseIdx, if_pos hi]
            omega)
        refine ⟨w', h, ?_⟩
        have hne : w'.currentAsset ≠ some asset.id := by
          rw [hca']
          intro he
          exact hgone b (List.getElem?_mem hb) (Option.some.inj he)
        rw [destroyed_of_ne hne]
        exact ⟨hwf', ha', ht', by rw [hf']; exact hfs⟩
      · simp only [hlt, if_false]
        have hcur_lt : current < index := by omega
        have hsame : (w.assets.eraseIdx index)[current]? = w.assets[current]? :=
          List.getElem?_eraseIdx_of_lt _ _ _ hcur_lt
        have hcl' : current < w.assets.length := by omega
        have hcurrent : w.assets[current]? = some (w.assets[current]) :=
          List.getElem?_eq_getElem hcl'
        have hne : w.currentAsset ≠ some asset.id := by
          rw [hca, hcurrent]
          intro he
          exact id_ne_of_index_ne w.assets hnodup hcurrent ha (by omega)
            (Option.some.inj he)
        refine ⟨_, rfl, ?_⟩
        rw [destroyed_of_ne (by exact hne)]
        refine ⟨⟨hlen', hnodup', ?_, by intro h; simp [hfs] at h⟩, rfl, rfl, hfs⟩
        intro i h
        have hci : current = i := Option.some.inj h
        subst hci
        refine ⟨?_, ?_⟩
        · show current < (w.tabs.eraseIdx index).length
          rw [List.length_eraseIdx, if_pos hi]
          omega
        · show w.currentAsset = ((w.assets.eraseIdx index)[current]?).map Asset.id
          rw [hsame, hca]

/-- On a consistent window `TryCloseAsset` returns, and the window it leaves is consistent;
its tabs show its assets if they did before.  When it returns true the tab and the asset
at `index` are gone, otherwise both lists are as before.  The fullscreen widget, if there
is one, has to give up the screen when asked. -/
theorem TryCloseAsset_consistent (env : Env) (w : MainWindow) (index : Nat)
    (verifyUnsavedChanges allowCancel : Bool) (hwf : w.WellFormed)
    (hfull : env.exitFullscreenEmits = true ∨ w.fullscreenWidget = false) :
    ∃ r w', TryCloseAsset env w index verifyUnsavedChanges allowCancel = some (r, w') ∧
      w'.WellFormed ∧ (w.TabsShowAssets → w'.TabsShowAssets) ∧
      (w.fullscreenWidget = false → w'.fullscreenWidget = false) ∧
      (index < w.tabs.length → w'.fullscreenWidget = false) ∧
      (r = true → w'.tabs = w.tabs.eraseIdx index ∧
        w'.assets.map Asset.id = (w.assets.map Asset.id).eraseIdx index) ∧
      (r = false → w'.tabs = w.tabs ∧ w'.assets.map Asset.id = w.assets.map Asset.id) ∧
      (verifyUnsavedChanges = false → r = true) := by
  by_cases hi : index < w.tabs.length
  · have hia : index < w.assets.length := by rw [← hwf.1]; exact hi
    have ha : w.assets[index]? = some (w.assets[index]) := List.getElem?_eq_getElem hia
    obtain ⟨w', h⟩ := TryCloseAsset_defined env w index verifyUnsavedChanges allowCancel
      (w.assets[index]) hwf hi ha
    generalize (!verifyUnsavedChanges || verdict env (w.assets[index]) allowCancel) = r at h
    obtain ⟨w1, a, b, w2, he, hga, hv, hr, hfalse, htrue⟩ := TryCloseAsset_steps h hi
    obtain ⟨l1, _, hw1, _, hback, hemit⟩ := exitIfFullscreen_exact he
    have hfs1 : w1.fullscreenWidget = false := by
      rcases hfull with hfull | hfull
      · exact hemit hfull
      · cases hf : w1.fullscreenWidget with
        | false => rfl
        | true => rw [hback hf] at hfull; cases hfull
    have h1a : w1.assets = w.assets := by rw [hw1]
    have h1t : w1.tabs = w.tabs := by rw [hw1]
    have hwf1 : w1.WellFormed :=
      wellFormed_of_same hwf (by rw [h1a]) h1t (by rw [hw1]) (by rw [hw1])
        (by intro hf; rw [hfs1] at hf; cases hf)
    have hv2 : w2.assets.map Asset.id = w1.assets.map Asset.id ∧ w2.tabs = w1.tabs ∧
        w2.currentIndex = w1.currentIndex ∧ w2.currentAsset = w1.currentAsset ∧
        w2.fullscreenWidget = w1.fullscreenWidget ∧ (verifyUnsavedChanges = false → b = true) := by
      cases hver : verifyUnsavedChanges with
      | false =>
        simp only [hver, Bool.false_eq_true, if_false, Option.some.injEq, Prod.mk.injEq] at hv
        obtain ⟨hb, hw⟩ := hv
        subst hw
        exact ⟨rfl, rfl, rfl, rfl, rfl, fun _ => hb.symm⟩
      | true =>
        simp only [hver, if_true] at hv
        obtain ⟨l2, _, hw2⟩ := VerifyNoUnsavedChanges_effect hv
        rcases hw2 with hw2 | ⟨_, hw2⟩
        · subst hw2
          exact ⟨rfl, rfl, rfl, rfl, rfl, fun hf => Bool.noConfusion hf⟩
        · subst hw2
          exact ⟨map_id_map_clean _ _, rfl, rfl, rfl, rfl, fun hf => Bool.noConfusion hf⟩
    obtain ⟨h2a, h2t, h2ci, h2ca, h2f, hvb⟩ := hv2
    have hwf2 : w2.WellFormed :=
      wellFormed_of_same hwf1 h2a h2t h2ci h2ca (by intro hf; rw [h2f] at hf; exact hf)
    have hfs2 : w2.fullscreenWidget = false := by rw [h2f]; exact hfs1
    have htabs2 : w.TabsShowAssets → w2.TabsShowAssets := fun htabs =>
      tabsShowAssets_of_same htabs (by rw [h2a, h1a]) (by rw [h2t, h1t])
    subst hr
    refine ⟨r, w', h, ?_⟩
    cases r with
    | false =>
      have hw' : w' = w2 := hfalse rfl
      subst hw'
      exact ⟨hwf2, htabs2, fun _ => hfs2, fun _ => hfs2, fun hf => Bool.noConfusion hf,
        fun _ => ⟨by rw [h2t, h1t], by rw [h2a, h1a]⟩, fun hf => Bool.noConfusion (hvb hf)⟩
    | true =>
      obtain ⟨asset, w6, hg, h6, hw'⟩ := htrue rfl
      obtain ⟨w6', h6', hwf6, ha6, ht6, hf6⟩ := removeTab_closing w2 index asset
        (w2.undoStacks.filter (fun s => s != asset.id))
        (w2.calls ++ [Call.assetSetActive asset.id false]) hwf2 hfs2 hg
      have hw6 : w6' = w6 := Option.some.inj (h6'.symm.trans h6)
      subst hw6
      subst hw'
      have hids : (w6'.destroyed asset.id).assets.map Asset.id
          = (w.assets.map Asset.id).eraseIdx index := by
        rw [ha6, map_eraseIdx, h2a, h1a]
      have htab : (w6'.destroyed asset.id).tabs = w.tabs.eraseIdx index := by
        rw [ht6, h2t, h1t]
      exact ⟨hwf6, fun htabs => eraseIdx_tabsShowAssets htabs htab hids, fun _ => hf6, fun _ => hf6,
        fun _ => ⟨htab, hids⟩, fun hf => Bool.noConfusion hf, fun _ => rfl⟩
  · have hle : w.tabs.length ≤ index := Nat.le_of_not_lt hi
    have hle' : (w.assets.map Asset.id).length ≤ index := by
      rw [List.length_map, ← hwf.1]
      exact hle
    refine ⟨true, w, by simp [TryCloseAsset, hle],
      hwf, fun h => h, fun h => h, fun h => absurd h hi, fun _ => ?_, fun hf => Bool.noConfusion hf,
      fun _ => rfl⟩
    exact ⟨(List.eraseIdx_of_length_le hle).symm, (List.eraseIdx_of_length_le hle').symm⟩

/-! ## Closing the window when every asset agrees -/

theorem closeAllCount_closeAll (env : Env) (fuel : Nat) :
    ∀ w : MainWindow, (closeAllCount env fuel w).map Prod.snd = closeAll env fuel w := by
  induction fuel with
  | zero =>
    intro w
    unfold closeAllCount closeAll
    split <;> rfl
  | succ fuel ih =>
    intro w
    unfold closeAllCount closeAll
    split
    · cases h : TryCloseAsset env w 0 false env.allowCancelDefault with
      | none => rfl
      | some p =>
        simp only [Option.map_map]
        rw [← ih p.2]
        congr 1
    · rfl

/-- The first loop of `closeEvent` runs through when every asset from tab `i` on agrees; it
changes neither the identities of the assets nor the tabs nor what is current. -/
theorem verifyAll_accepted (env : Env) (fuel : Nat) :
    ∀ (i : Nat) (w : MainWindow), (w.assets.map Asset.id).Nodup →
      w.tabs.length = w.assets.length → w.tabs.length ≤ i + fuel →
      (∀ j a, i ≤ j → w.assets[j]? = some a → verdict env a true = true) →
      ∃ w', verifyAll env fuel i w = some (true, w') ∧
        w'.assets.map Asset.id = w.assets.map Asset.id ∧ w'.tabs = w.tabs ∧
        w'.currentIndex = w.currentIndex ∧ w'.currentAsset = w.currentAsset ∧
        w'.fullscreenWidget = w.fullscreenWidget := by
  induction fuel with
  | zero =>
    intro i w _ _ hfuel _
    have hi : ¬ i < w.tabs.length := by omega
    exact ⟨w, by simp [verifyAll, hi], rfl, rfl, rfl, rfl, rfl⟩
  | succ fuel ih =>
    intro i w hn hlen hfuel hall
    by_cases hi : i < w.tabs.length
    · have hil : i < w.assets.length := by omega
      have hg : w.GetAsset i = some (w.assets[i]) := by
        simp [GetAsset, List.getElem?_eq_getElem hil]
      have hgi : w.assets[i]? = some (w.assets[i]) := List.getElem?_eq_getElem hil
      obtain ⟨w1, h1⟩ := VerifyNoUnsavedChanges_verdict env w (w.assets[i]).id (w.assets[i]) true
        (deref_of_getElem hn hgi)
      rw [hall i _ (Nat.le_refl _) hgi] at h1
      obtain ⟨l, _, hw1⟩ := VerifyNoUnsavedChanges_effect h1
      have hframe : w1.assets.map Asset.id = w.assets.map Asset.id ∧ w1.tabs = w.tabs ∧
          w1.currentIndex = w.currentIndex ∧ w1.currentAsset = w.currentAsset ∧
          w1.fullscreenWidget = w.fullscreenWidget := by
        rcases hw1 with hw1 | ⟨_, hw1⟩
        · subst hw1
          exact ⟨rfl, rfl, rfl, rfl, rfl⟩
        · subst hw1
          exact ⟨map_id_map_clean _ _, rfl, rfl, rfl, rfl⟩
      obtain ⟨h1a, h1t, h1ci, h1ca, h1f⟩ := hframe
      have hlen1 : w1.assets.length = w.assets.length := by
        simpa using congrArg List.length h1a
      have hall1 : ∀ j a, i + 1 ≤ j → w1.assets[j]? = some a → verdict env a true = true := by
        intro j a hij ha
        rcases hw1 with hw1 | ⟨_, hw1⟩
        · subst hw1
          exact hall j a (by omega) ha
        · subst hw1
          have hjl : j < w.assets.length := by
            have := (List.getElem?_eq_some.1 ha).1
            simpa [setClean] using this
          have hgj : w.assets[j]? = some (w.assets[j]) := List.getElem?_eq_getElem hjl
          have hne := id_ne_of_index_ne w.assets hn hgj hgi (by omega)
          have hsame := getElem?_map_clean_ne w.assets (w.assets[i]).id j (w.assets[j]) hgj hne
          have : some a = some (w.assets[j]) := ha.symm.trans hsame
          rw [Option.some.inj this]
          exact hall j _ (by omega) hgj
      obtain ⟨w', h', hid, ht, hci, hca, hf⟩ := ih (i + 1) w1 (by rw [h1a]; exact hn)
        (by rw [h1t, hlen1]; exact hlen) (by rw [h1t]; omega) hall1
      refine ⟨w', ?_, hid.trans h1a, ht.trans h1t, hci.trans h1ci, hca.trans h1ca,
        hf.trans h1f⟩
      simp only [verifyAll, hi, if_true, hg, h1]
      exact h'
    · exact ⟨w, by simp [verifyAll, hi], rfl, rfl, rfl, rfl, rfl⟩

/-- The second loop of `closeEvent` on a consistent window without fullscreen widget calls
`TryCloseAsset` once for each tab and leaves no asset and no tab. -/
theorem closeAllCount_result (env : Env) (fuel : Nat) :
    ∀ w : MainWindow, w.WellFormed → w.fullscreenWidget = false → w.tabs.length ≤ fuel →
      ∃ w', closeAllCount env fuel w = some (w.tabs.length, w') ∧ w'.assets = [] ∧
        w'.tabs = [] ∧ w'.WellFormed := by
  induction fuel with
  | zero =>
    intro w hwf _ hfuel
    have ht : w.tabs.length = 0 := by omega
    have hl : w.assets.length = 0 := by rw [← hwf.1]; exact ht
    refine ⟨w, ?_, List.eq_nil_of_length_eq_zero hl, List.eq_nil_of_length_eq_zero ht, hwf⟩
    simp [closeAllCount, ht]
  | succ fuel ih =>
    intro w hwf hfs hfuel
    by_cases ht : w.tabs.length > 0
    · obtain ⟨r, w1, h1, hwf1, _, hfs1, _, hr, _, hv⟩ :=
        TryCloseAsset_consistent env w 0 false env.allowCancelDefault hwf (Or.inr hfs)
      have hrt : r = true := hv rfl
      have ht1 : w1.tabs.length + 1 = w.tabs.length := by
        rw [(hr hrt).1, List.length_eraseIdx, if_pos ht]
        omega
      obtain ⟨w', h', ha', ht', hwf'⟩ := ih w1 hwf1 (hfs1 hfs) (by omega)
      refine ⟨w', ?_, ha', ht', hwf'⟩
      simp only [closeAllCount, ht, if_true, h1, h', Option.map_some', ht1]
    · have ht0 : w.tabs.length = 0 := by omega
      have hl : w.assets.length = 0 := by rw [← hwf.1]; exact ht0
      refine ⟨w, ?_, List.eq_nil_of_length_eq_zero hl, List.eq_nil_of_length_eq_zero ht0, hwf⟩
      simp [closeAllCount, ht0]

/-- More fuel does not change what the second loop of `closeEvent` returns. -/
theorem closeAll_fuel (env : Env) :
    ∀ (k : Nat) (w w' : MainWindow), closeAll env k w = some w' →
      ∀ j, k ≤ j → closeAll env j w = some w' := by
  intro k
  induction k with
  | zero =>
    intro w w' h j _
    unfold closeAll at h
    split at h
    · cases h
    · rename_i ht
      cases j with
      | zero => simp only [closeAll, ht, if_false]; exact h
      | succ j => simp only [closeAll, ht, if_false]; exact h
  | succ k ih =>
    intro w w' h j hj
    obtain ⟨j', rfl⟩ : ∃ j', j = j' + 1 := ⟨j - 1, by omega⟩
    unfold closeAll at h ⊢
    split
    · rename_i ht
      rw [if_pos ht] at h
      cases hc : TryCloseAsset env w 0 false env.allowCancelDefault with
      | none => rw [hc] at h; cases h
      | some p =>
        rw [hc] at h
        exact ih p.2 w' h j' (by omega)
    · rename_i ht
      rw [if_neg ht] at h
      exact h

/-- With less fuel than tabs the second loop of `closeEvent` does not come to its end: it
needs one call of `TryCloseAsset` for each tab. -/
theorem closeAll_short (env : Env) (k : Nat) :
    ∀ w : MainWindow, w.WellFormed → w.fullscreenWidget = false → k < w.tabs.length →
      closeAll env k w = none := by
  induction k with
  | zero =>
    intro w _ _ hk
    simp [closeAll, hk]
  | succ k ih =>
    intro w hwf hfs hk
    have ht : w.tabs.length > 0 := by omega
    obtain ⟨r, w1, h1, hwf1, _, hfs1, _, hr, _, hv⟩ :=
      TryCloseAsset_consistent env w 0 false env.allowCancelDefault hwf (Or.inr hfs)
    have ht1 : w1.tabs.length + 1 = w.tabs.length := by
      rw [(hr (hv rfl)).1, List.length_eraseIdx, if_pos ht]
      omega
    simp only [closeAll, ht, if_true, h1]
    exact ih w1 hwf1 (hfs1 hfs) (by omega)

/-- C17: on a consistent window on which `VerifyNoUnsavedChanges(asset, true)` returns true
for every open asset, `closeEvent` accepts the event.  Its first loop runs through; its
second loop, run on the window `w2` that the first loop leaves, ends after exactly one call
of `TryCloseAsset(0, false)` per open asset (it ends with as many units of fuel as there
are assets and with no fewer, and the counted calls are that many) in a window `w3` with no
asset and no tab; the window that `closeEvent` leaves is `w3` with the placement stored,
the timer stopped and the tab widget deleted. -/
theorem closeEvent_accepted (env : Env) (fuel : Nat) (w : MainWindow) (hwf : w.WellFormed)
    (hfuel : w.tabs.length ≤ fuel)
    (hv : ∀ a ∈ w.assets, (VerifyNoUnsavedChanges env w a.id true).map Prod.fst = some true) :
    ∃ w1 w2 w3,
      w.OnExitFullscreen = some w1 ∧
      verifyAll env fuel 0 w1 = some (true, w2) ∧
      closeAllCount env fuel w2 = some (w.assets.length, w3) ∧
      (∀ k, closeAll env k w2 = if w.assets.length ≤ k then some w3 else none) ∧
      w3.assets = [] ∧ w3.tabs = [] ∧
      closeEvent env fuel w
        = some (true,
            { ({ w3 with
                  settings := (((w3.settings.beginGroup "MainWindow").setValue "ScreenName"
                    (.string w3.screen.name)).setValue "ScreenGeometry"
                    (.byteArray env.saveGeometry)).endGroup } : MainWindow).call .timerStop with
              currentAsset := none, tabs := [], currentIndex := none }) := by
  obtain ⟨w1, h1⟩ := OnExitFullscreen_defined w hwf.2.2.2
  obtain ⟨l, fs, _, hw1⟩ := OnExitFullscreen_effect h1
  have hfs1 : w1.fullscreenWidget = false := OnExitFullscreen_flag h1
  have h1a : w1.assets = w.assets := by rw [hw1]
  have h1t : w1.tabs = w.tabs := by rw [hw1]
  have hwf1 : w1.WellFormed :=
    wellFormed_of_same hwf (by rw [h1a]) h1t (by rw [hw1]) (by rw [hw1])
      (by intro hf; rw [hfs1] at hf; cases hf)
  have hall : ∀ j a, 0 ≤ j → w1.assets[j]? = some a → verdict env a true = true := by
    intro j a _ ha
    rw [h1a] at ha
    exact verdict_of_verify (deref_of_getElem hwf.2.1 ha) (hv a (List.getElem?_mem ha))
  obtain ⟨w2, h2, h2a, h2t, h2ci, h2ca, h2f⟩ := verifyAll_accepted env fuel 0 w1 hwf1.2.1
    hwf1.1 (by rw [h1t]; omega) hall
  have hwf2 : w2.WellFormed :=
    wellFormed_of_same hwf1 h2a h2t h2ci h2ca (by intro hf; rw [h2f] at hf; exact hf)
  have hfs2 : w2.fullscreenWidget = false := by rw [h2f]; exact hfs1
  have hcount : w2.tabs.length = w.assets.length := by rw [h2t, h1t, hwf.1]
  obtain ⟨w3, h3, h3a, h3t, _⟩ := closeAllCount_result env fuel w2 hwf2 hfs2
    (by rw [h2t, h1t]; exact hfuel)
  rw [hcount] at h3
  obtain ⟨w3', h3n, _, _, _⟩ := closeAllCount_result env w.assets.length w2 hwf2 hfs2
    (by rw [hcount])
  have h3n' : closeAll env w.assets.length w2 = some w3' := by
    rw [← closeAllCount_closeAll, h3n]
    rfl
  have h3' : closeAll env fuel w2 = some w3 := by
    rw [← closeAllCount_closeAll, h3]
    rfl
  have hsame : w3' = w3 := by
    have := closeAll_fuel env _ w2 w3' h3n' fuel (by rw [← hwf.1]; exact hfuel)
    exact Option.some.inj (this.symm.trans h3')
  subst hsame
  refine ⟨w1, w2, w3', h1, h2, h3, ?_, h3a, h3t, ?_⟩
  · intro k
    by_cases hk : w.assets.length ≤ k
    · rw [if_pos hk]
      exact closeAll_fuel env _ w2 w3' h3n' k hk
    · rw [if_neg hk]
      exact closeAll_short env k w2 hwf2 hfs2 (by rw [hcount]; omega)
  · simp only [closeEvent, h1, h2, h3']

theorem closeEvent_accepted_witness :
    sampleCleanWindow.WellFormed ∧
    ∃ w1 w2 w3,
      sampleCleanWindow.OnExitFullscreen = some w1 ∧
      verifyAll sampleEnv 2 0 w1 = some (true, w2) ∧
      closeAllCount sampleEnv 2 w2 = some (sampleCleanWindow.assets.length, w3) ∧
      (∀ k, closeAll sampleEnv k w2
        = if sampleCleanWindow.assets.length ≤ k then some w3 else none) ∧
      w3.assets = [] ∧ w3.tabs = [] ∧
      closeEvent sampleEnv 2 sampleCleanWindow
        = some (true,
            { ({ w3 with
                  settings := (((w3.settings.beginGroup "MainWindow").setValue "ScreenName"
                    (.string w3.screen.name)).setValue "ScreenGeometry"
                    (.byteArray sampleEnv.saveGeometry)).endGroup } : MainWindow).call
                .timerStop with
              currentAsset := none, tabs := [], currentIndex := none }) :=
  have hwf : sampleCleanWindow.WellFormed := by
    refine ⟨rfl, by decide, ?_, by decide⟩
    intro i hi
    cases hi
    exact ⟨by decide, rfl⟩
  ⟨hwf, closeEvent_accepted sampleEnv 2 sampleCleanWindow hwf (by decide) (by decide)⟩

/-! ## Loading keeps the assets and their tabs in step -/

theorem call_wellFormed {w : MainWindow} (c : Call) (h : w.WellFormed) : (w.call c).WellFormed :=
  h

theorem call_tabsShowAssets {w : MainWindow} (c : Call) (h : w.TabsShowAssets) :
    (w.call c).TabsShowAssets :=
  h

theorem findLoaded_defined (w : MainWindow) (fileName : String) :
    ∀ (n i : Nat), i + n ≤ w.assets.length →
      ∃ found, findLoaded w fileName i n = some found ∧
        ∀ j, found = some j → j < w.assets.length
  | 0, i, _ => ⟨none, rfl, fun j h => Option.noConfusion h⟩
  | n + 1, i, h => by
    have hi : i < w.assets.length := by omega
    have hg : w.GetAsset i = some (w.assets[i]) := by
      simp [GetAsset, List.getElem?_eq_getElem hi]
    by_cases hname : (w.assets[i]).fileName = fileName
    · refine ⟨some i, by simp [findLoaded, hg, hname], ?_⟩
      intro j hj
      cases hj
      exact hi
    · obtain ⟨found, hf, hb⟩ := findLoaded_defined w fileName n (i + 1) (by omega)
      exact ⟨found, by simp [findLoaded, hg, hname, hf], hb⟩

/-- Making an existing tab current keeps the window consistent. -/
theorem setCurrentIndex_consistent (w : MainWindow) (i : Nat) (hwf : w.WellFormed)
    (hi : i < w.tabs.length) :
    ∃ w' a, w.setCurrentIndex i = some w' ∧ w.assets[i]? = some a ∧ w'.WellFormed ∧
      w'.assets = w.assets ∧ w'.tabs = w.tabs ∧ w'.fullscreenWidget = w.fullscreenWidget ∧
      w'.currentAsset = some a.id := by
  have hia : i < w.assets.length := by rw [← hwf.1]; exact hi
  have ha : w.assets[i]? = some (w.assets[i]) := List.getElem?_eq_getElem hia
  obtain ⟨l, _, h⟩ := setCurrentIndex_result w i (w.assets[i]) hwf ha
  refine ⟨_, w.assets[i], h, ha, ⟨hwf.1, hwf.2.1, ?_, ?_⟩, rfl, rfl, rfl, rfl⟩
  · intro j hj
    have hij : i = j := Option.some.inj hj
    subst hij
    exact ⟨hi, by simp [ha]⟩
  · intro _ hnone
    cases hnone

/-- Refreshing the current asset changes neither the identities of the assets nor the
tabs, and keeps the window consistent. -/
theorem OnRefreshAsset_consistent (env : Env) (w : MainWindow) (a : Asset) (hwf : w.WellFormed)
    (hc : w.currentAsset = some a.id) (hd : w.deref a.id = some a) :
    ∃ r w', OnRefreshAsset env w = some (r, w') ∧ w'.WellFormed ∧
      w'.assets.map Asset.id = w.assets.map Asset.id ∧ w'.tabs = w.tabs ∧
      w'.fullscreenWidget = w.fullscreenWidget := by
  obtain ⟨w1, hv⟩ := VerifyNoUnsavedChanges_verdict env w a.id a true hd
  obtain ⟨l, _, hw1⟩ := VerifyNoUnsavedChanges_effect hv
  have hframe : w1.assets.map Asset.id = w.assets.map Asset.id ∧ w1.tabs = w.tabs ∧
      w1.currentIndex = w.currentIndex ∧ w1.currentAsset = w.currentAsset ∧
      w1.fullscreenWidget = w.fullscreenWidget := by
    rcases hw1 with hw1 | ⟨_, hw1⟩
    · subst hw1
      exact ⟨rfl, rfl, rfl, rfl, rfl⟩
    · subst hw1
      exact ⟨map_id_map_clean _ _, rfl, rfl, rfl, rfl⟩
  obtain ⟨h1a, h1t, h1ci, h1ca, h1f⟩ := hframe
  have hwf1 : w1.WellFormed :=
    wellFormed_of_same hwf h1a h1t h1ci h1ca (by intro hf; rw [h1f] at hf; exact hf)
  unfold OnRefreshAsset
  simp only [hc, hv]
  cases hb : verdict env a true with
  | false => exact ⟨false, w1, rfl, hwf1, h1a, h1t, h1f⟩
  | true => exact ⟨_, _, rfl, call_wellFormed _ hwf1, h1a, h1t, h1f⟩

/-- Appending a new asset and then its tab, as `TryLoadAsset` does, gives a consistent
window whose tabs show its assets; the index that `addTab` returns is the index of the
new asset, the last one. -/
theorem addTab_consistent (w : MainWindow) (result : Asset) (text : String) (hwf : w.WellFormed)
    (htabs : w.TabsShowAssets) (hfresh : result.id ∉ w.assets.map Asset.id) :
    ∃ w5, MainWindow.addTab { w with assets := w.assets ++ [result] } result.id text
        = some (w.tabs.length, w5) ∧
      w5.WellFormed ∧ w5.TabsShowAssets ∧ w5.assets = w.assets ++ [result] ∧
      w5.tabs = w.tabs ++ [⟨result.id, text⟩] ∧
      w5.fullscreenWidget = w.fullscreenWidget := by
  obtain ⟨hlen, hnodup, hcur, hfull⟩ := hwf
  have hlen' : (w.tabs ++ [(⟨result.id, text⟩ : Tab)]).length = (w.assets ++ [result]).length := by
    simp [hlen]
  have hnodup' : ((w.assets ++ [result]).map Asset.id).Nodup := by
    rw [List.map_append, List.map_cons, List.map_nil]
    exact List.Nodup.append hnodup (List.nodup_singleton _)
      (by
        intro x hx hx'
        rw [List.mem_singleton] at hx'
        subst hx'
        exact hfresh hx)
  have htabs' : (w.tabs ++ [(⟨result.id, text⟩ : Tab)]).map Tab.widget
      = (w.assets ++ [result]).map Asset.id := by
    unfold TabsShowAssets at htabs
    simp [htabs]
  unfold MainWindow.addTab
  by_cases h0 : w.tabs.length = 0
  · simp only [h0, if_true]
    obtain ⟨w', b, h, _, hwf', ha', ht', hf', _, _⟩ := setCurrent_wellFormed
      { w with assets := w.assets ++ [result], tabs := w.tabs ++ [⟨result.id, text⟩] } 0
      hlen' hnodup' (by simp)
    refine ⟨w', ?_, hwf', ?_, ha', ht', hf'⟩
    · rw [h]
      rfl
    · unfold TabsShowAssets
      rw [ht', ha']
      exact htabs'
  · simp only [h0, if_false]
    refine ⟨_, rfl, ⟨hlen', hnodup', ?_, hfull⟩, htabs', rfl, rfl, rfl⟩
    intro i hi
    obtain ⟨h1, h2⟩ := hcur i hi
    refine ⟨?_, ?_⟩
    · show i < (w.tabs ++ [(⟨result.id, text⟩ : Tab)]).length
      rw [List.length_append]
      omega
    · show w.currentAsset = ((w.assets ++ [result])[i]?).map Asset.id
      rw [List.getElem?_append_left (by omega), h2]

theorem addStack_effect (w : MainWindow) (stack : Nat) :
    ∃ u, w.addStack stack = { w with undoStacks := u } := by
  unfold addStack
  split
  · exact ⟨w.undoStacks, rfl⟩
  · exact ⟨_, rfl⟩

/-- The part of `TryLoadAsset` that takes the asset returned by the provider registry. -/
theorem addAsset_consistent (w : MainWindow) (result : Asset)
    (hwf : w.WellFormed) (htabs : w.TabsShowAssets)
    (hfresh : result.id ∉ w.assets.map Asset.id) :
    ∃ w5 w6,
      MainWindow.addTab { w.addStack result.id with assets := (w.addStack result.id).assets ++ [result] }
        result.id result.fileName = some (w5.assets.length - 1, w5) ∧
      w5.setCurrentIndex (w5.assets.length - 1) = some w6 ∧
      w6.WellFormed ∧ w6.TabsShowAssets ∧ w6.assets = w.assets ++ [result] ∧
      w6.fullscreenWidget = w.fullscreenWidget := by
  obtain ⟨u, hu⟩ := addStack_effect w result.id
  rw [hu]
  have hwf3 : ({ w with undoStacks := u } : MainWindow).WellFormed := hwf
  have htabs3 : ({ w with undoStacks := u } : MainWindow).TabsShowAssets := htabs
  obtain ⟨w5, h5, hwf5, ht5, h5a, h5t, h5f⟩ :=
    addTab_consistent { w with undoStacks := u } result result.fileName hwf3 htabs3 hfresh
  have hindex : w5.assets.length - 1 = w.tabs.length := by
    rw [h5a]
    show (w.assets ++ [result]).length - 1 = w.tabs.length
    rw [List.length_append, hwf.1]
    simp
  obtain ⟨w6, a, h6, _, hwf6, h6a, h6t, h6f, _⟩ := setCurrentIndex_consistent w5
    (w5.assets.length - 1) hwf5 (by rw [hindex, h5t]; simp)
  refine ⟨w5, w6, ?_, h6, hwf6, ?_, by rw [h6a, h5a], by rw [h6f, h5f]⟩
  · rw [hindex]
    exact h5
  · exact tabsShowAssets_of_same ht5 (by rw [h6a]) h6t

/-- On a consistent window whose tabs show its assets, `TryLoadAsset` returns and leaves
such a window, provided the asset object that the provider registry returns is none of
the assets that are open when it is returned. -/
theorem TryLoadAsset_consistent (env : Env) (w : MainWindow) (fileName : String)
    (hwf : w.WellFormed) (htabs : w.TabsShowAssets)
    (hfull : env.exitFullscreenEmits = true ∨ w.fullscreenWidget = false)
    (hfresh : ∀ a,
      env.registryLoad (env.absoluteFilePath (env.trimmed fileName)) = .asset (some a) →
      a.id ∉ (if env.oneAssetAtATime then w.assets.eraseIdx 0 else w.assets).map Asset.id) :
    ∃ r w', TryLoadAsset env w fileName = some (r, w') ∧ w'.WellFormed ∧
      w'.TabsShowAssets ∧ (w.fullscreenWidget = false → w'.fullscreenWidget = false) := by
  unfold TryLoadAsset
  by_cases hempty : (env.trimmed fileName).isEmpty = true
  · simp only [hempty, if_true]
    exact ⟨_, _, rfl, call_wellFormed _ hwf, call_tabsShowAssets _ htabs, fun h => h⟩
  · simp only [hempty, Bool.false_eq_true, if_false]
    by_cases hex : env.fileExists (env.trimmed fileName) = true
    · simp only [hex, Bool.not_true, Bool.false_eq_true, if_false]
      obtain ⟨found, hf, hb⟩ := findLoaded_defined w
        (env.absoluteFilePath (env.trimmed fileName)) w.tabs.length 0
        (by rw [hwf.1]; omega)
      simp only [hf]
      cases found with
      | some i =>
        have hi := hb i rfl
        obtain ⟨w1, a, h1, ha, hwf1, h1a, h1t, h1f, h1c⟩ :=
          setCurrentIndex_consistent w i hwf (by rw [hwf.1]; exact hi)
        have hd : w1.deref a.id = some a :=
          deref_of_getElem (by rw [h1a]; exact hwf.2.1) (by rw [h1a]; exact ha)
        obtain ⟨r, w2, h2, hwf2, h2a, h2t, h2f⟩ := OnRefreshAsset_consistent env w1 a hwf1 h1c hd
        have ht2 : w2.TabsShowAssets :=
          tabsShowAssets_of_same htabs (by rw [h2a, h1a]) (by rw [h2t, h1t])
        simp only [h1, h2]
        cases r with
        | true =>
          exact ⟨_, _, rfl, call_wellFormed _ hwf2, call_tabsShowAssets _ ht2,
            fun h => (h2f.trans h1f).trans h⟩
        | false => exact ⟨_, _, rfl, hwf2, ht2, fun h => (h2f.trans h1f).trans h⟩
      | none =>
        have hclose : ∃ r w1,
            (if env.oneAssetAtATime then TryCloseAsset env w 0 true env.allowCancelDefault
              else some (true, w)) = some (r, w1) ∧
            w1.WellFormed ∧ w1.TabsShowAssets ∧
            (w.fullscreenWidget = false → w1.fullscreenWidget = false) ∧
            (r = true → w1.assets.map Asset.id
              = (if env.oneAssetAtATime then w.assets.eraseIdx 0 else w.assets).map
                  Asset.id) := by
          by_cases hone : env.oneAssetAtATime = true
          · simp only [hone, if_true]
            obtain ⟨r, w1, h1, hwf1, ht1, hk, _, hr, _, _⟩ :=
              TryCloseAsset_consistent env w 0 true env.allowCancelDefault hwf hfull
            exact ⟨r, w1, h1, hwf1, ht1 htabs, hk, fun h => by rw [(hr h).2, map_eraseIdx]⟩
          · simp only [hone, Bool.false_eq_true, if_false]
            exact ⟨true, w, rfl, hwf, htabs, fun h => h, fun _ => rfl⟩
        obtain ⟨r, w1, h1, hwf1, ht1, hkeep, hids⟩ := hclose
        simp only [h1]
        cases r with
        | false => exact ⟨_, _, rfl, hwf1, ht1, hkeep⟩
        | true =>
          cases hload : env.registryLoad (env.absoluteFilePath (env.trimmed fileName)) with
          | assetException what =>
            exact ⟨_, _, rfl, call_wellFormed _ (call_wellFormed _ hwf1),
              call_tabsShowAssets _ (call_tabsShowAssets _ ht1), hkeep⟩
          | inExternalProgram loaded =>
            cases loaded with
            | true =>
              exact ⟨_, _, rfl, call_wellFormed _ (call_wellFormed _ hwf1),
                call_tabsShowAssets _ (call_tabsShowAssets _ ht1), hkeep⟩
            | false =>
              exact ⟨_, _, rfl, call_wellFormed _ hwf1, call_tabsShowAssets _ ht1, hkeep⟩
          | asset loaded =>
            cases loaded with
            | none =>
              exact ⟨_, _, rfl, call_wellFormed _ (call_wellFormed _ hwf1),
                call_tabsShowAssets _ (call_tabsShowAssets _ ht1), hkeep⟩
            | some result =>
              have hfr : result.id ∉ w1.assets.map Asset.id := by
                rw [hids rfl]
                exact hfresh result hload
              obtain ⟨w5, w6, h5, h6, hwf6, ht6, _, h6f⟩ := addAsset_consistent
                (w1.call (.registryLoad (env.absoluteFilePath (env.trimmed fileName))))
                result (call_wellFormed _ hwf1) (call_tabsShowAssets _ ht1) hfr
              simp only [h5, ne_eq, not_true_eq_false, if_false, h6]
              exact ⟨_, _, rfl, call_wellFormed _ hwf6, call_tabsShowAssets _ ht6,
                fun h => h6f.trans (hkeep h)⟩
    · simp only [hex, Bool.not_false, if_true]
      exact ⟨_, _, rfl, call_wellFormed _ hwf, call_tabsShowAssets _ htabs, fun h => h⟩

theorem getAsset_of_tabsShowAssets {w : MainWindow} (htabs : w.TabsShowAssets) {i : Nat}
    {tab : Tab} (ht : w.tabs[i]? = some tab) :
    ∃ a, w.GetAsset i = some a ∧ a.id = tab.widget := by
  unfold TabsShowAssets at htabs
  have h : (w.assets.map Asset.id)[i]? = some tab.widget := by
    rw [← htabs, List.getElem?_map, ht]
    rfl
  rw [List.getElem?_map] at h
  cases ha : w.assets[i]? with
  | none => rw [ha] at h; cases h
  | some a =>
    rw [ha] at h
    exact ⟨a, ha, Option.some.inj h⟩

/-- C16: the window of the constructor has no asset and no tab.  On a consistent window
whose tabs show its assets there are as many assets as tabs and `GetAsset(i)` is, for every
tab `i`, the asset whose widget the tab shows; `TryCloseAsset` and `TryLoadAsset` return
and leave such a window again; and when the asset that the provider registry returned is
appended, `addTab` returns the index of the last asset, so that the assertion of
`TryLoadAsset` holds.  The fullscreen widget has to give up the screen when asked, and the
asset object returned by the registry is none of the assets open at that time. -/
theorem TabsShowAssets_invariant (env : Env) (w : MainWindow) (fileName : String) (index : Nat)
    (verifyUnsavedChanges allowCancel : Bool) (screen : Screen) (settings : QSettings)
    (hwf : w.WellFormed) (htabs : w.TabsShowAssets)
    (hfull : env.exitFullscreenEmits = true ∨ w.fullscreenWidget = false)
    (hfresh : ∀ a,
      env.registryLoad (env.absoluteFilePath (env.trimmed fileName)) = .asset (some a) →
      a.id ∉ (if env.oneAssetAtATime then w.assets.eraseIdx 0 else w.assets).map Asset.id) :
    ((initial screen settings).assets = [] ∧ (initial screen settings).tabs = [] ∧
      (initial screen settings).WellFormed ∧ (initial screen settings).TabsShowAssets ∧
      (initial screen settings).fullscreenWidget = false) ∧
    (w.assets.length = w.tabs.length ∧
      ∀ i tab, w.tabs[i]? = some tab → ∃ a, w.GetAsset i = some a ∧ a.id = tab.widget) ∧
    (∃ r w', TryCloseAsset env w index verifyUnsavedChanges allowCancel = some (r, w') ∧
      w'.WellFormed ∧ w'.TabsShowAssets ∧
      (env.exitFullscreenEmits = true ∨ w'.fullscreenWidget = false)) ∧
    (∃ r w', TryLoadAsset env w fileName = some (r, w') ∧
      w'.WellFormed ∧ w'.TabsShowAssets ∧
      (env.exitFullscreenEmits = true ∨ w'.fullscreenWidget = false)) ∧
    (∀ result : Asset, result.id ∉ w.assets.map Asset.id →
      ∃ w5, MainWindow.addTab
          { w.addStack result.id with assets := (w.addStack result.id).assets ++ [result] }
          result.id result.fileName = some (w5.assets.length - 1, w5)) := by
  refine ⟨⟨rfl, rfl, ⟨rfl, List.nodup_nil, ?_, ?_⟩, rfl, rfl⟩,
    ⟨hwf.1.symm, fun i tab ht => getAsset_of_tabsShowAssets htabs ht⟩, ?_, ?_, ?_⟩
  · intro i hi
    cases hi
  · intro hf
    cases hf
  · obtain ⟨r, w', h, hwf', ht', hk, _⟩ :=
      TryCloseAsset_consistent env w index verifyUnsavedChanges allowCancel hwf hfull
    exact ⟨r, w', h, hwf', ht' htabs, hfull.imp (fun h => h) hk⟩
  · obtain ⟨r, w', h, hwf', ht', hk⟩ := TryLoadAsset_consistent env w fileName hwf htabs hfull hfresh
    exact ⟨r, w', h, hwf', ht', hfull.imp (fun h => h) hk⟩
  · intro result hr
    obtain ⟨w5, _, h5, _⟩ := addAsset_consistent w result hwf htabs hr
    exact ⟨w5, h5⟩

theorem TabsShowAssets_invariant_witness :
    sampleWindow.WellFormed ∧ sampleWindow.TabsShowAssets ∧
    (∃ r w', TryCloseAsset sampleEnv sampleWindow 0 true true = some (r, w') ∧
      w'.WellFormed ∧ w'.TabsShowAssets ∧
      (sampleEnv.exitFullscreenEmits = true ∨ w'.fullscreenWidget = false)) ∧
    (∃ r w', TryLoadAsset sampleEnv sampleWindow "/c.mdl" = some (r, w') ∧
      w'.WellFormed ∧ w'.TabsShowAssets ∧
      (sampleEnv.exitFullscreenEmits = true ∨ w'.fullscreenWidget = false)) :=
  have h := TabsShowAssets_invariant sampleEnv sampleWindow "/c.mdl" 0 true true ⟨0, "A"⟩ ⟨[], []⟩
    sampleWindow_wellFormed (by decide) (Or.inl rfl)
    (by
      intro a ha
      have hid : a.id = 7 := by
        have h7 : sampleEnv.registryLoad (sampleEnv.absoluteFilePath (sampleEnv.trimmed "/c.mdl"))
            = .asset (some ⟨7, "/c.mdl", true⟩) := by decide
        rw [h7] at ha
        cases ha
        rfl
      rw [hid]
      decide)
  ⟨sampleWindow_wellFormed, by decide, h.2.2.1, h.2.2.2.1⟩

end HLAM
